import Mathlib

/-
BasicDSP virtual machine: a shallow embedding of `src/virtualmachine.cpp`

The per-sample interpreter `VirtualMachine::executeProgram`, the loader
`VirtualMachine::loadProgram`, the control operations `start`, `stop`,
`setSlider` and `setSource`, the audio callback body
`VirtualMachine::processSamples`, the disassembler `VirtualMachine::dump` and
the run-button handler of `src/mainwindow.cpp` are rendered as Lean functions
with explicit state.

Conventions of the embedding.

* `float` values are elements of a carrier `F`, `double` values of a carrier
  `D`; every arithmetic primitive and every `math.h` call the code makes is an
  entry of `FloatOps F D`.  Theorems quantify over the carrier and the
  primitives, so they hold for IEEE binary32 as for any other arithmetic.
* The opcode constants `P_add`, `P_readvar`, ... come from `virtualmachine.h`,
  which is not among the sources; they are the entries of `Opcodes`, and the
  theorems hold for every assignment with pairwise different case labels.
* A raw pointer into `m_vars` (`m_lin`, `m_out`, `m_slider[i]`, ...) is the
  index of the slot it points to; the null pointer is `none`.
* An access outside the program, the variable table or the 2048-cell operand
  stack is undefined behaviour in C++; the embedding reports it as a fault
  (`none`, `LoopResult.fault`, `TickResult.fault`).
* The program counter and the stack pointer of the loop depend on no value in
  the stack or the table.  `indexStep`, `indexLoop` and `indexStates` follow
  these two `size_t` indices alone, also through an instruction that `step`
  ends as a fault; `step_index` and `loopStates_index` show that they agree
  with the interpreter wherever it makes no access out of range.
* `size_t` is 64 bits wide; decrementing `0` wraps to `2^64 - 1`.  The
  increments `pc++` and `sp++` cannot wrap (`pc` is below the program size and
  `sp` is at most 2044 when an instruction starts) and are plain additions.
* The `while` loop of `executeProgram` is run with a budget of
  `m_program.size()` iterations; `executeProgram_ne_outOfFuel` shows that the
  budget never runs out.
* What the environment answers is an input of the function that asks: the
  result of `m_controlMutex.tryLock()`, the values of `rand()`, the outcome
  of `Pa_OpenStream` and `Pa_StartStream`.  The sample buffers of the
  callback are lists, and an access outside a buffer is a fault.
-/

namespace BasicDSP

/- Data model -/

/-- The arithmetic the interpreter relies on: `float` constants and operators,
the conversions around `(int)`, and the `math.h` functions it calls. -/
structure FloatOps (F D : Type) where
  /-- The constant `0.0f`. -/
  zero : F
  /-- The constant `1.0f`. -/
  one : F
  /-- The constant `-1.0f`. -/
  negOne : F
  /-- The constant `2.0f`. -/
  two : F
  add : F → F → F
  sub : F → F → F
  mul : F → F → F
  div : F → F → F
  neg : F → F
  /-- The comparison `a < b` on floats. -/
  lt : F → F → Bool
  /-- The comparison `a != b` on floats. -/
  ne : F → F → Bool
  /-- The cast `(int)x`. -/
  toInt : F → Int
  /-- The conversion of an `int` to `float`. -/
  ofInt : Int → F
  sin : F → F
  cos : F → F
  tan : F → F
  tanh : F → F
  fabs : F → F
  sqrt : F → F
  round : F → F
  pow : F → F → F
  /-- The promotion of a `float` to `double`. -/
  toDouble : F → D
  /-- The conversion of a `double` stored into a `float` cell. -/
  ofDouble : D → F
  /-- The product of two doubles. -/
  dmul : D → D → D
  /-- The call `sin(double)`. -/
  dsin : D → D
  /-- The call `cos(double)`. -/
  dcos : D → D
  /-- The constant `M_PI`. -/
  M_PI : D

/-- The opcode constants of `virtualmachine.h`. -/
structure Opcodes where
  P_add : Nat
  P_sub : Nat
  P_mul : Nat
  P_div : Nat
  P_neg : Nat
  P_sin : Nat
  P_tan : Nat
  P_tanh : Nat
  P_cos : Nat
  P_sin1 : Nat
  P_cos1 : Nat
  P_literal : Nat
  P_mod1 : Nat
  P_abs : Nat
  P_sqrt : Nat
  P_round : Nat
  P_pow : Nat
  P_limit : Nat
  P_readvar : Nat
  P_writevar : Nat
  P_fir : Nat
  P_biquad : Nat

/-- The case labels of the simple-op `switch`, in source order. -/
def Opcodes.simpleLabels (oc : Opcodes) : List Nat :=
  [oc.P_add, oc.P_sub, oc.P_mul, oc.P_div, oc.P_neg, oc.P_sin, oc.P_tan, oc.P_tanh,
   oc.P_cos, oc.P_sin1, oc.P_cos1, oc.P_literal, oc.P_mod1, oc.P_abs, oc.P_sqrt,
   oc.P_round, oc.P_pow, oc.P_limit]

/-- The case labels of the special-instruction `switch`, in source order. -/
def Opcodes.specialLabels (oc : Opcodes) : List Nat :=
  [oc.P_readvar, oc.P_writevar, oc.P_fir, oc.P_biquad]

/-- A C++ `switch` only compiles when its case labels are pairwise different. -/
def Opcodes.Distinct (oc : Opcodes) : Prop :=
  oc.simpleLabels.Nodup ∧ oc.specialLabels.Nodup

instance (oc : Opcodes) : Decidable oc.Distinct := by
  unfold Opcodes.Distinct
  exact inferInstance

/-- One slot of the variable table (`VM::variable_t`). -/
structure variable_t (F : Type) where
  name : String
  value : F
deriving DecidableEq

/-- One cell of a program (`VM::instruction_t`): the cell read as an
instruction code and the same cell read as a float.  How the two views are
related is a matter of memory layout and is left open. -/
structure instruction_t (F : Type) where
  icode : Nat
  value : F
deriving DecidableEq

/-- One telemetry sample (`ring_buffer_data_t`). -/
structure ring_buffer_data_t (F : Type) where
  s1 : F
  s2 : F
deriving DecidableEq

/-- The input sources of `VirtualMachine::src_t`. -/
inductive src_t where
  | SRC_SOUNDCARD
  | SRC_WAV
  | SRC_NOISE
  | SRC_SINE
  | SRC_QUADSINE
  | SRC_IMPULSE
deriving DecidableEq

/-- The members of `VirtualMachine` that the modelled functions read or
write. -/
structure VirtualMachine (F : Type) where
  m_program : List (instruction_t F)
  m_vars : List (variable_t F)
  m_runState : Bool
  m_source : src_t
  /-- Whether `m_stream` is a non-null stream handle. -/
  m_stream : Bool
  m_lin : Option Nat
  m_rin : Option Nat
  m_lout : Option Nat
  m_rout : Option Nat
  m_in : Option Nat
  m_out : Option Nat
  /-- The array `float *m_slider[4]`. -/
  m_slider : List (Option Nat)
  m_leftLevel : F
  m_rightLevel : F
  /-- The contents of the two telemetry ring buffers. -/
  m_ringbuffer : List (List (ring_buffer_data_t F))
deriving DecidableEq

/- Machine integers -/

/-- The number of values of `size_t`. -/
def SIZE_T_RANGE : Nat := 2 ^ 64

/-- The subtraction `a - b` on `size_t`, wrapping below zero. -/
def sizeSub (a b : Nat) : Nat :=
  if b ≤ a then a - b else a + SIZE_T_RANGE - b

/-- The conversion `(int32_t)i` of a `size_t`. -/
def toInt32 (i : Nat) : Int :=
  if i % 2 ^ 32 < 2 ^ 31 then ((i % 2 ^ 32 : Nat) : Int)
  else ((i % 2 ^ 32 : Nat) : Int) - 2 ^ 32

/-- The conversion of an `int32_t` index to the `size_t` that
`std::vector::operator[]` receives. -/
def toSize (idx : Int) : Nat :=
  (idx % (SIZE_T_RANGE : Int)).toNat

/- `VM::findVariableByName` -/

/-- The `while` loop of `findVariableByName`: `rest` is the table from index
`i` on. -/
def findVariableByNameFrom {F : Type} (name : String) :
    List (variable_t F) → Nat → Int
  | [], _ => -1
  | v :: rest, i =>
    if v.name = name then toInt32 i else findVariableByNameFrom name rest (i + 1)

/-- The function `VM::findVariableByName`. -/
def findVariableByName {F : Type} (vars : List (variable_t F)) (name : String) : Int :=
  findVariableByNameFrom name vars 0

/- `VirtualMachine::init` and `VirtualMachine::loadProgram` -/

/-- The function `VirtualMachine::init`. -/
def init {F D : Type} (fl : FloatOps F D) (vm : VirtualMachine F) : VirtualMachine F :=
  { vm with
    m_lout := none
    m_lin := none
    m_rout := none
    m_rin := none
    m_in := none
    m_out := none
    m_slider := [none, none, none, none]
    m_leftLevel := fl.zero
    m_rightLevel := fl.zero
    m_ringbuffer := [[], []] }

/-- The statement pair `idx = findVariableByName(m_vars, name);
if (idx != -1) p = &(m_vars[idx].value);` as a function of the old pointer. -/
def bindPort {F : Type} (vars : List (variable_t F)) (name : String)
    (old : Option Nat) : Option Nat :=
  let idx := findVariableByName vars name
  if idx ≠ -1 then some (toSize idx) else old

/-- The function `VirtualMachine::loadProgram`. -/
def loadProgram {F D : Type} (fl : FloatOps F D) (vm : VirtualMachine F)
    (program : List (instruction_t F)) (vars : List (variable_t F)) :
    VirtualMachine F :=
  let vm := init fl vm
  let vm := { vm with m_vars := vars }
  let vm := { vm with m_program := program }
  let vm := { vm with m_lin := bindPort vm.m_vars "inl" vm.m_lin }
  let vm := { vm with m_rin := bindPort vm.m_vars "inr" vm.m_rin }
  let vm := { vm with m_lout := bindPort vm.m_vars "outl" vm.m_lout }
  let vm := { vm with m_rout := bindPort vm.m_vars "outr" vm.m_rout }
  let vm := { vm with m_out := bindPort vm.m_vars "out" vm.m_out }
  let vm := { vm with m_in := bindPort vm.m_vars "in" vm.m_in }
  let vm := { vm with
    m_slider := vm.m_slider.set 0 (bindPort vm.m_vars "slider1" (vm.m_slider.getD 0 none)) }
  let vm := { vm with
    m_slider := vm.m_slider.set 1 (bindPort vm.m_vars "slider2" (vm.m_slider.getD 1 none)) }
  let vm := { vm with
    m_slider := vm.m_slider.set 2 (bindPort vm.m_vars "slider3" (vm.m_slider.getD 2 none)) }
  let vm := { vm with
    m_slider := vm.m_slider.set 3 (bindPort vm.m_vars "slider4" (vm.m_slider.getD 3 none)) }
  vm

/- The operand stack and the variable table -/

/-- The capacity of `float stack[2048]`. -/
def STACK_SIZE : Nat := 2048

/-- The read `stack[i]`; `none` when `i` is outside the array. -/
def stackRead {F : Type} (stack : Nat → F) (i : Nat) : Option F :=
  if i < STACK_SIZE then some (stack i) else none

/-- The write `stack[i] = v`; `none` when `i` is outside the array. -/
def stackWrite {F : Type} (stack : Nat → F) (i : Nat) (v : F) : Option (Nat → F) :=
  if i < STACK_SIZE then some (Function.update stack i v) else none

/-- The read `m_vars[n].value`, also the read `*p` through a pointer to slot
`n`; `none` when there is no such slot. -/
def readVar {F : Type} (vars : List (variable_t F)) (n : Nat) : Option F :=
  match vars[n]? with
  | some v => some v.value
  | none => none

/-- The write `m_vars[n].value = x`, also the write `*p = x` through a pointer
to slot `n`; `none` when there is no such slot. -/
def writeVar {F : Type} (vars : List (variable_t F)) (n : Nat) (x : F) :
    Option (List (variable_t F)) :=
  match vars[n]? with
  | some v => some (vars.set n { v with value := x })
  | none => none

/-- The write `*p = x` guarded by `if (p != 0)`. -/
def writePort {F : Type} (vars : List (variable_t F)) (p : Option Nat) (x : F) :
    Option (List (variable_t F)) :=
  match p with
  | some n => writeVar vars n x
  | none => some vars

/- `VirtualMachine::executeProgram` -/

/-- The function `VirtualMachine::execFIR`. -/
def execFIR (_n : Nat) : Nat := 0

/-- The function `VirtualMachine::execBiquad`. -/
def execBiquad (_n : Nat) : Nat := 0

/-- The call `std::min(a, b)` of the standard library. -/
def stdMin {F D : Type} (fl : FloatOps F D) (a b : F) : F :=
  if fl.lt b a then b else a

/-- The call `std::max(a, b)` of the standard library. -/
def stdMax {F D : Type} (fl : FloatOps F D) (a b : F) : F :=
  if fl.lt a b then b else a

/-- The local state of the interpreter loop together with the variable
table it writes. -/
structure ExecState (F : Type) where
  pc : Nat
  sp : Nat
  stack : Nat → F
  vars : List (variable_t F)

/-- A unary case `stack[sp-1] = f(stack[sp-1])`. -/
def unaryOp {F : Type} (f : F → F) (pc : Nat) (s : ExecState F) : Option (ExecState F) := do
  let x ← stackRead s.stack (sizeSub s.sp 1)
  let stack ← stackWrite s.stack (sizeSub s.sp 1) (f x)
  pure { s with pc := pc, stack := stack }

/-- A binary case `sp--; stack[sp-1] = f(stack[sp-1], stack[sp])`. -/
def binaryOp {F : Type} (f : F → F → F) (pc : Nat) (s : ExecState F) :
    Option (ExecState F) := do
  let sp := sizeSub s.sp 1
  let a ← stackRead s.stack (sizeSub sp 1)
  let b ← stackRead s.stack sp
  let stack ← stackWrite s.stack (sizeSub sp 1) (f a b)
  pure { s with pc := pc, sp := sp, stack := stack }

/-- The cases of the `switch` over special instructions. -/
inductive SpecialCase where
  | readvar
  | writevar
  | fir
  | biquad
  | default
deriving DecidableEq

/-- The cases of the `switch` over simple instructions. -/
inductive SimpleCase where
  | add
  | sub
  | mul
  | div
  | neg
  | sin
  | tan
  | tanh
  | cos
  | sin1
  | cos1
  | literal
  | mod1
  | abs
  | sqrt
  | round
  | pow
  | limit
  | default
deriving DecidableEq

/-- The case that `switch(instruction.icode & 0xff000000)` selects. -/
def selectSpecial (oc : Opcodes) (sel : Nat) : SpecialCase :=
  if sel = oc.P_readvar then SpecialCase.readvar
  else if sel = oc.P_writevar then SpecialCase.writevar
  else if sel = oc.P_fir then SpecialCase.fir
  else if sel = oc.P_biquad then SpecialCase.biquad
  else SpecialCase.default

/-- The case that `switch(instruction.icode)` selects. -/
def selectSimple (oc : Opcodes) (c : Nat) : SimpleCase :=
  if c = oc.P_add then SimpleCase.add
  else if c = oc.P_sub then SimpleCase.sub
  else if c = oc.P_mul then SimpleCase.mul
  else if c = oc.P_div then SimpleCase.div
  else if c = oc.P_neg then SimpleCase.neg
  else if c = oc.P_sin then SimpleCase.sin
  else if c = oc.P_tan then SimpleCase.tan
  else if c = oc.P_tanh then SimpleCase.tanh
  else if c = oc.P_cos then SimpleCase.cos
  else if c = oc.P_sin1 then SimpleCase.sin1
  else if c = oc.P_cos1 then SimpleCase.cos1
  else if c = oc.P_literal then SimpleCase.literal
  else if c = oc.P_mod1 then SimpleCase.mod1
  else if c = oc.P_abs then SimpleCase.abs
  else if c = oc.P_sqrt then SimpleCase.sqrt
  else if c = oc.P_round then SimpleCase.round
  else if c = oc.P_pow then SimpleCase.pow
  else if c = oc.P_limit then SimpleCase.limit
  else SimpleCase.default

/-- One pass through the body of the `while` loop, up to but not including
the test `sp > 2044`: fetch `m_program[pc++]`, select the case, execute it. -/
def step {F D : Type} (oc : Opcodes) (fl : FloatOps F D)
    (program : List (instruction_t F)) (s : ExecState F) : Option (ExecState F) :=
  match program[s.pc]? with
  | none => none
  | some instruction =>
    let pc := s.pc + 1
    if instruction.icode &&& 0x80000000 ≠ 0 then
      let n := instruction.icode &&& 0xFFFF
      match selectSpecial oc (instruction.icode &&& 0xff000000) with
      | SpecialCase.readvar => do
        let x ← readVar s.vars n
        let stack ← stackWrite s.stack s.sp x
        pure { s with pc := pc, sp := s.sp + 1, stack := stack }
      | SpecialCase.writevar => do
        let sp := sizeSub s.sp 1
        let x ← stackRead s.stack sp
        let vars ← writeVar s.vars n x
        pure { s with pc := pc, sp := sp, vars := vars }
      | SpecialCase.fir =>
        some { s with pc := pc, sp := sizeSub s.sp (execFIR n) }
      | SpecialCase.biquad =>
        some { s with pc := pc, sp := sizeSub s.sp (execBiquad n) }
      | SpecialCase.default =>
        some { s with pc := pc }
    else
      match selectSimple oc instruction.icode with
      | SimpleCase.add => binaryOp fl.add pc s
      | SimpleCase.sub => binaryOp fl.sub pc s
      | SimpleCase.mul => binaryOp fl.mul pc s
      | SimpleCase.div => binaryOp fl.div pc s
      | SimpleCase.neg => unaryOp fl.neg pc s
      | SimpleCase.sin => unaryOp fl.sin pc s
      | SimpleCase.tan => unaryOp fl.tan pc s
      | SimpleCase.tanh => unaryOp fl.tanh pc s
      | SimpleCase.cos => unaryOp fl.cos pc s
      | SimpleCase.sin1 =>
        unaryOp (fun x => fl.ofDouble (fl.dsin
          (fl.dmul (fl.dmul (fl.toDouble fl.two) fl.M_PI) (fl.toDouble x)))) pc s
      | SimpleCase.cos1 =>
        unaryOp (fun x => fl.ofDouble (fl.dcos
          (fl.dmul (fl.dmul (fl.toDouble fl.two) fl.M_PI) (fl.toDouble x)))) pc s
      | SimpleCase.literal =>
        match program[pc]? with
        | none => none
        | some payload => do
          let stack ← stackWrite s.stack s.sp payload.value
          pure { s with pc := pc + 1, sp := s.sp + 1, stack := stack }
      | SimpleCase.mod1 =>
        unaryOp (fun x => fl.sub x (fl.ofInt (fl.toInt x))) pc s
      | SimpleCase.abs => unaryOp fl.fabs pc s
      | SimpleCase.sqrt => unaryOp fl.sqrt pc s
      | SimpleCase.round => do
        let sp := sizeSub s.sp 1
        let b ← stackRead s.stack sp
        if fl.ne b fl.zero then do
          let a ← stackRead s.stack (sizeSub sp 1)
          let stack ← stackWrite s.stack (sizeSub sp 1) (fl.mul b (fl.round (fl.div a b)))
          pure { s with pc := pc, sp := sp, stack := stack }
        else
          pure { s with pc := pc, sp := sp }
      | SimpleCase.pow => binaryOp fl.pow pc s
      | SimpleCase.limit => do
        let x ← stackRead s.stack (sizeSub s.sp 1)
        let stack ← stackWrite s.stack (sizeSub s.sp 1) (stdMin fl x fl.one)
        let y ← stackRead stack (sizeSub s.sp 1)
        let stack ← stackWrite stack (sizeSub s.sp 1) (stdMax fl y fl.negOne)
        pure { s with pc := pc, stack := stack }
      | SimpleCase.default =>
        some { s with pc := pc }

/-- How the interpreter loop ended. -/
inductive LoopResult (F : Type) where
  /-- An access outside the program, the table or the stack. -/
  | fault : LoopResult F
  /-- The iteration budget given to `runLoop` ran out. -/
  | outOfFuel : LoopResult F
  /-- The loop was left by `return` at the test `sp > 2044`. -/
  | overflow (s : ExecState F) : LoopResult F
  /-- The loop condition `pc < instructions` became false. -/
  | finished (s : ExecState F) : LoopResult F

/-- The loop `while (pc < instructions)` with its body and the test
`if (sp > 2044) return;`, run for at most `fuel` iterations. -/
def runLoop {F D : Type} (oc : Opcodes) (fl : FloatOps F D)
    (program : List (instruction_t F)) : Nat → ExecState F → LoopResult F
  | fuel, s =>
    if s.pc < program.length then
      match fuel with
      | 0 => LoopResult.outOfFuel
      | fuel + 1 =>
        match step oc fl program s with
        | none => LoopResult.fault
        | some s1 => if s1.sp > 2044 then LoopResult.overflow s1 else runLoop oc fl program fuel s1
    else LoopResult.finished s

/-- The block "setup input signal" of `executeProgram`. -/
def bindInputs {F D : Type} (fl : FloatOps F D) (vm : VirtualMachine F)
    (inLeft inRight : F) : Option (List (variable_t F)) := do
  let vars ← writePort vm.m_vars vm.m_in (fl.div (fl.add inLeft inRight) fl.two)
  let vars ← writePort vars vm.m_lin inLeft
  writePort vars vm.m_rin inRight

/-- The statement `if (p != 0) x = *p; else x = 0.0f;` for one output. -/
def readPort {F D : Type} (fl : FloatOps F D) (vars : List (variable_t F))
    (p : Option Nat) : Option F :=
  match p with
  | some n => readVar vars n
  | none => some fl.zero

/-- The block after the loop of `executeProgram` that assigns `outLeft` and
`outRight`, reading the table `vars` through the output pointers. -/
def readOutputs {F D : Type} (fl : FloatOps F D) (vm : VirtualMachine F)
    (vars : List (variable_t F)) : Option (F × F) :=
  match vm.m_out with
  | some p => do
    let x ← readVar vars p
    pure (x, x)
  | none => do
    let l ← readPort fl vars vm.m_lout
    let r ← readPort fl vars vm.m_rout
    pure (l, r)

/-- The three ways `executeProgram` returns. -/
inductive Exit where
  /-- The early return for an empty program or a stopped machine. -/
  | idle
  /-- The return at the test `sp > 2044`. -/
  | overflow
  /-- The return at the end of the function. -/
  | finished
deriving DecidableEq

/-- What a call of `executeProgram` leaves behind. -/
inductive TickResult (F : Type) where
  /-- The call made an access outside the program, the table or the stack. -/
  | fault : TickResult F
  /-- The loop did not end within `m_program.size()` iterations. -/
  | outOfFuel : TickResult F
  /-- The call returned: the machine afterwards and the contents of the
  locations `outLeft` and `outRight`. -/
  | returned (how : Exit) (vm : VirtualMachine F) (outLeft outRight : F) : TickResult F
deriving DecidableEq

/-- What `executeProgram` does once the loop has ended: nothing more after the
`return` at the test `sp > 2044`, the block that assigns the outputs after a
loop that ran to the end of the program. -/
def afterLoop {F D : Type} (fl : FloatOps F D) (vm : VirtualMachine F)
    (outLeft outRight : F) : LoopResult F → TickResult F
  | LoopResult.fault => TickResult.fault
  | LoopResult.outOfFuel => TickResult.outOfFuel
  | LoopResult.overflow s =>
    TickResult.returned Exit.overflow { vm with m_vars := s.vars } outLeft outRight
  | LoopResult.finished s =>
    match readOutputs fl vm s.vars with
    | none => TickResult.fault
    | some (l, r) => TickResult.returned Exit.finished { vm with m_vars := s.vars } l r

/-- The function `VirtualMachine::executeProgram`.  The arguments `outLeft`
and `outRight` are the contents of the two output locations before the call,
and `stack` is the indeterminate initial content of the local array. -/
def executeProgram {F D : Type} (oc : Opcodes) (fl : FloatOps F D)
    (vm : VirtualMachine F) (stack : Nat → F)
    (inLeft inRight outLeft outRight : F) : TickResult F :=
  let instructions := vm.m_program.length
  if instructions = 0 ∨ vm.m_runState = false then
    TickResult.returned Exit.idle vm fl.zero fl.zero
  else
    match bindInputs fl vm inLeft inRight with
    | none => TickResult.fault
    | some vars =>
      afterLoop fl vm outLeft outRight
        (runLoop oc fl vm.m_program instructions
          { pc := 0, sp := 0, stack := stack, vars := vars })

/- Control operations -/

/-- The function `VirtualMachine::setSlider`. -/
def setSlider {F : Type} (vm : VirtualMachine F) (id : Nat) (value : F) :
    Option (VirtualMachine F) :=
  if id < 4 then
    match vm.m_slider.getD id none with
    | some p =>
      match writeVar vm.m_vars p value with
      | some vars => some { vm with m_vars := vars }
      | none => none
    | none => some vm
  else some vm

/-- The function `VirtualMachine::setSource`. -/
def setSource {F : Type} (vm : VirtualMachine F) (source : src_t) : VirtualMachine F :=
  { vm with m_source := source }

/-- The function `VirtualMachine::stop`. -/
def stop {F D : Type} (fl : FloatOps F D) (vm : VirtualMachine F) : VirtualMachine F :=
  { vm with
    m_stream := false
    m_leftLevel := fl.zero
    m_rightLevel := fl.zero
    m_runState := false }

/-- What the audio library answers to `Pa_OpenStream` followed by
`Pa_StartStream`. -/
inductive PaOutcome where
  /-- Both calls returned `paNoError`. -/
  | started
  /-- The stream was opened and `Pa_StartStream` failed. -/
  | startFailed
  /-- The call `Pa_OpenStream` failed; `stream` tells whether it left a non-null
  handle in `m_stream`. -/
  | openFailed (stream : Bool)
deriving DecidableEq

/-- The function `VirtualMachine::start`, with the answer of the audio library
as an argument; the second component is the returned flag. -/
def start {F D : Type} (fl : FloatOps F D) (vm : VirtualMachine F) (pa : PaOutcome) :
    VirtualMachine F × Bool :=
  let vm := if vm.m_stream then { vm with m_runState := false } else vm
  let vm := { vm with m_leftLevel := fl.zero, m_rightLevel := fl.zero }
  match pa with
  | PaOutcome.started => ({ vm with m_stream := true, m_runState := true }, true)
  | PaOutcome.startFailed => ({ vm with m_stream := true }, false)
  | PaOutcome.openFailed stream => ({ vm with m_stream := stream }, false)

/- The run-button handler of `mainwindow.cpp` -/

/-- The front end the handler calls (`Reader`, `Tokenizer`, `Parser`,
`ASTToVM`), none of which is among the sources: each call is an entry that
returns the flag of the call together with what it stored in its output
argument. -/
structure FrontEnd (F Text Reader Token Statement : Type) where
  /-- The call `Reader::create(text)`; `none` is the null pointer. -/
  create : Text → Option Reader
  /-- The call `tokenizer.process(reader, tokens)`. -/
  tokenize : Reader → Bool × List Token
  /-- The call `parser.process(tokens, statements)`. -/
  parse : List Token → Bool × List Statement
  /-- The call `ASTToVM::process(statements, program, vars)`. -/
  astToVM : List Statement → Bool × List (instruction_t F) × List (variable_t F)

/-- The members of `MainWindow` that the handler reads or writes. -/
structure MainWindow (F Text : Type) where
  /-- The text of `ui->sourceEditor`. -/
  sourceEditor : Text
  /-- The value of the slider widget `m_slider1`. -/
  m_slider1 : F
  m_slider2 : F
  m_slider3 : F
  m_slider4 : F
  /-- Whether the status bar shows "Program accepted!" (otherwise it shows
  "Program error on line ..."), when the handler has set it. -/
  statusAccepted : Option Bool
  /-- The pointer `m_machine`. -/
  m_machine : Option (VirtualMachine F)

/-- The function `MainWindow::on_runButton_clicked`; `none` when a slider
write goes through a dangling pointer.  The flag of the tokenizer only feeds
debug output; debug output (`qDebug`, `dump`) changes no state and is left
out. -/
def on_runButton_clicked {F D Text Reader Token Statement : Type}
    (fe : FrontEnd F Text Reader Token Statement) (fl : FloatOps F D) (pa : PaOutcome)
    (w : MainWindow F Text) : Option (MainWindow F Text) :=
  match fe.create w.sourceEditor with
  | none => some w
  | some reader =>
    let tokens := (fe.tokenize reader).2
    let parseOK := (fe.parse tokens).1
    let statements := (fe.parse tokens).2
    let w := { w with statusAccepted := some parseOK }
    let converted := (fe.astToVM statements).1
    let program := (fe.astToVM statements).2.1
    let vars := (fe.astToVM statements).2.2
    if converted = false then some w
    else
      match w.m_machine with
      | none => some w
      | some machine => do
        let machine := stop fl machine
        let machine := loadProgram fl machine program vars
        let machine ← setSlider machine 0 w.m_slider1
        let machine ← setSlider machine 1 w.m_slider2
        let machine ← setSlider machine 2 w.m_slider3
        let machine ← setSlider machine 3 w.m_slider4
        let machine := (start fl machine pa).1
        pure { w with m_machine := some machine }

/- Vocabulary of the statements -/

/-- The cell `c` is decoded by `executeProgram` as the instruction
"push variable `n`". -/
def IsReadVar {F : Type} (oc : Opcodes) (c : instruction_t F) (n : Nat) : Prop :=
  c.icode &&& 0x80000000 ≠ 0 ∧ c.icode &&& 0xff000000 = oc.P_readvar ∧ c.icode &&& 0xFFFF = n

/-- The cell `c` is decoded by `executeProgram` as the instruction
"pop into variable `n`". -/
def IsWriteVar {F : Type} (oc : Opcodes) (c : instruction_t F) (n : Nat) : Prop :=
  c.icode &&& 0x80000000 ≠ 0 ∧ c.icode &&& 0xff000000 = oc.P_writevar ∧ c.icode &&& 0xFFFF = n

/-- The cell `c` is decoded by `executeProgram` as the simple instruction
with case label `code`. -/
def IsSimple {F : Type} (c : instruction_t F) (code : Nat) : Prop :=
  c.icode &&& 0x80000000 = 0 ∧ c.icode = code

instance {F : Type} (oc : Opcodes) (c : instruction_t F) (n : Nat) :
    Decidable (IsReadVar oc c n) := by
  unfold IsReadVar
  exact inferInstance

instance {F : Type} (oc : Opcodes) (c : instruction_t F) (n : Nat) :
    Decidable (IsWriteVar oc c n) := by
  unfold IsWriteVar
  exact inferInstance

instance {F : Type} (c : instruction_t F) (code : Nat) : Decidable (IsSimple c code) := by
  unfold IsSimple
  exact inferInstance

/-- The index of the first slot of the table whose name is `name`, if there
is one: the slot a port called `name` stands for. -/
def slotNamed {F : Type} (vars : List (variable_t F)) (name : String) : Option Nat :=
  vars.findIdx? (fun v => decide (v.name = name))

/-- The port pointers of the machine are the ones `loadProgram` resolves from
the table of the machine itself. -/
def Loaded {F D : Type} (fl : FloatOps F D) (vm : VirtualMachine F) : Prop :=
  vm.m_lin = (loadProgram fl vm vm.m_program vm.m_vars).m_lin ∧
  vm.m_rin = (loadProgram fl vm vm.m_program vm.m_vars).m_rin ∧
  vm.m_lout = (loadProgram fl vm vm.m_program vm.m_vars).m_lout ∧
  vm.m_rout = (loadProgram fl vm vm.m_program vm.m_vars).m_rout ∧
  vm.m_in = (loadProgram fl vm vm.m_program vm.m_vars).m_in ∧
  vm.m_out = (loadProgram fl vm vm.m_program vm.m_vars).m_out ∧
  vm.m_slider = (loadProgram fl vm vm.m_program vm.m_vars).m_slider

/-- The binary cases named by the operand-order rule, each with the operation
it applies. -/
def binaryCases {F D : Type} (oc : Opcodes) (fl : FloatOps F D) : List (Nat × (F → F → F)) :=
  [(oc.P_add, fl.add), (oc.P_sub, fl.sub), (oc.P_mul, fl.mul), (oc.P_div, fl.div),
   (oc.P_pow, fl.pow)]

/-- The case labels of the unary operations named by the operand-order
rule. -/
def unaryLabels (oc : Opcodes) : List Nat :=
  [oc.P_neg, oc.P_sin, oc.P_cos, oc.P_sin1, oc.P_cos1, oc.P_tan, oc.P_tanh, oc.P_abs,
   oc.P_sqrt, oc.P_mod1, oc.P_limit]

/- Vocabulary of the control operations -/

/-- The name `loadProgram` looks up for `m_slider[id]`. -/
def sliderName (id : Nat) : String :=
  match id with
  | 0 => "slider1"
  | 1 => "slider2"
  | 2 => "slider3"
  | _ => "slider4"

/-- The state the constructor `VirtualMachine::VirtualMachine` leaves: no
stream, not running, everything `init` clears, the sound card as source, and
the default-constructed empty program and table. -/
def construct {F D : Type} (fl : FloatOps F D) : VirtualMachine F where
  m_program := []
  m_vars := []
  m_runState := false
  m_source := src_t.SRC_SOUNDCARD
  m_stream := false
  m_lin := none
  m_rin := none
  m_lout := none
  m_rout := none
  m_in := none
  m_out := none
  m_slider := [none, none, none, none]
  m_leftLevel := fl.zero
  m_rightLevel := fl.zero
  m_ringbuffer := [[], []]

/-- The machine states that a sequence of calls of `start`, `stop`,
`loadProgram`, `setSlider` and `setSource` reaches from the constructed
machine, with any answers of the audio library. -/
inductive Reachable {F D : Type} (fl : FloatOps F D) : VirtualMachine F → Prop where
  | construct : Reachable fl (construct fl)
  | start (vm : VirtualMachine F) (pa : PaOutcome) :
      Reachable fl vm → Reachable fl (start fl vm pa).1
  | stop (vm : VirtualMachine F) : Reachable fl vm → Reachable fl (stop fl vm)
  | loadProgram (vm : VirtualMachine F) (program : List (instruction_t F))
      (vars : List (variable_t F)) :
      Reachable fl vm → Reachable fl (loadProgram fl vm program vars)
  | setSlider (vm vm1 : VirtualMachine F) (id : Nat) (value : F) :
      Reachable fl vm → setSlider vm id value = some vm1 → Reachable fl vm1
  | setSource (vm : VirtualMachine F) (source : src_t) :
      Reachable fl vm → Reachable fl (setSource vm source)

/-- The cell `c` is decoded by `executeProgram` as the instruction `P_fir`
with argument count `n`. -/
def IsFir {F : Type} (oc : Opcodes) (c : instruction_t F) (n : Nat) : Prop :=
  c.icode &&& 0x80000000 ≠ 0 ∧ c.icode &&& 0xff000000 = oc.P_fir ∧ c.icode &&& 0xFFFF = n

/-- The cell `c` is decoded by `executeProgram` as the instruction `P_biquad`
with argument count `n`. -/
def IsBiquad {F : Type} (oc : Opcodes) (c : instruction_t F) (n : Nat) : Prop :=
  c.icode &&& 0x80000000 ≠ 0 ∧ c.icode &&& 0xff000000 = oc.P_biquad ∧ c.icode &&& 0xFFFF = n

instance {F : Type} (oc : Opcodes) (c : instruction_t F) (n : Nat) :
    Decidable (IsFir oc c n) := by
  unfold IsFir
  exact inferInstance

instance {F : Type} (oc : Opcodes) (c : instruction_t F) (n : Nat) :
    Decidable (IsBiquad oc c n) := by
  unfold IsBiquad
  exact inferInstance

/- `VirtualMachine::processSamples` -/

/-- The constants of `processSamples` that are not entries of `FloatOps`. -/
structure SampleConsts (F : Type) where
  /-- The constant `0.9f`. -/
  c0_9 : F
  /-- The constant `1000.0f`. -/
  c1000 : F
  /-- The constant `RAND_MAX` of `stdlib.h`. -/
  RAND_MAX : Int

/-- The number of elements each telemetry ring buffer is initialised with. -/
def RING_SIZE : Nat := 32768

/-- The call `PaUtil_WriteRingBuffer(&rb, &data, 1)` of the audio library: the
element is appended when the buffer has room for it and dropped when not. -/
def PaUtil_WriteRingBuffer {F : Type} (rb : List (ring_buffer_data_t F))
    (data : ring_buffer_data_t F) : List (ring_buffer_data_t F) :=
  if rb.length < RING_SIZE then rb ++ [data] else rb

/-- The read `buf[i]` of a sample buffer; `none` outside the buffer. -/
def readBuf {F : Type} (buf : List F) (i : Nat) : Option F := buf[i]?

/-- The write `buf[i] = x` of a sample buffer; `none` outside the buffer. -/
def writeBuf {F : Type} (buf : List F) (i : Nat) (x : F) : Option (List F) :=
  if i < buf.length then some (buf.set i x) else none

/-- The loop of `processSamples` that mutes the output when the lock is not
acquired: `k` frames are left and `outbuf` has advanced by `p` cells. -/
def muteLoop {F D : Type} (fl : FloatOps F D) : Nat → Nat → List F → Option (List F)
  | 0, _, outbuf => some outbuf
  | k + 1, p, outbuf => do
    let outbuf ← writeBuf outbuf p fl.zero
    let outbuf ← writeBuf outbuf (p + 1) fl.zero
    muteLoop fl k (p + 2) outbuf

/-- The `switch(m_source)` of `processSamples` for frame `i`: the pair
(left, right) and the number of cells `inbuf` advances by.  `rand k` is what
the `k`-th call of `rand()` in this callback returns, and `p` is the number
of cells `inbuf` has advanced by so far. -/
def sourceFrame {F D : Type} (fl : FloatOps F D) (sc : SampleConsts F) (source : src_t)
    (rand : Nat → Int) (inbuf : List F) (i p : Nat) : Option (F × F × Nat) :=
  match source with
  | src_t.SRC_SOUNDCARD => do
    let left ← readBuf inbuf p
    let right ← readBuf inbuf (p + 1)
    pure (left, right, 2)
  | src_t.SRC_WAV => some (fl.zero, fl.zero, 0)
  | src_t.SRC_NOISE =>
    some (fl.add fl.negOne
            (fl.div (fl.mul fl.two (fl.ofInt (rand (2 * i)))) (fl.ofInt sc.RAND_MAX)),
          fl.add fl.negOne
            (fl.div (fl.mul fl.two (fl.ofInt (rand (2 * i + 1)))) (fl.ofInt sc.RAND_MAX)),
          0)
  | src_t.SRC_SINE => some (fl.zero, fl.zero, 0)
  | src_t.SRC_QUADSINE => some (fl.zero, fl.zero, 0)
  | src_t.SRC_IMPULSE => some (fl.zero, fl.zero, 0)

/-- The statement `if (x_abs > level) level = x_abs;`. -/
def raiseLevel {F D : Type} (fl : FloatOps F D) (level xAbs : F) : F :=
  if fl.lt level xAbs then xAbs else level

/-- The body of the frame loop of `processSamples` for frame `i`; `stack` is
the indeterminate content of the local array of `executeProgram`.  The result
is the machine, the output buffer and the advance of `inbuf` afterwards;
`none` when an access leaves a buffer or `executeProgram` does not return. -/
def processFrame {F D : Type} (oc : Opcodes) (fl : FloatOps F D) (sc : SampleConsts F)
    (rand : Nat → Int) (stack : Nat → F) (inbuf : List F) (i : Nat)
    (vm : VirtualMachine F) (outbuf : List F) (p : Nat) :
    Option (VirtualMachine F × List F × Nat) := do
  let (left, right, adv) ← sourceFrame fl sc vm.m_source rand inbuf i p
  let leftAbs := fl.fabs (fl.mul left sc.c1000)
  let rightAbs := fl.fabs (fl.mul right sc.c1000)
  let vm := { vm with m_leftLevel := raiseLevel fl vm.m_leftLevel leftAbs }
  let vm := { vm with m_rightLevel := raiseLevel fl vm.m_rightLevel rightAbs }
  let j := (i * 2) % 2 ^ 32
  let outLeft ← readBuf outbuf j
  let outRight ← readBuf outbuf (j + 1)
  match executeProgram oc fl vm stack left right outLeft outRight with
  | TickResult.returned _ vm l r => do
    let outbuf ← writeBuf outbuf j l
    let outbuf ← writeBuf outbuf (j + 1) r
    let data : ring_buffer_data_t F := { s1 := l, s2 := r }
    let vm := { vm with
      m_ringbuffer := vm.m_ringbuffer.modify (fun rb => PaUtil_WriteRingBuffer rb data) 0 }
    let vm := { vm with
      m_ringbuffer := vm.m_ringbuffer.modify (fun rb => PaUtil_WriteRingBuffer rb data) 1 }
    pure (vm, outbuf, p + adv)
  | TickResult.fault => none
  | TickResult.outOfFuel => none

/-- The frame loop of `processSamples`: `k` frames are left, `i` is the loop
counter. -/
def frameLoop {F D : Type} (oc : Opcodes) (fl : FloatOps F D) (sc : SampleConsts F)
    (rand : Nat → Int) (stackOf : Nat → Nat → F) (inbuf : List F) :
    Nat → Nat → VirtualMachine F → List F → Nat → Option (VirtualMachine F × List F)
  | 0, _, vm, outbuf, _ => some (vm, outbuf)
  | k + 1, i, vm, outbuf, p =>
    match processFrame oc fl sc rand (stackOf i) inbuf i vm outbuf p with
    | none => none
    | some (vm, outbuf, p) => frameLoop oc fl sc rand stackOf inbuf k (i + 1) vm outbuf p

/-- The function `VirtualMachine::processSamples`.  `locked` is what
`m_controlMutex.tryLock()` returns; the result is the machine and the output
buffer afterwards. -/
def processSamples {F D : Type} (oc : Opcodes) (fl : FloatOps F D) (sc : SampleConsts F)
    (locked : Bool) (rand : Nat → Int) (stackOf : Nat → Nat → F)
    (vm : VirtualMachine F) (inbuf outbuf : List F) (framesPerBuffer : Nat) :
    Option (VirtualMachine F × List F) :=
  if locked = false then
    match muteLoop fl framesPerBuffer 0 outbuf with
    | some outbuf => some (vm, outbuf)
    | none => none
  else
    let vm := { vm with m_leftLevel := fl.mul vm.m_leftLevel sc.c0_9 }
    let vm := { vm with m_rightLevel := fl.mul vm.m_rightLevel sc.c0_9 }
    frameLoop oc fl sc rand stackOf inbuf framesPerBuffer 0 vm outbuf 0

/- Vocabulary of the run of a tick -/

/-- The states in which the loop of `executeProgram` starts an instruction,
in order: the argument of each call of `step` that `runLoop` makes. -/
def loopStates {F D : Type} (oc : Opcodes) (fl : FloatOps F D)
    (program : List (instruction_t F)) : Nat → ExecState F → List (ExecState F)
  | fuel, s =>
    if s.pc < program.length then
      match fuel with
      | 0 => []
      | fuel + 1 =>
        s :: (match step oc fl program s with
          | none => []
          | some s1 => if s1.sp > 2044 then [] else loopStates oc fl program fuel s1)
    else []

/-- The pop that the instruction starting in state `t` performs: the slot a
`P_writevar` targets and the value `stack[--sp]` it stores there; `none` for
every other instruction. -/
def popOf {F : Type} (oc : Opcodes) (program : List (instruction_t F))
    (t : ExecState F) : Option (Nat × F) :=
  match program[t.pc]? with
  | none => none
  | some c =>
    if c.icode &&& 0x80000000 ≠ 0 ∧
        selectSpecial oc (c.icode &&& 0xff000000) = SpecialCase.writevar then
      match stackRead t.stack (sizeSub t.sp 1) with
      | some x => some (c.icode &&& 0xFFFF, x)
      | none => none
    else none

/-- The value stored by the last pop into slot `i` among the pops `log`, if
any pop targets slot `i`. -/
def lastPop {F : Type} (log : List (Nat × F)) (i : Nat) : Option F :=
  ((log.filter (fun e => decide (e.1 = i))).getLast?).map (fun e => e.2)

/-- What a case of the simple-instruction `switch` of `dump` prints. -/
inductive DumpCase where
  /-- The case prints the mnemonic and a newline. -/
  | line (mnemonic : String)
  /-- The case `P_literal`: it prints `LOAD`, the value of the next cell and a
  newline, and skips the next cell. -/
  | literal
deriving DecidableEq

/-- The case that `switch(m_program[i].icode)` of `dump` selects; the last
line is its `default`. -/
def dumpSimple (oc : Opcodes) (c : Nat) : DumpCase :=
  if c = oc.P_add then DumpCase.line "ADD"
  else if c = oc.P_sub then DumpCase.line "SUB"
  else if c = oc.P_mul then DumpCase.line "MUL"
  else if c = oc.P_div then DumpCase.line "DIV"
  else if c = oc.P_literal then DumpCase.literal
  else if c = oc.P_sin then DumpCase.line "SIN"
  else if c = oc.P_cos then DumpCase.line "COS"
  else if c = oc.P_sin1 then DumpCase.line "SIN1"
  else if c = oc.P_cos1 then DumpCase.line "COS1"
  else if c = oc.P_mod1 then DumpCase.line "MOD1"
  else if c = oc.P_abs then DumpCase.line "ABS"
  else if c = oc.P_tan then DumpCase.line "TAN"
  else if c = oc.P_tanh then DumpCase.line "TANH"
  else if c = oc.P_pow then DumpCase.line "POW"
  else if c = oc.P_sqrt then DumpCase.line "SQRT"
  else if c = oc.P_round then DumpCase.line "ROUND"
  else if c = oc.P_limit then DumpCase.line "LIMIT"
  else DumpCase.line "UNKNOWN"

/-- The line that the special-instruction `switch` of `dump` prints for the
selector `sel` and the variable index `n`; `none` when `m_vars[n]` is outside
the table. -/
def dumpSpecial {F : Type} (oc : Opcodes) (vars : List (variable_t F)) (sel n : Nat) :
    Option String :=
  if sel = oc.P_readvar then
    match vars[n]? with
    | some v => some ("READ " ++ v.name ++ "\n")
    | none => none
  else if sel = oc.P_writevar then
    match vars[n]? with
    | some v => some ("WRITE " ++ v.name ++ "\n")
    | none => none
  else some "UNKNOWN\n"

/-- The `for` loop of `dump` from the cell at the head of the list on: the
text it prints; `none` when it reads outside the program or the table.
`showFloat` is the text `operator<<` prints for a float. -/
def dumpCells {F : Type} (oc : Opcodes) (showFloat : F → String)
    (vars : List (variable_t F)) : List (instruction_t F) → Option String
  | [] => some ""
  | c :: rest =>
    if c.icode &&& 0x80000000 ≠ 0 then
      match dumpSpecial oc vars (c.icode &&& 0xff000000) (c.icode &&& 0xFFFF) with
      | none => none
      | some line =>
        match dumpCells oc showFloat vars rest with
        | none => none
        | some text => some (line ++ text)
    else
      match dumpSimple oc c.icode with
      | DumpCase.line mnemonic =>
        match dumpCells oc showFloat vars rest with
        | none => none
        | some text => some (mnemonic ++ "\n" ++ text)
      | DumpCase.literal =>
        match rest with
        | [] => none
        | p :: rest2 =>
          match dumpCells oc showFloat vars rest2 with
          | none => none
          | some text => some ("LOAD " ++ showFloat p.value ++ "\n" ++ text)

/-- The function `VirtualMachine::dump`: the text written to the stream. -/
def dump {F : Type} (oc : Opcodes) (showFloat : F → String) (vm : VirtualMachine F) :
    Option String :=
  match dumpCells oc showFloat vm.m_vars vm.m_program with
  | none => none
  | some text => some ("-- VIRTUAL MACHINE PROGRAM --\n\n" ++ text)

/- Vocabulary of well-formed programs -/

/-- The number of operands the instruction in cell `c` takes from the stack:
one for a pop into a variable and for each unary case, two for each binary
case (`P_round` and `P_pow` among them), none for a push, a literal, the
filter stubs and the two `default` cases. -/
def operandCount {F : Type} (oc : Opcodes) (c : instruction_t F) : Nat :=
  if c.icode &&& 0x80000000 ≠ 0 then
    match selectSpecial oc (c.icode &&& 0xff000000) with
    | SpecialCase.readvar => 0
    | SpecialCase.writevar => 1
    | SpecialCase.fir => 0
    | SpecialCase.biquad => 0
    | SpecialCase.default => 0
  else
    match selectSimple oc c.icode with
    | SimpleCase.add => 2
    | SimpleCase.sub => 2
    | SimpleCase.mul => 2
    | SimpleCase.div => 2
    | SimpleCase.neg => 1
    | SimpleCase.sin => 1
    | SimpleCase.tan => 1
    | SimpleCase.tanh => 1
    | SimpleCase.cos => 1
    | SimpleCase.sin1 => 1
    | SimpleCase.cos1 => 1
    | SimpleCase.literal => 0
    | SimpleCase.mod1 => 1
    | SimpleCase.abs => 1
    | SimpleCase.sqrt => 1
    | SimpleCase.round => 2
    | SimpleCase.pow => 2
    | SimpleCase.limit => 1
    | SimpleCase.default => 0

/-- The cell `c`, about to be executed at program counter `pc` with `sp`
cells in use, is well formed for a table of `size` slots: a push or pop of a
variable has its index below `size`, a literal has a payload cell after it,
and the stack holds at least the operands of the instruction. -/
def CellWellFormed {F : Type} (oc : Opcodes) (program : List (instruction_t F))
    (size pc sp : Nat) (c : instruction_t F) : Prop :=
  (c.icode &&& 0x80000000 ≠ 0 →
    selectSpecial oc (c.icode &&& 0xff000000) = SpecialCase.readvar ∨
      selectSpecial oc (c.icode &&& 0xff000000) = SpecialCase.writevar →
    c.icode &&& 0xFFFF < size) ∧
  (c.icode &&& 0x80000000 = 0 → selectSimple oc c.icode = SimpleCase.literal →
    pc + 1 < program.length) ∧
  operandCount oc c ≤ sp

instance {F : Type} (oc : Opcodes) (program : List (instruction_t F))
    (size pc sp : Nat) (c : instruction_t F) :
    Decidable (CellWellFormed oc program size pc sp c) := by
  unfold CellWellFormed
  exact inferInstance

/-- The instruction about to be executed in the loop state `t` is well
formed for a table of `size` slots. -/
def WellFormedAt {F : Type} (oc : Opcodes) (program : List (instruction_t F))
    (size : Nat) (t : ExecState F) : Prop :=
  ∀ c ∈ program[t.pc]?, CellWellFormed oc program size t.pc t.sp c

instance {F : Type} (oc : Opcodes) (program : List (instruction_t F))
    (size : Nat) (t : ExecState F) : Decidable (WellFormedAt oc program size t) := by
  unfold WellFormedAt
  exact inferInstance

/- Vocabulary of the conversion to `int` -/

/-- The program counter and the stack pointer after the loop body has run on
the cell `c` fetched at `pc` with stack pointer `sp`: the `size_t` arithmetic
that the cases of the two `switch` statements perform on `pc` and `sp`.  It
depends on no value in the stack or the table.  The array accesses of the
cases are not part of this function, so it follows the two indices also
through a body that `step` ends as a fault, such as a pop at `sp = 0`, where
`--sp` wraps to `2^64 - 1`. -/
def indexStep {F : Type} (oc : Opcodes) (c : instruction_t F) (pc sp : Nat) : Nat × Nat :=
  if c.icode &&& 0x80000000 ≠ 0 then
    match selectSpecial oc (c.icode &&& 0xff000000) with
    | SpecialCase.readvar => (pc + 1, sp + 1)
    | SpecialCase.writevar => (pc + 1, sizeSub sp 1)
    | SpecialCase.fir => (pc + 1, sizeSub sp (execFIR (c.icode &&& 0xFFFF)))
    | SpecialCase.biquad => (pc + 1, sizeSub sp (execBiquad (c.icode &&& 0xFFFF)))
    | SpecialCase.default => (pc + 1, sp)
  else
    match selectSimple oc c.icode with
    | SimpleCase.add => (pc + 1, sizeSub sp 1)
    | SimpleCase.sub => (pc + 1, sizeSub sp 1)
    | SimpleCase.mul => (pc + 1, sizeSub sp 1)
    | SimpleCase.div => (pc + 1, sizeSub sp 1)
    | SimpleCase.neg => (pc + 1, sp)
    | SimpleCase.sin => (pc + 1, sp)
    | SimpleCase.tan => (pc + 1, sp)
    | SimpleCase.tanh => (pc + 1, sp)
    | SimpleCase.cos => (pc + 1, sp)
    | SimpleCase.sin1 => (pc + 1, sp)
    | SimpleCase.cos1 => (pc + 1, sp)
    | SimpleCase.literal => (pc + 1 + 1, sp + 1)
    | SimpleCase.mod1 => (pc + 1, sp)
    | SimpleCase.abs => (pc + 1, sp)
    | SimpleCase.sqrt => (pc + 1, sp)
    | SimpleCase.round => (pc + 1, sizeSub sp 1)
    | SimpleCase.pow => (pc + 1, sizeSub sp 1)
    | SimpleCase.limit => (pc + 1, sp)
    | SimpleCase.default => (pc + 1, sp)

/-- The pairs of program counter and stack pointer with which the loop starts
an instruction, in order, when only its two indices are followed. -/
def indexStates {F : Type} (oc : Opcodes) (program : List (instruction_t F)) :
    Nat → Nat → Nat → List (Nat × Nat)
  | fuel, pc, sp =>
    match program[pc]? with
    | none => []
    | some c =>
      match fuel with
      | 0 => []
      | fuel + 1 =>
        (pc, sp) ::
          (if (indexStep oc c pc sp).2 > 2044 then []
           else indexStates oc program fuel (indexStep oc c pc sp).1 (indexStep oc c pc sp).2)

/- Concrete data for evaluating the definitions -/

/-- An assignment of opcode constants with pairwise different case labels. -/
def exampleOpcodes : Opcodes where
  P_add := 1
  P_sub := 2
  P_mul := 3
  P_div := 4
  P_neg := 5
  P_sin := 6
  P_tan := 7
  P_tanh := 8
  P_cos := 9
  P_sin1 := 10
  P_cos1 := 11
  P_literal := 12
  P_mod1 := 13
  P_abs := 14
  P_sqrt := 15
  P_round := 16
  P_pow := 17
  P_limit := 18
  P_readvar := 0x80000000
  P_writevar := 0x81000000
  P_fir := 0x82000000
  P_biquad := 0x83000000

/-- Exact arithmetic on the rationals, which agrees with binary32 wherever
operands and result are representable.  The entries for functions with
irrational values are low-order rational approximations. -/
def ratOps : FloatOps ℚ ℚ where
  zero := 0
  one := 1
  negOne := -1
  two := 2
  add := fun a b => a + b
  sub := fun a b => a - b
  mul := fun a b => a * b
  div := fun a b => a / b
  neg := fun a => -a
  lt := fun a b => decide (a < b)
  ne := fun a b => decide (a ≠ b)
  toInt := fun a => if 0 ≤ a then Rat.floor a else Rat.ceil a
  ofInt := fun i => (i : ℚ)
  sin := fun a => a - a ^ 3 / 6
  cos := fun a => 1 - a ^ 2 / 2
  tan := fun a => a + a ^ 3 / 3
  tanh := fun a => a - a ^ 3 / 3
  fabs := fun a => |a|
  sqrt := fun a => (Nat.sqrt a.num.toNat : ℚ) / (Nat.sqrt a.den : ℚ)
  round := fun a => if 0 ≤ a then (Rat.floor (a + 1 / 2) : ℚ) else (Rat.ceil (a - 1 / 2) : ℚ)
  pow := fun a b => a ^ (Rat.floor b)
  toDouble := fun a => a
  ofDouble := fun a => a
  dmul := fun a b => a * b
  dsin := fun a => a - a ^ 3 / 6
  dcos := fun a => 1 - a ^ 2 / 2
  M_PI := 355 / 113

/-- The cell holding the instruction code `icode`, for the rational
arithmetic. -/
def instr (icode : Nat) : instruction_t ℚ := { icode := icode, value := 0 }

/-- The payload cell of a literal with value `value`, for the rational
arithmetic. -/
def payload (value : ℚ) : instruction_t ℚ := { icode := 0, value := value }

/-- A machine as the constructor leaves it, switched to Running. -/
def freshMachine : VirtualMachine ℚ where
  m_program := []
  m_vars := []
  m_runState := true
  m_source := src_t.SRC_SOUNDCARD
  m_stream := true
  m_lin := none
  m_rin := none
  m_lout := none
  m_rout := none
  m_in := none
  m_out := none
  m_slider := [none, none, none, none]
  m_leftLevel := 0
  m_rightLevel := 0
  m_ringbuffer := [[], []]

/-- The compiled form of the patch `outl = 0.5`. -/
def halfProgram : List (instruction_t ℚ) := [instr 12, payload (1 / 2), instr 0x81000000]

/-- The compiled form of the patch `outl = inl`. -/
def identityProgram : List (instruction_t ℚ) := [instr 0x80000000, instr 0x81000001]

/-- A Running machine loaded with the patch `outl = inl`, slots holding `a`
and `b`. -/
def identityMachine (a b : ℚ) : VirtualMachine ℚ :=
  loadProgram ratOps freshMachine identityProgram [⟨"inl", a⟩, ⟨"outl", b⟩]

/-- The compiled form of the patch `outl = 0.5 + 0.5`. -/
def constantProgram : List (instruction_t ℚ) :=
  [instr 12, payload (1 / 2), instr 12, payload (1 / 2), instr 1, instr 0x81000000]

/-- A Running machine loaded with the patch `outl = 0.5 + 0.5`. -/
def constantMachine : VirtualMachine ℚ :=
  loadProgram ratOps freshMachine constantProgram [⟨"outl", 0⟩]

/-- A Running machine whose table has the three input ports, one user
variable and the port `out`, loaded with the patch `out = 3`. -/
def portsMachine : VirtualMachine ℚ :=
  loadProgram ratOps freshMachine [instr 12, payload 3, instr 0x81000004]
    [⟨"in", 0⟩, ⟨"inl", 0⟩, ⟨"inr", 0⟩, ⟨"x", 4⟩, ⟨"out", 0⟩, ⟨"outl", 9⟩]

/-- A Running machine loaded with the patch `out = 3`; its table also has the
ports `inl` and `outl` and a user variable. -/
def outMachine : VirtualMachine ℚ :=
  loadProgram ratOps freshMachine [instr 12, payload 3, instr 0x81000002]
    [⟨"inl", 0⟩, ⟨"x", 4⟩, ⟨"out", 0⟩, ⟨"outl", 9⟩]

/-- The compiled form of a patch `outl = outl+(outl+(outl+ ...))` with 2045
operands nested to the right: 2045 pushes of slot 0, 2044 additions, one pop
into slot 0. -/
def deepProgram : List (instruction_t ℚ) :=
  List.replicate 2045 (instr 0x80000000) ++
    (List.replicate 2044 (instr 1) ++ [instr 0x81000000])

/-- A Running machine loaded with `deepProgram`. -/
def deepMachine : VirtualMachine ℚ :=
  loadProgram ratOps freshMachine deepProgram [⟨"outl", 0⟩]

/-- The compiled form of the patch `x = 1` followed by
`outl = x+(x+(x+ ...))` with 2045 operands nested to the right: a literal 1
popped into slot 0, then 2045 pushes of slot 0, 2044 additions and one pop
into slot 1. -/
def abortProgram : List (instruction_t ℚ) :=
  [instr 12, payload 1, instr 0x81000000] ++
    (List.replicate 2045 (instr 0x80000000) ++
      (List.replicate 2044 (instr 1) ++ [instr 0x81000001]))

/-- A Running machine loaded with `abortProgram`; the user variable `x` holds
0 and `y`, which the program never mentions, holds 5. -/
def abortMachine : VirtualMachine ℚ :=
  loadProgram ratOps freshMachine abortProgram [⟨"x", 0⟩, ⟨"outl", 0⟩, ⟨"y", 5⟩]

/-- A front end that answers as `script` says: `Reader::create` succeeds on a
non-empty text, and the three passes return the recorded flags and outputs
whatever they are given. -/
def scriptedFrontEnd (tokenized : Bool × List Nat) (parsed : Bool × List String)
    (converted : Bool × List (instruction_t ℚ) × List (variable_t ℚ)) :
    FrontEnd ℚ String String Nat String where
  create := fun text => if text = "" then none else some text
  tokenize := fun _ => tokenized
  parse := fun _ => parsed
  astToVM := fun _ => converted

/-- A main window whose machine runs `outl = 0.5` and whose editor holds a
text with a good first statement and a malformed second one. -/
def brokenWindow : MainWindow ℚ String where
  sourceEditor := "outl = inl\noutr = ("
  m_slider1 := 0
  m_slider2 := 0
  m_slider3 := 0
  m_slider4 := 0
  statusAccepted := none
  m_machine := some (loadProgram ratOps freshMachine halfProgram [⟨"outl", 0⟩])

/-- The answers of the front end on the text of `brokenWindow`: the tokenizer
succeeds, the parser fails at the second statement and hands back the first,
and the conversion of that partial list succeeds. -/
def brokenFrontEnd : FrontEnd ℚ String String Nat String :=
  scriptedFrontEnd (true, [1, 2, 1, 1, 2, 3]) (false, ["outl = inl"])
    (true, identityProgram, [⟨"inl", 0⟩, ⟨"outl", 0⟩])

/-- The constants of `processSamples` on the rationals. -/
def ratConsts : SampleConsts ℚ where
  c0_9 := 9 / 10
  c1000 := 1000
  RAND_MAX := 2147483647

/-- A Running machine whose table binds the second slider. -/
def sliderMachine : VirtualMachine ℚ :=
  loadProgram ratOps freshMachine identityProgram
    [⟨"inl", 0⟩, ⟨"slider2", 0⟩, ⟨"outl", 0⟩]

/-- A loop state with two cells in use, 7 pushed first and 0 second. -/
def roundState : ExecState ℚ where
  pc := 0
  sp := 2
  stack := fun i => if i = 0 then 7 else 0
  vars := []

/-- A loop state with one cell in use, holding 3. -/
def limitState : ExecState ℚ where
  pc := 0
  sp := 1
  stack := fun _ => 3
  vars := []

/-- The compiled form of the patch `outl = -inl`. -/
def negProgram : List (instruction_t ℚ) :=
  [instr 0x80000000, instr 5, instr 0x81000001]

/-- A Running machine loaded with the patch `outl = -inl`. -/
def negMachine : VirtualMachine ℚ :=
  loadProgram ratOps freshMachine negProgram [⟨"inl", 0⟩, ⟨"outl", 0⟩]

/-- A text for a rational, standing for what `operator<<` prints. -/
def showRat (q : ℚ) : String :=
  toString q.num ++ "/" ++ toString q.den

theorem unaryOp_spec {F : Type} {f : F → F} {pc : Nat} {s s1 : ExecState F}
    (h : unaryOp f pc s = some s1) :
    s1.pc = pc ∧ s1.sp = s.sp ∧ s1.vars = s.vars := by
  simp only [unaryOp, Option.bind_eq_bind, Option.bind_eq_some, Option.pure_def,
    Option.some.injEq] at h
  obtain ⟨x, -, st, -, rfl⟩ := h
  exact ⟨rfl, rfl, rfl⟩

theorem binaryOp_spec {F : Type} {f : F → F → F} {pc : Nat} {s s1 : ExecState F}
    (h : binaryOp f pc s = some s1) :
    s1.pc = pc ∧ s1.sp = sizeSub s.sp 1 ∧ s1.vars = s.vars := by
  simp only [binaryOp, Option.bind_eq_bind, Option.bind_eq_some, Option.pure_def,
    Option.some.injEq] at h
  obtain ⟨a, -, b, -, st, -, rfl⟩ := h
  exact ⟨rfl, rfl, rfl⟩

/-- One pass through the loop body moves the program counter forward, keeps
it within the program, and changes the table only at the slot a pop writes.
-/
theorem step_spec {F D : Type} {oc : Opcodes} {fl : FloatOps F D} {program : List (instruction_t F)}
    {s s1 : ExecState F} (h : step oc fl program s = some s1) :
    s.pc < s1.pc ∧ s1.pc ≤ program.length ∧
    (s1.vars = s.vars ∨ ∃ c n v x, program[s.pc]? = some c ∧ IsWriteVar oc c n ∧
      s.vars[n]? = some v ∧ s1.vars = s.vars.set n { v with value := x }) := by
  unfold step at h
  split at h
  · exact absurd h (by simp)
  · rename_i c hc
    have hlt : s.pc < program.length := by
      by_contra hn
      rw [List.getElem?_eq_none (by omega)] at hc
      exact absurd hc (by simp)
    split at h
    · rename_i htop
      split at h
      · simp only [Option.bind_eq_bind, Option.bind_eq_some, Option.pure_def,
          Option.some.injEq] at h
        obtain ⟨x, -, st, -, rfl⟩ := h
        exact ⟨by simp, by simpa using hlt, Or.inl rfl⟩
      · rename_i hsel
        simp only [Option.bind_eq_bind, Option.bind_eq_some, Option.pure_def,
          Option.some.injEq] at h
        obtain ⟨x, -, vars, hw, rfl⟩ := h
        refine ⟨by simp, by simpa using hlt, Or.inr ?_⟩
        unfold writeVar at hw
        split at hw
        · rename_i v hv
          cases hw
          refine ⟨c, _, v, x, hc, ⟨htop, ?_, rfl⟩, hv, rfl⟩
          unfold selectSpecial at hsel
          split_ifs at hsel with g1 g2
          exact g2
        · exact absurd hw (by simp)
      · cases h; exact ⟨by simp, by simpa using hlt, Or.inl rfl⟩
      · cases h; exact ⟨by simp, by simpa using hlt, Or.inl rfl⟩
      · cases h; exact ⟨by simp, by simpa using hlt, Or.inl rfl⟩
    · split at h
      all_goals first
        | (obtain ⟨e1, -, e3⟩ := unaryOp_spec h
           exact ⟨by omega, by omega, Or.inl e3⟩)
        | (obtain ⟨e1, -, e3⟩ := binaryOp_spec h
           exact ⟨by omega, by omega, Or.inl e3⟩)
        | (cases h
           exact ⟨by simp, by simpa using hlt, Or.inl rfl⟩)
        | skip
      · dsimp only at h
        split at h
        · exact absurd h (by simp)
        · rename_i p hp
          simp only [Option.bind_eq_bind, Option.bind_eq_some, Option.pure_def,
            Option.some.injEq] at h
          obtain ⟨st, -, rfl⟩ := h
          have hlt2 : s.pc + 1 < program.length := by
            by_contra hn
            rw [List.getElem?_eq_none (by omega)] at hp
            exact absurd hp (by simp)
          exact ⟨by dsimp only; omega, by dsimp only; omega, Or.inl rfl⟩
      · simp only [Option.bind_eq_bind, Option.bind_eq_some, Option.pure_def] at h
        obtain ⟨b, -, h⟩ := h
        split at h
        · simp only [Option.bind_eq_bind, Option.bind_eq_some, Option.pure_def,
            Option.some.injEq] at h
          obtain ⟨a, -, st, -, rfl⟩ := h
          exact ⟨by simp, by simpa using hlt, Or.inl rfl⟩
        · cases h
          exact ⟨by simp, by simpa using hlt, Or.inl rfl⟩
      · simp only [Option.bind_eq_bind, Option.bind_eq_some, Option.pure_def,
          Option.some.injEq] at h
        obtain ⟨x, -, st, -, y, -, st2, -, rfl⟩ := h
        exact ⟨by simp, by simpa using hlt, Or.inl rfl⟩

/- Lemmas on name lookup and loading -/

theorem toInt32_of_lt {i : Nat} (h : i < 2 ^ 31) : toInt32 i = (i : Int) := by
  have h1 : i % 2 ^ 32 = i := Nat.mod_eq_of_lt (by omega)
  unfold toInt32
  rw [h1, if_pos h]

theorem toSize_natCast {i : Nat} (h : i < 2 ^ 31) : toSize (i : Int) = i := by
  unfold toSize SIZE_T_RANGE
  have : ((i : Int) % ((2 ^ 64 : Nat) : Int)) = (i : Int) := by
    apply Int.emod_eq_of_lt <;> omega
  rw [this]; simp

theorem findVariableByNameFrom_eq {F : Type} (name : String) (rest : List (variable_t F))
    (i : Nat) (h : i + rest.length ≤ 2 ^ 31) :
    findVariableByNameFrom name rest i =
      match rest.findIdx? (fun v => decide (v.name = name)) i with
      | some k => (k : Int)
      | none => -1 := by
  induction rest generalizing i with
  | nil => simp [findVariableByNameFrom]
  | cons v rest ih =>
    simp only [findVariableByNameFrom, List.findIdx?_cons]
    by_cases hv : v.name = name
    · simp only [hv, if_true, decide_True]
      exact toInt32_of_lt (by simp at h; omega)
    · simp only [hv, if_false, decide_False]
      exact ih (i + 1) (by simp at h; omega)

theorem findIdx?_start_lt {α : Type} (p : α → Bool) (l : List α) (i k : Nat)
    (h : l.findIdx? p i = some k) : i ≤ k ∧ k < i + l.length := by
  induction l generalizing i with
  | nil => simp at h
  | cons a l ih =>
    rw [List.findIdx?_cons] at h
    split at h
    · cases h; simp
    · have := ih (i + 1) h
      simp; omega

theorem slotNamed_lt {F : Type} {vars : List (variable_t F)} {name : String} {k : Nat}
    (h : slotNamed vars name = some k) : k < vars.length := by
  have := findIdx?_start_lt _ _ _ _ h
  omega

theorem bindPort_eq {F : Type} (vars : List (variable_t F)) (name : String)
    (h : vars.length ≤ 2 ^ 31) : bindPort vars name none = slotNamed vars name := by
  unfold bindPort findVariableByName
  rw [findVariableByNameFrom_eq name vars 0 (by omega)]
  unfold slotNamed
  cases hk : List.findIdx? (fun v => decide (v.name = name)) vars 0 with
  | none => simp
  | some k =>
    have hlt := (findIdx?_start_lt _ _ _ _ hk).2
    have h1 : ((k : Int) ≠ -1) := by omega
    simp only [h1, ne_eq, not_false_eq_true, if_true]
    rw [toSize_natCast (by omega)]

theorem slotNamed_eq_some_iff {F : Type} (vars : List (variable_t F)) (name : String) (i : Nat) :
    slotNamed vars name = some i ↔
      (∃ v, vars[i]? = some v ∧ v.name = name) ∧
      ∀ j v, j < i → vars[j]? = some v → v.name ≠ name := by
  unfold slotNamed
  rw [List.findIdx?_eq_some_iff_getElem]
  constructor
  · rintro ⟨h, hp, hq⟩
    refine ⟨⟨vars[i], by simp [h], by simpa using hp⟩, ?_⟩
    intro j v hj hv
    have hjl : j < vars.length := by omega
    have := hq j hj
    rw [List.getElem?_eq_getElem hjl] at hv
    cases hv
    simpa using this
  · rintro ⟨⟨v, hv, hn⟩, hq⟩
    obtain ⟨h, rfl⟩ := List.getElem?_eq_some_iff.mp hv
    refine ⟨h, by simpa using hn, ?_⟩
    intro j hj
    have hjl : j < vars.length := by omega
    simpa using hq j vars[j] hj (by simp [hjl])

theorem slotNamed_eq_none_iff {F : Type} (vars : List (variable_t F)) (name : String) :
    slotNamed vars name = none ↔ ∀ v ∈ vars, v.name ≠ name := by
  unfold slotNamed
  simp

/-- The ports of a freshly loaded machine. -/
theorem loadProgram_ports {F D : Type} (fl : FloatOps F D) (vm : VirtualMachine F)
    (program : List (instruction_t F)) (vars : List (variable_t F))
    (hlen : vars.length ≤ 2 ^ 31) :
    (loadProgram fl vm program vars).m_lin = slotNamed vars "inl" ∧
    (loadProgram fl vm program vars).m_rin = slotNamed vars "inr" ∧
    (loadProgram fl vm program vars).m_lout = slotNamed vars "outl" ∧
    (loadProgram fl vm program vars).m_rout = slotNamed vars "outr" ∧
    (loadProgram fl vm program vars).m_in = slotNamed vars "in" ∧
    (loadProgram fl vm program vars).m_out = slotNamed vars "out" ∧
    (loadProgram fl vm program vars).m_slider =
      [slotNamed vars "slider1", slotNamed vars "slider2", slotNamed vars "slider3",
       slotNamed vars "slider4"] := by
  simp [loadProgram, init, bindPort_eq _ _ hlen]

theorem Loaded_iff {F D : Type} (fl : FloatOps F D) (vm : VirtualMachine F)
    (hlen : vm.m_vars.length ≤ 2 ^ 31) :
    Loaded fl vm ↔
      vm.m_lin = slotNamed vm.m_vars "inl" ∧ vm.m_rin = slotNamed vm.m_vars "inr" ∧
      vm.m_lout = slotNamed vm.m_vars "outl" ∧ vm.m_rout = slotNamed vm.m_vars "outr" ∧
      vm.m_in = slotNamed vm.m_vars "in" ∧ vm.m_out = slotNamed vm.m_vars "out" ∧
      vm.m_slider = [slotNamed vm.m_vars "slider1", slotNamed vm.m_vars "slider2",
        slotNamed vm.m_vars "slider3", slotNamed vm.m_vars "slider4"] := by
  obtain ⟨h1, h2, h3, h4, h5, h6, h7⟩ := loadProgram_ports fl vm vm.m_program vm.m_vars hlen
  unfold Loaded
  rw [h1, h2, h3, h4, h5, h6, h7]

theorem Loaded_loadProgram {F D : Type} (fl : FloatOps F D) (vm : VirtualMachine F)
    (program : List (instruction_t F)) (vars : List (variable_t F)) :
    Loaded fl (loadProgram fl vm program vars) := by
  unfold Loaded
  exact ⟨rfl, rfl, rfl, rfl, rfl, rfl, rfl⟩

theorem writeVar_spec {F : Type} (vars : List (variable_t F)) (n : Nat) (x : F)
    (hn : n < vars.length) :
    ∃ vars1, writeVar vars n x = some vars1 ∧
      vars1.map variable_t.name = vars.map variable_t.name ∧
      readVar vars1 n = some x ∧
      ∀ i, i ≠ n → vars1[i]? = vars[i]? := by
  unfold writeVar
  rw [List.getElem?_eq_getElem hn]
  refine ⟨_, rfl, ?_, ?_, ?_⟩
  · apply List.ext_getElem?
    intro i
    simp only [List.getElem?_map, List.getElem?_set]
    by_cases hi : n = i
    · subst hi; simp [hn]
    · simp [hi]
  · simp [readVar, hn]
  · intro i hi
    simp [List.getElem?_set, Ne.symm hi]

theorem writePort_spec {F : Type} (vars : List (variable_t F)) (p : Option Nat) (x : F)
    (hp : ∀ n, p = some n → n < vars.length) :
    ∃ vars1, writePort vars p x = some vars1 ∧
      vars1.map variable_t.name = vars.map variable_t.name ∧
      (∀ n, p = some n → readVar vars1 n = some x) ∧
      ∀ i, p ≠ some i → vars1[i]? = vars[i]? := by
  cases p with
  | none => exact ⟨vars, rfl, rfl, by simp, by simp⟩
  | some n =>
    obtain ⟨vars1, h1, h2, h3, h4⟩ := writeVar_spec vars n x (hp n rfl)
    refine ⟨vars1, h1, h2, ?_, ?_⟩
    · intro k hk; cases hk; exact h3
    · intro i hi
      exact h4 i (fun h => hi (by rw [h]))

theorem readVar_congr {F : Type} {vars vars1 : List (variable_t F)} {i : Nat}
    (h : vars1[i]? = vars[i]?) : readVar vars1 i = readVar vars i := by
  unfold readVar; rw [h]

theorem slotNamed_ne {F : Type} {vars : List (variable_t F)} {a b : String} {i j : Nat}
    (hab : a ≠ b) (ha : slotNamed vars a = some i) (hb : slotNamed vars b = some j) : i ≠ j := by
  rintro rfl
  obtain ⟨⟨v, hv, hn⟩, -⟩ := (slotNamed_eq_some_iff vars a i).mp ha
  obtain ⟨⟨w, hw, hm⟩, -⟩ := (slotNamed_eq_some_iff vars b i).mp hb
  rw [hv] at hw; cases hw
  exact hab (hn.symm.trans hm)

theorem bindInputs_spec {F D : Type} (fl : FloatOps F D) (vm : VirtualMachine F)
    (inLeft inRight : F) (hload : Loaded fl vm) (hlen : vm.m_vars.length ≤ 2 ^ 31) :
    ∃ vars1, bindInputs fl vm inLeft inRight = some vars1 ∧
      vars1.map variable_t.name = vm.m_vars.map variable_t.name ∧
      (∀ i, slotNamed vm.m_vars "in" = some i →
        readVar vars1 i = some (fl.div (fl.add inLeft inRight) fl.two)) ∧
      (∀ i, slotNamed vm.m_vars "inl" = some i → readVar vars1 i = some inLeft) ∧
      (∀ i, slotNamed vm.m_vars "inr" = some i → readVar vars1 i = some inRight) ∧
      (∀ i, slotNamed vm.m_vars "in" ≠ some i → slotNamed vm.m_vars "inl" ≠ some i →
        slotNamed vm.m_vars "inr" ≠ some i → vars1[i]? = vm.m_vars[i]?) := by
  obtain ⟨hlin, hrin, -, -, hin, -, -⟩ := (Loaded_iff fl vm hlen).mp hload
  obtain ⟨v1, e1, n1, r1, f1⟩ := writePort_spec vm.m_vars vm.m_in
    (fl.div (fl.add inLeft inRight) fl.two) (fun n hn => slotNamed_lt (hin ▸ hn))
  have l1 : v1.length = vm.m_vars.length := by
    simpa using congrArg List.length n1
  obtain ⟨v2, e2, n2, r2, f2⟩ := writePort_spec v1 vm.m_lin inLeft
    (fun n hn => l1 ▸ slotNamed_lt (hlin ▸ hn))
  have l2 : v2.length = v1.length := by
    simpa using congrArg List.length n2
  obtain ⟨v3, e3, n3, r3, f3⟩ := writePort_spec v2 vm.m_rin inRight
    (fun n hn => l2 ▸ l1 ▸ slotNamed_lt (hrin ▸ hn))
  refine ⟨v3, ?_, n3.trans (n2.trans n1), ?_, ?_, ?_, ?_⟩
  · simp [bindInputs, e1, e2, e3]
  · intro i hi
    have a1 : vm.m_lin ≠ some i := by
      rw [hlin]; intro h
      exact slotNamed_ne (by decide) hi h rfl
    have a2 : vm.m_rin ≠ some i := by
      rw [hrin]; intro h
      exact slotNamed_ne (by decide) hi h rfl
    rw [readVar_congr (f3 i a2), readVar_congr (f2 i a1)]
    exact r1 i (hin.trans hi)
  · intro i hi
    have a2 : vm.m_rin ≠ some i := by
      rw [hrin]; intro h
      exact slotNamed_ne (by decide) hi h rfl
    rw [readVar_congr (f3 i a2)]
    exact r2 i (hlin.trans hi)
  · intro i hi
    exact r3 i (hrin.trans hi)
  · intro i h1 h2 h3
    rw [f3 i (hrin ▸ h3), f2 i (hlin ▸ h2), f1 i (hin ▸ h1)]


/- Lemmas on the interpreter loop -/

/-- With a budget of at least the number of cells left, the loop ends before
the budget does. -/
theorem runLoop_ne_outOfFuel {F D : Type} (oc : Opcodes) (fl : FloatOps F D)
    (program : List (instruction_t F)) (fuel : Nat) (s : ExecState F)
    (h : program.length ≤ s.pc + fuel) :
    runLoop oc fl program fuel s ≠ LoopResult.outOfFuel := by
  induction fuel generalizing s with
  | zero =>
    unfold runLoop
    rw [if_neg (by omega)]
    simp
  | succ fuel ih =>
    unfold runLoop
    split
    · dsimp only
      cases hs : step oc fl program s with
      | none => simp
      | some s1 =>
        dsimp only
        split
        · simp
        · have := (step_spec hs).1
          exact ih s1 (by omega)
    · simp

/-- A property of the table that every pop of the program preserves holds
when the loop ends, if it held when the loop started. -/
theorem runLoop_vars_inv {F D : Type} (oc : Opcodes) (fl : FloatOps F D)
    (program : List (instruction_t F)) (P : List (variable_t F) → Prop)
    (hP : ∀ vars c n v x, c ∈ program → IsWriteVar oc c n → vars[n]? = some v →
      P vars → P (vars.set n { v with value := x }))
    (fuel : Nat) (s s1 : ExecState F) (hs : P s.vars)
    (h : runLoop oc fl program fuel s = LoopResult.overflow s1 ∨
         runLoop oc fl program fuel s = LoopResult.finished s1) : P s1.vars := by
  induction fuel generalizing s with
  | zero =>
    unfold runLoop at h
    split at h
    · simp at h
    · simp only [LoopResult.finished.injEq, false_or] at h
      rcases h with h | h
      · cases h
      · cases h; exact hs
  | succ fuel ih =>
    unfold runLoop at h
    split at h
    · dsimp only at h
      cases hst : step oc fl program s with
      | none => simp [hst] at h
      | some s2 =>
        simp only [hst] at h
        have hs2 : P s2.vars := by
          rcases (step_spec hst).2.2 with e | ⟨c, n, v, x, hc, hw, hv, e⟩
          · rw [e]; exact hs
          · rw [e]
            exact hP _ c n v x (List.getElem?_mem hc) hw hv hs
        split at h
        · rcases h with h | h
          · cases h; exact hs2
          · cases h
        · exact ih s2 hs2 h
    · rcases h with h | h
      · cases h
      · cases h; exact hs

theorem runLoop_names {F D : Type} (oc : Opcodes) (fl : FloatOps F D)
    (program : List (instruction_t F)) (fuel : Nat) (s s1 : ExecState F)
    (h : runLoop oc fl program fuel s = LoopResult.overflow s1 ∨
         runLoop oc fl program fuel s = LoopResult.finished s1) :
    s1.vars.map variable_t.name = s.vars.map variable_t.name := by
  refine runLoop_vars_inv oc fl program
    (fun vars => vars.map variable_t.name = s.vars.map variable_t.name) ?_ fuel s s1 rfl h
  intro vars c n v x _ _ hv hvars
  rw [← hvars]
  apply List.ext_getElem?
  intro i
  simp only [List.getElem?_map, List.getElem?_set]
  by_cases hi : n = i
  · subst hi
    have hn : n < vars.length := (List.getElem?_eq_some_iff.mp hv).1
    simp [hn, hv]
  · simp [hi]

theorem runLoop_frame {F D : Type} (oc : Opcodes) (fl : FloatOps F D)
    (program : List (instruction_t F)) (fuel : Nat) (s s1 : ExecState F) (i : Nat)
    (hi : ∀ c ∈ program, ¬ IsWriteVar oc c i)
    (h : runLoop oc fl program fuel s = LoopResult.overflow s1 ∨
         runLoop oc fl program fuel s = LoopResult.finished s1) :
    s1.vars[i]? = s.vars[i]? := by
  refine runLoop_vars_inv oc fl program
    (fun vars => vars[i]? = s.vars[i]?) ?_ fuel s s1 rfl h
  intro vars c n v x hc hw _ hvars
  have hne : n ≠ i := by
    rintro rfl
    exact hi c hc hw
  rw [← hvars]
  simp [List.getElem?_set, hne]

/- Lemmas on single instructions -/

theorem selectSpecial_readvar (oc : Opcodes) :
    selectSpecial oc oc.P_readvar = SpecialCase.readvar := by
  simp [selectSpecial]

theorem selectSpecial_writevar (oc : Opcodes) (hoc : oc.Distinct) :
    selectSpecial oc oc.P_writevar = SpecialCase.writevar := by
  have hr := List.nodup_reverse.mpr hoc.2
  simp [Opcodes.specialLabels] at hr
  simp [selectSpecial, hr]

/-- With pairwise different case labels every label selects its own case. -/
theorem selectSimple_labels (oc : Opcodes) (hoc : oc.Distinct) :
    selectSimple oc oc.P_add = SimpleCase.add ∧
    selectSimple oc oc.P_sub = SimpleCase.sub ∧
    selectSimple oc oc.P_mul = SimpleCase.mul ∧
    selectSimple oc oc.P_div = SimpleCase.div ∧
    selectSimple oc oc.P_neg = SimpleCase.neg ∧
    selectSimple oc oc.P_sin = SimpleCase.sin ∧
    selectSimple oc oc.P_tan = SimpleCase.tan ∧
    selectSimple oc oc.P_tanh = SimpleCase.tanh ∧
    selectSimple oc oc.P_cos = SimpleCase.cos ∧
    selectSimple oc oc.P_sin1 = SimpleCase.sin1 ∧
    selectSimple oc oc.P_cos1 = SimpleCase.cos1 ∧
    selectSimple oc oc.P_literal = SimpleCase.literal ∧
    selectSimple oc oc.P_mod1 = SimpleCase.mod1 ∧
    selectSimple oc oc.P_abs = SimpleCase.abs ∧
    selectSimple oc oc.P_sqrt = SimpleCase.sqrt ∧
    selectSimple oc oc.P_round = SimpleCase.round ∧
    selectSimple oc oc.P_pow = SimpleCase.pow ∧
    selectSimple oc oc.P_limit = SimpleCase.limit := by
  have hr := List.nodup_reverse.mpr hoc.1
  simp [Opcodes.simpleLabels] at hr
  simp [selectSimple, hr]

theorem sizeSub_one {n : Nat} (h : 0 < n) : sizeSub n 1 = n - 1 := by
  unfold sizeSub
  rw [if_pos (by omega)]

theorem step_readVar {F D : Type} (oc : Opcodes) (fl : FloatOps F D)
    (program : List (instruction_t F)) (s : ExecState F) (c : instruction_t F) (n : Nat)
    (x : F) (hc : program[s.pc]? = some c) (hr : IsReadVar oc c n)
    (hv : readVar s.vars n = some x) (hsp : s.sp < 2048) :
    step oc fl program s =
      some { s with pc := s.pc + 1, sp := s.sp + 1, stack := Function.update s.stack s.sp x } := by
  obtain ⟨h1, h2, h3⟩ := hr
  simp [step, hc, h1, h2, h3, selectSpecial_readvar, hv, stackWrite, STACK_SIZE, hsp]

theorem step_writeVar {F D : Type} (oc : Opcodes) (hoc : oc.Distinct) (fl : FloatOps F D)
    (program : List (instruction_t F)) (s : ExecState F) (c : instruction_t F) (n : Nat)
    (vars1 : List (variable_t F)) (hc : program[s.pc]? = some c) (hw : IsWriteVar oc c n)
    (hsp : 0 < s.sp) (hsp2 : s.sp ≤ 2048)
    (hv : writeVar s.vars n (s.stack (s.sp - 1)) = some vars1) :
    step oc fl program s = some { s with pc := s.pc + 1, sp := s.sp - 1, vars := vars1 } := by
  obtain ⟨h1, h2, h3⟩ := hw
  have h5 : s.sp - 1 < 2048 := by omega
  simp [step, hc, h1, h2, h3, selectSpecial_writevar oc hoc, sizeSub_one hsp, stackRead,
    STACK_SIZE, h5, hv]

theorem step_literal {F D : Type} (oc : Opcodes) (hoc : oc.Distinct) (fl : FloatOps F D)
    (program : List (instruction_t F)) (s : ExecState F) (c p : instruction_t F)
    (hc : program[s.pc]? = some c) (hl : IsSimple c oc.P_literal)
    (hp : program[s.pc + 1]? = some p) (hsp : s.sp < 2048) :
    step oc fl program s =
      some { s with pc := s.pc + 2, sp := s.sp + 1,
                    stack := Function.update s.stack s.sp p.value } := by
  obtain ⟨h1, h2⟩ := hl
  have hsel := (selectSimple_labels oc hoc).2.2.2.2.2.2.2.2.2.2.2.1
  rw [← h2] at hsel
  simp [step, hc, h1, hsel, hp, stackWrite, STACK_SIZE, hsp]

theorem binaryOp_eq {F : Type} (f : F → F → F) (pc : Nat) (s : ExecState F)
    (h2 : 2 ≤ s.sp) (h3 : s.sp ≤ 2048) :
    binaryOp f pc s =
      some { s with pc := pc, sp := s.sp - 1,
                    stack := Function.update s.stack (s.sp - 2)
                      (f (s.stack (s.sp - 2)) (s.stack (s.sp - 1))) } := by
  have e1 : sizeSub s.sp 1 = s.sp - 1 := sizeSub_one (by omega)
  have e2 : sizeSub (s.sp - 1) 1 = s.sp - 2 := by
    rw [sizeSub_one (by omega)]; rfl
  have e3 : s.sp - 1 < 2048 := by omega
  have e4 : s.sp - 2 < 2048 := by omega
  simp [binaryOp, e1, e2, stackRead, stackWrite, STACK_SIZE, e3, e4]

theorem unaryOp_eq {F : Type} (f : F → F) (pc : Nat) (s : ExecState F)
    (h2 : 1 ≤ s.sp) (h3 : s.sp ≤ 2048) :
    unaryOp f pc s =
      some { s with pc := pc,
                    stack := Function.update s.stack (s.sp - 1) (f (s.stack (s.sp - 1))) } := by
  have e1 : sizeSub s.sp 1 = s.sp - 1 := sizeSub_one (by omega)
  have e3 : s.sp - 1 < 2048 := by omega
  simp [unaryOp, e1, stackRead, stackWrite, STACK_SIZE, e3]


theorem readVar_of_lt {F : Type} (vars : List (variable_t F)) (i : Nat) (h : i < vars.length) :
    ∃ x, readVar vars i = some x := by
  unfold readVar
  rw [List.getElem?_eq_getElem h]
  exact ⟨_, rfl⟩


theorem writePort_frame {F : Type} {vars vars1 : List (variable_t F)} {p : Option Nat} {x : F}
    (h : writePort vars p x = some vars1) :
    vars1.map variable_t.name = vars.map variable_t.name ∧
    ∀ i, p ≠ some i → vars1[i]? = vars[i]? := by
  cases p with
  | none =>
    simp only [writePort, Option.some.injEq] at h
    subst h
    exact ⟨rfl, fun _ _ => rfl⟩
  | some n =>
    have hn : n < vars.length := by
      by_contra hn
      simp [writePort, writeVar, List.getElem?_eq_none (Nat.le_of_not_lt hn)] at h
    obtain ⟨w, hw, h2, -, h4⟩ := writeVar_spec vars n x hn
    simp only [writePort, hw, Option.some.injEq] at h
    subst h
    exact ⟨h2, fun i hi => h4 i (fun e => hi (by rw [e]))⟩

theorem bindInputs_frame {F D : Type} {fl : FloatOps F D} {vm : VirtualMachine F}
    {inLeft inRight : F} {vars1 : List (variable_t F)}
    (h : bindInputs fl vm inLeft inRight = some vars1) :
    vars1.map variable_t.name = vm.m_vars.map variable_t.name ∧
    ∀ i, vm.m_in ≠ some i → vm.m_lin ≠ some i → vm.m_rin ≠ some i →
      vars1[i]? = vm.m_vars[i]? := by
  simp only [bindInputs, Option.bind_eq_bind, Option.bind_eq_some] at h
  obtain ⟨v1, e1, v2, e2, e3⟩ := h
  obtain ⟨n1, f1⟩ := writePort_frame e1
  obtain ⟨n2, f2⟩ := writePort_frame e2
  obtain ⟨n3, f3⟩ := writePort_frame e3
  refine ⟨n3.trans (n2.trans n1), ?_⟩
  intro i h1 h2 h3
  rw [f3 i h3, f2 i h2, f1 i h1]

/-- A run of pushes that fills the stack up to the guard ends the loop by the
`return` at the test `sp > 2044`, with the table untouched. -/
theorem runLoop_pushes {F D : Type} (oc : Opcodes) (fl : FloatOps F D)
    (program : List (instruction_t F)) (n : Nat) (x : F) (k : Nat) :
    ∀ (fuel : Nat) (s : ExecState F), 1 ≤ k → k ≤ fuel → s.sp + k = 2045 →
      readVar s.vars n = some x →
      (∀ j, j < k → ∃ c, program[s.pc + j]? = some c ∧ IsReadVar oc c n) →
      ∃ s1, runLoop oc fl program fuel s = LoopResult.overflow s1 ∧ s1.vars = s.vars := by
  induction k with
  | zero => intro fuel s h; omega
  | succ k ih =>
    intro fuel s _ hf hsp hx hprog
    obtain ⟨c, hc, hr⟩ := hprog 0 (by omega)
    have hlt : s.pc < program.length := by
      by_contra hn
      rw [Nat.add_zero, List.getElem?_eq_none (by omega)] at hc
      exact absurd hc (by simp)
    have hst := step_readVar oc fl program s c n x hc hr hx (by omega)
    cases fuel with
    | zero => omega
    | succ fuel =>
      unfold runLoop
      rw [if_pos hlt]
      simp only [hst]
      by_cases hk : k = 0
      · subst hk
        rw [if_pos (by simp; omega)]
        exact ⟨_, rfl, rfl⟩
      · rw [if_neg (by simp; omega)]
        refine ih fuel _ (by omega) (by omega) (by simp; omega) hx ?_
        intro j hj
        obtain ⟨c1, hc1, hr1⟩ := hprog (j + 1) (by omega)
        refine ⟨c1, ?_, hr1⟩
        rw [← hc1]
        simp only
        congr 1
        omega

/-- A tick whose loop is left at the test `sp > 2044` returns with the table
the loop produced and with both output locations as they were. -/
theorem executeProgram_of_overflow {F D : Type} (oc : Opcodes) (fl : FloatOps F D)
    (vm : VirtualMachine F) (stack : Nat → F) (inLeft inRight outLeft outRight : F)
    (vars1 : List (variable_t F)) (s1 : ExecState F)
    (hprog : vm.m_program ≠ []) (hrun : vm.m_runState = true)
    (hbind : bindInputs fl vm inLeft inRight = some vars1)
    (hloop : runLoop oc fl vm.m_program vm.m_program.length
      { pc := 0, sp := 0, stack := stack, vars := vars1 } = LoopResult.overflow s1) :
    executeProgram oc fl vm stack inLeft inRight outLeft outRight =
      TickResult.returned Exit.overflow { vm with m_vars := s1.vars } outLeft outRight := by
  have hcond : ¬ (vm.m_program.length = 0 ∨ vm.m_runState = false) := by
    simp [hprog, hrun]
  simp only [executeProgram, if_neg hcond, hbind, hloop, afterLoop]


/-- The budget `m_program.size()` that `executeProgram` gives the loop always
suffices: a call never ends for lack of budget. -/
theorem executeProgram_ne_outOfFuel {F D : Type} (oc : Opcodes) (fl : FloatOps F D)
    (vm : VirtualMachine F) (stack : Nat → F) (inLeft inRight outLeft outRight : F) :
    executeProgram oc fl vm stack inLeft inRight outLeft outRight ≠ TickResult.outOfFuel := by
  unfold executeProgram
  dsimp only
  split
  · simp
  · cases hb : bindInputs fl vm inLeft inRight with
    | none => simp
    | some vars1 =>
      dsimp only
      have h := runLoop_ne_outOfFuel oc fl vm.m_program vm.m_program.length
        { pc := 0, sp := 0, stack := stack, vars := vars1 } (by simp)
      cases hloop : runLoop oc fl vm.m_program vm.m_program.length
          { pc := 0, sp := 0, stack := stack, vars := vars1 } with
      | fault => simp [afterLoop]
      | outOfFuel => exact absurd hloop h
      | overflow s => simp [afterLoop]
      | finished s =>
        simp only [afterLoop]
        split <;> simp

/- Lemmas on the example programs -/

theorem deepProgram_length : deepProgram.length = 4090 := by
  simp only [deepProgram, List.length_append, List.length_replicate, List.length_cons,
    List.length_nil]

theorem deepProgram_pushes (j : Nat) (h : j < 2045) :
    ∃ c, deepProgram[0 + j]? = some c ∧ IsReadVar exampleOpcodes c 0 := by
  refine ⟨instr 0x80000000, ?_, by decide⟩
  unfold deepProgram
  rw [Nat.zero_add, List.getElem?_append_left (by rw [List.length_replicate]; exact h),
    List.getElem?_replicate, if_pos h]

theorem deepMachine_loop :
    ∃ s1, runLoop exampleOpcodes ratOps deepProgram deepProgram.length
        { pc := 0, sp := 0, stack := fun _ => 0, vars := [⟨"outl", 0⟩] } =
        LoopResult.overflow s1 ∧ s1.vars = [⟨"outl", 0⟩] :=
  runLoop_pushes exampleOpcodes ratOps deepProgram 0 0 2045 _ _ (by decide)
    (by rw [deepProgram_length]; decide) rfl rfl deepProgram_pushes

theorem deepProgram_ne_nil : deepProgram ≠ [] := by
  intro h
  have := congrArg List.length h
  rw [deepProgram_length] at this
  exact absurd this (by decide)

theorem abortProgram_length : abortProgram.length = 4093 := by
  simp only [abortProgram, List.length_append, List.length_replicate, List.length_cons,
    List.length_nil]

theorem abortProgram_ne_nil : abortProgram ≠ [] := by
  intro h
  have := congrArg List.length h
  rw [abortProgram_length] at this
  exact absurd this (by decide)

theorem abortProgram_pushes (j : Nat) (h : j < 2045) :
    ∃ c, abortProgram[3 + j]? = some c ∧ IsReadVar exampleOpcodes c 0 := by
  refine ⟨instr 0x80000000, ?_, by decide⟩
  unfold abortProgram
  rw [List.getElem?_append_right (by simp), List.getElem?_append_left
    (by rw [List.length_replicate]; simp; omega), List.getElem?_replicate, if_pos (by simp; omega)]

theorem abortProgram_head :
    abortProgram[0]? = some (instr 12) ∧ abortProgram[1]? = some (payload 1) ∧
    abortProgram[2]? = some (instr 0x81000000) := by
  simp only [abortProgram, List.cons_append, List.getElem?_cons_zero, List.getElem?_cons_succ,
    and_self]

/-- The loop of the aborted tick: it ends at the stack guard, after the pop
into `x` has already stored 1. -/
theorem abortMachine_loop :
    ∃ s1, runLoop exampleOpcodes ratOps abortProgram abortProgram.length
        { pc := 0, sp := 0, stack := fun _ => 0,
          vars := [⟨"x", 0⟩, ⟨"outl", 0⟩, ⟨"y", 5⟩] } =
        LoopResult.overflow s1 ∧ s1.vars = [⟨"x", 1⟩, ⟨"outl", 0⟩, ⟨"y", 5⟩] := by
  have e1 : step exampleOpcodes ratOps abortProgram
      { pc := 0, sp := 0, stack := fun _ => 0, vars := [⟨"x", 0⟩, ⟨"outl", 0⟩, ⟨"y", 5⟩] } =
      some { pc := 2, sp := 1, stack := Function.update (fun _ => 0) 0 1,
             vars := [⟨"x", 0⟩, ⟨"outl", 0⟩, ⟨"y", 5⟩] } :=
    step_literal exampleOpcodes (by decide) ratOps _ _ (instr 12) (payload 1)
      abortProgram_head.1 (by decide) abortProgram_head.2.1 (by decide)
  have e2 : step exampleOpcodes ratOps abortProgram
      { pc := 2, sp := 1, stack := Function.update (fun _ => 0) 0 1,
        vars := [⟨"x", 0⟩, ⟨"outl", 0⟩, ⟨"y", 5⟩] } =
      some { pc := 3, sp := 0, stack := Function.update (fun _ => 0) 0 1,
             vars := [⟨"x", 1⟩, ⟨"outl", 0⟩, ⟨"y", 5⟩] } :=
    step_writeVar exampleOpcodes (by decide) ratOps _ _ (instr 0x81000000) 0 _
      abortProgram_head.2.2 (by decide) (by decide) (by decide) (by simp [writeVar])
  obtain ⟨s1, h1, h2⟩ := runLoop_pushes exampleOpcodes ratOps abortProgram 0 1 2045 4091
    { pc := 3, sp := 0, stack := Function.update (fun _ => 0) 0 1,
      vars := [⟨"x", 1⟩, ⟨"outl", 0⟩, ⟨"y", 5⟩] } (by decide) (by decide) rfl rfl
    abortProgram_pushes
  refine ⟨s1, ?_, h2⟩
  rw [abortProgram_length]
  have l0 : (0 : Nat) < abortProgram.length := by rw [abortProgram_length]; decide
  have l2 : (2 : Nat) < abortProgram.length := by rw [abortProgram_length]; decide
  rw [show (4093 : Nat) = 4091 + 1 + 1 from rfl]
  unfold runLoop
  rw [if_pos l0]
  simp only [e1]
  rw [if_neg (by decide)]
  unfold runLoop
  rw [if_pos l2]
  simp only [e2]
  rw [if_neg (by decide)]
  exact h1

theorem abortMachine_tick :
    executeProgram exampleOpcodes ratOps abortMachine (fun _ => 0) 0 0 0 0 =
      TickResult.returned Exit.overflow
        { abortMachine with m_vars := [⟨"x", 1⟩, ⟨"outl", 0⟩, ⟨"y", 5⟩] } 0 0 := by
  obtain ⟨s1, h1, h2⟩ := abortMachine_loop
  rw [executeProgram_of_overflow exampleOpcodes ratOps abortMachine (fun _ => 0) 0 0 0 0
      [⟨"x", 0⟩, ⟨"outl", 0⟩, ⟨"y", 5⟩] s1 abortProgram_ne_nil rfl rfl h1, h2]

/- Lemmas on the control operations, the sample callback and the stack -/

theorem selectSpecial_fir (oc : Opcodes) (hoc : oc.Distinct) :
    selectSpecial oc oc.P_fir = SpecialCase.fir := by
  have hr := List.nodup_reverse.mpr hoc.2
  simp [Opcodes.specialLabels] at hr
  simp [selectSpecial, hr]

theorem selectSpecial_biquad (oc : Opcodes) (hoc : oc.Distinct) :
    selectSpecial oc oc.P_biquad = SpecialCase.biquad := by
  have hr := List.nodup_reverse.mpr hoc.2
  simp [Opcodes.specialLabels] at hr
  simp [selectSpecial, hr]

theorem sizeSub_zero (n : Nat) : sizeSub n 0 = n := by
  simp [sizeSub]

theorem muteLoop_spec {F D : Type} (fl : FloatOps F D) (k : Nat) :
    ∀ (p : Nat) (outbuf : List F), p + 2 * k ≤ outbuf.length →
      ∃ out1, muteLoop fl k p outbuf = some out1 ∧ out1.length = outbuf.length ∧
        ∀ j, out1[j]? = if p ≤ j ∧ j < p + 2 * k then some fl.zero else outbuf[j]? := by
  induction k with
  | zero =>
    intro p outbuf _
    refine ⟨outbuf, rfl, rfl, ?_⟩
    intro j
    rw [if_neg (by omega)]
  | succ k ih =>
    intro p outbuf h
    have h1 : p < outbuf.length := by omega
    have h2 : p + 1 < (outbuf.set p fl.zero).length := by simp; omega
    obtain ⟨out1, e1, l1, g1⟩ := ih (p + 2) ((outbuf.set p fl.zero).set (p + 1) fl.zero)
      (by simp; omega)
    refine ⟨out1, ?_, by simpa using l1, ?_⟩
    · simp only [muteLoop, writeBuf, h1, h2, if_true, Option.bind_eq_bind, Option.some_bind]
      exact e1
    · intro j
      rw [g1 j]
      by_cases c1 : p + 2 ≤ j ∧ j < p + 2 + 2 * k
      · rw [if_pos c1, if_pos (by omega)]
      · rw [if_neg c1]
        simp only [List.getElem?_set]
        by_cases c2 : p + 1 = j
        · subst c2
          have hlen2 : p + 1 < outbuf.length := by omega
          rw [if_pos rfl, if_pos (by omega)]
          rw [if_pos (by omega)]
        · rw [if_neg c2]
          by_cases c3 : p = j
          · subst c3
            rw [if_pos rfl, if_pos (by omega)]
            rw [if_pos (by omega)]
          · rw [if_neg c3, if_neg (by omega)]

/-- In every reachable state a Running machine has an open stream. -/
theorem reachable_stream_of_running {F D : Type} {fl : FloatOps F D} {vm : VirtualMachine F}
    (h : Reachable fl vm) : vm.m_runState = true → vm.m_stream = true := by
  induction h with
  | construct => intro h; cases h
  | start vm pa _ ih =>
    cases pa with
    | started => intro _; rfl
    | startFailed => intro _; rfl
    | openFailed stream =>
      intro h
      by_cases hs : vm.m_stream = true
      · simp [start, hs] at h
      · have hs2 : vm.m_stream = false := by simpa using hs
        have hr : vm.m_runState = true := by simpa [start, hs2] using h
        rw [ih hr] at hs2
        cases hs2
  | stop vm _ _ => intro h; cases h
  | loadProgram vm program vars _ ih => exact ih
  | setSlider vm vm1 id value _ hset ih =>
    unfold setSlider at hset
    split at hset
    · split at hset
      · split at hset
        · cases hset; exact ih
        · cases hset
      · cases hset; exact ih
    · cases hset; exact ih
  | setSource vm source _ ih => exact ih

theorem lastPop_nil {F : Type} (i : Nat) : lastPop ([] : List (Nat × F)) i = none := rfl

theorem lastPop_cons {F : Type} (e : Nat × F) (log : List (Nat × F)) (i : Nat) :
    lastPop (e :: log) i =
      match lastPop log i with
      | some x => some x
      | none => if e.1 = i then some e.2 else none := by
  unfold lastPop
  rw [List.filter_cons]
  by_cases h : e.1 = i
  · simp only [h, decide_True, if_true]
    rw [List.getLast?_cons]
    generalize (List.filter (fun e => decide (e.1 = i)) log).getLast? = o
    cases o <;> rfl
  · simp only [h, decide_False, Bool.false_eq_true, if_false]
    generalize (List.filter (fun e => decide (e.1 = i)) log).getLast? = o
    cases o <;> rfl

/-- What one pass through the loop body does to the table: the pop of the
instruction, if it is one, and nothing otherwise. -/
theorem step_pop {F D : Type} {oc : Opcodes} {fl : FloatOps F D}
    {program : List (instruction_t F)} {s s1 : ExecState F}
    (h : step oc fl program s = some s1) :
    (popOf oc program s = none ∧ s1.vars = s.vars) ∨
    (∃ n x, popOf oc program s = some (n, x) ∧ writeVar s.vars n x = some s1.vars) := by
  unfold step at h
  unfold popOf
  split at h
  · exact absurd h (by simp)
  · rename_i c hc
    try simp only [hc]
    split at h
    · rename_i htop
      split at h
      · rename_i hsel
        simp only [Option.bind_eq_bind, Option.bind_eq_some, Option.pure_def,
          Option.some.injEq] at h
        obtain ⟨x, -, st, -, rfl⟩ := h
        exact Or.inl ⟨by simp [hsel], rfl⟩
      · rename_i hsel
        simp only [Option.bind_eq_bind, Option.bind_eq_some, Option.pure_def,
          Option.some.injEq] at h
        obtain ⟨x, hx, vars, hw, rfl⟩ := h
        exact Or.inr ⟨_, x, by simp [htop, hsel, hx], hw⟩
      · rename_i hsel
        cases h
        exact Or.inl ⟨by simp [hsel], rfl⟩
      · rename_i hsel
        cases h
        exact Or.inl ⟨by simp [hsel], rfl⟩
      · rename_i hsel
        cases h
        exact Or.inl ⟨by simp [hsel], rfl⟩
    · rename_i htop
      have hnone : (if c.icode &&& 0x80000000 ≠ 0 ∧
          selectSpecial oc (c.icode &&& 0xff000000) = SpecialCase.writevar then
          (match stackRead s.stack (sizeSub s.sp 1) with
            | some x => some (c.icode &&& 0xFFFF, x)
            | none => none)
          else none) = none := by
        rw [if_neg (fun hh => htop hh.1)]
      refine Or.inl ⟨hnone, ?_⟩
      exact ((@step_spec F D oc fl program s s1
        (by unfold step; simp only [hc, if_neg htop]; exact h)).2.2).elim id
        (fun ⟨c2, n, v, x, hc2, hw, _, _⟩ => by
          rw [hc] at hc2
          cases hc2
          exact absurd hw.1 htop)

/-- When the loop ends, a slot holds the value of the last pop into it, and
its previous value when no pop targeted it. -/
theorem runLoop_lastPop {F D : Type} (oc : Opcodes) (fl : FloatOps F D)
    (program : List (instruction_t F)) (fuel : Nat) :
    ∀ (s s1 : ExecState F),
      (runLoop oc fl program fuel s = LoopResult.overflow s1 ∨
        runLoop oc fl program fuel s = LoopResult.finished s1) →
      ∀ i,
        (∀ x, lastPop ((loopStates oc fl program fuel s).filterMap (popOf oc program)) i =
            some x → readVar s1.vars i = some x) ∧
        (lastPop ((loopStates oc fl program fuel s).filterMap (popOf oc program)) i = none →
          s1.vars[i]? = s.vars[i]?) := by
  induction fuel with
  | zero =>
    intro s s1 h i
    unfold runLoop at h
    unfold loopStates
    split at h
    · simp at h
    · rename_i hpc
      have e : s1 = s := by
        rcases h with h | h
        · cases h
        · cases h; rfl
      subst e
      rw [if_neg hpc]
      exact ⟨fun x hx => (by cases hx), fun _ => rfl⟩
  | succ fuel ih =>
    intro s s1 h i
    unfold runLoop at h
    unfold loopStates
    split at h
    · rename_i hpc
      rw [if_pos hpc]
      dsimp only at h ⊢
      cases hst : step oc fl program s with
      | none => simp [hst] at h
      | some s2 =>
        simp only [hst] at h ⊢
        -- the table after this instruction, and the pops after it
        have hrest : ∀ rest : List (ExecState F),
            (∀ x, lastPop (rest.filterMap (popOf oc program)) i = some x →
              readVar s1.vars i = some x) →
            (lastPop (rest.filterMap (popOf oc program)) i = none →
              s1.vars[i]? = s2.vars[i]?) →
            (∀ x, lastPop ((s :: rest).filterMap (popOf oc program)) i = some x →
              readVar s1.vars i = some x) ∧
            (lastPop ((s :: rest).filterMap (popOf oc program)) i = none →
              s1.vars[i]? = s.vars[i]?) := by
          intro rest hsome hnone
          rcases step_pop hst with ⟨hp, hv⟩ | ⟨n, x, hp, hw⟩
          · simp only [List.filterMap_cons, hp]
            exact ⟨hsome, fun hh => (hnone hh).trans (by rw [hv])⟩
          · simp only [List.filterMap_cons, hp, lastPop_cons]
            have hn : n < s.vars.length := by
              by_contra hn
              simp [writeVar, List.getElem?_eq_none (Nat.le_of_not_lt hn)] at hw
            obtain ⟨w, hw2, -, hr, hf⟩ := writeVar_spec s.vars n x hn
            rw [hw] at hw2
            cases hw2
            cases hl : lastPop (rest.filterMap (popOf oc program)) i with
            | some y =>
              simp only
              exact ⟨fun z hz => (by cases hz; exact hsome y hl), fun hh => (by cases hh)⟩
            | none =>
              simp only
              by_cases hni : n = i
              · subst hni
                simp only [if_true]
                refine ⟨fun z hz => ?_, fun hh => by cases hh⟩
                cases hz
                rw [readVar_congr (hnone hl)]
                exact hr
              · simp only [hni, if_false]
                refine ⟨fun z hz => (by cases hz), fun _ => ?_⟩
                exact (hnone hl).trans (hf i (fun e => hni e.symm))
        split at h
        · rename_i hov
          rw [if_pos hov]
          have e : s1 = s2 := by
            rcases h with h | h
            · cases h; rfl
            · cases h
          subst e
          exact hrest [] (fun x hx => by cases hx) (fun _ => rfl)
        · rename_i hov
          rw [if_neg hov]
          obtain ⟨a1, a2⟩ := ih s2 s1 h i
          exact hrest _ a1 a2
    · rename_i hpc
      rw [if_neg hpc]
      have e : s1 = s := by
        rcases h with h | h
        · cases h
        · cases h; rfl
      subst e
      exact ⟨fun x hx => (by cases hx), fun _ => rfl⟩

theorem ratOps_ne_zero_zero : ratOps.ne 0 ratOps.zero = false := by
  simp [ratOps]

theorem ratOps_lt_asymm (a b : ℚ) (h : ratOps.lt a b = true) : ratOps.lt b a = false := by
  simp only [ratOps, decide_eq_true_eq, decide_eq_false_iff_not, not_lt] at *
  exact le_of_lt h

theorem ratOps_lt_trans (a b c : ℚ) (h1 : ratOps.lt a b = true) (h2 : ratOps.lt b c = true) :
    ratOps.lt a c = true := by
  simp only [ratOps, decide_eq_true_eq] at *
  exact lt_trans h1 h2

theorem ratOps_negOne_lt_one : ratOps.lt ratOps.negOne ratOps.one = true := by
  simp [ratOps]

theorem dumpSimple_neg (oc : Opcodes) (hoc : oc.Distinct) :
    dumpSimple oc oc.P_neg = DumpCase.line "UNKNOWN" ∧
    selectSimple oc oc.P_neg = SimpleCase.neg := by
  refine ⟨?_, (selectSimple_labels oc hoc).2.2.2.2.1⟩
  have hr := List.nodup_reverse.mpr hoc.1
  have hd := hoc.1
  simp [Opcodes.simpleLabels] at hr hd
  simp [dumpSimple, hr, hd]

/- Lemmas on well-formed programs and on the conversion to `int` -/

/-- A well-formed instruction started with at most 2044 cells in use makes no
access outside the program, the table or the stack, and moves the stack
pointer by at most one. -/
theorem step_safe {F D : Type} (oc : Opcodes) (fl : FloatOps F D)
    (program : List (instruction_t F)) (size : Nat) (t : ExecState F)
    (hsz : t.vars.length = size) (hsp : t.sp ≤ 2044) (hpc : t.pc < program.length)
    (hwf : WellFormedAt oc program size t) :
    ∃ t1, step oc fl program t = some t1 ∧ t1.vars.length = size ∧
      t1.sp ≤ t.sp + 1 ∧ t.sp ≤ t1.sp + 1 := by
  have hc : program[t.pc]? = some program[t.pc] := List.getElem?_eq_getElem hpc
  generalize program[t.pc] = c at hc
  obtain ⟨w1, w2, w3⟩ := hwf c hc
  have hw : ∀ x : F, stackWrite t.stack t.sp x = some (Function.update t.stack t.sp x) := by
    intro x
    have : t.sp < 2048 := by omega
    simp [stackWrite, STACK_SIZE, this]
  by_cases htop : c.icode &&& 0x80000000 ≠ 0
  · cases hsel : selectSpecial oc (c.icode &&& 0xff000000) with
    | readvar =>
      obtain ⟨x, hx⟩ := readVar_of_lt t.vars _ (hsz ▸ w1 htop (Or.inl hsel))
      refine ⟨{ t with pc := t.pc + 1, sp := t.sp + 1,
                       stack := Function.update t.stack t.sp x }, ?_, hsz, ?_, ?_⟩
      · simp [step, hc, htop, hsel, hx, hw]
      · simp only; omega
      · simp only; omega
    | writevar =>
      have h1 : 1 ≤ t.sp := by simpa [operandCount, htop, hsel] using w3
      have e1 : sizeSub t.sp 1 = t.sp - 1 := sizeSub_one (by omega)
      have e3 : t.sp - 1 < 2048 := by omega
      obtain ⟨vars1, hv, hn, -, -⟩ := writeVar_spec t.vars (c.icode &&& 0xFFFF)
        (t.stack (t.sp - 1)) (hsz ▸ w1 htop (Or.inr hsel))
      refine ⟨{ t with pc := t.pc + 1, sp := t.sp - 1, vars := vars1 }, ?_, ?_, ?_, ?_⟩
      · simp [step, hc, htop, hsel, e1, stackRead, STACK_SIZE, e3, hv]
      · rw [← hsz]
        simpa using congrArg List.length hn
      · simp only; omega
      · simp only; omega
    | fir =>
      exact ⟨{ t with pc := t.pc + 1 }, by simp [step, hc, htop, hsel, execFIR, sizeSub_zero],
        hsz, (by simp only; omega), (by simp only; omega)⟩
    | biquad =>
      exact ⟨{ t with pc := t.pc + 1 },
        by simp [step, hc, htop, hsel, execBiquad, sizeSub_zero], hsz, (by simp only; omega), (by simp only; omega)⟩
    | default =>
      exact ⟨{ t with pc := t.pc + 1 }, by simp [step, hc, htop, hsel], hsz, (by simp only; omega), (by simp only; omega)⟩
  · have htop2 : c.icode &&& 0x80000000 = 0 := by simpa using htop
    have hstep : step oc fl program t =
        match selectSimple oc c.icode with
        | SimpleCase.add => binaryOp fl.add (t.pc + 1) t
        | SimpleCase.sub => binaryOp fl.sub (t.pc + 1) t
        | SimpleCase.mul => binaryOp fl.mul (t.pc + 1) t
        | SimpleCase.div => binaryOp fl.div (t.pc + 1) t
        | SimpleCase.neg => unaryOp fl.neg (t.pc + 1) t
        | SimpleCase.sin => unaryOp fl.sin (t.pc + 1) t
        | SimpleCase.tan => unaryOp fl.tan (t.pc + 1) t
        | SimpleCase.tanh => unaryOp fl.tanh (t.pc + 1) t
        | SimpleCase.cos => unaryOp fl.cos (t.pc + 1) t
        | SimpleCase.sin1 =>
          unaryOp (fun x => fl.ofDouble (fl.dsin
            (fl.dmul (fl.dmul (fl.toDouble fl.two) fl.M_PI) (fl.toDouble x)))) (t.pc + 1) t
        | SimpleCase.cos1 =>
          unaryOp (fun x => fl.ofDouble (fl.dcos
            (fl.dmul (fl.dmul (fl.toDouble fl.two) fl.M_PI) (fl.toDouble x)))) (t.pc + 1) t
        | SimpleCase.literal =>
          match program[t.pc + 1]? with
          | none => none
          | some payload => do
            let stack ← stackWrite t.stack t.sp payload.value
            pure { t with pc := t.pc + 1 + 1, sp := t.sp + 1, stack := stack }
        | SimpleCase.mod1 =>
          unaryOp (fun x => fl.sub x (fl.ofInt (fl.toInt x))) (t.pc + 1) t
        | SimpleCase.abs => unaryOp fl.fabs (t.pc + 1) t
        | SimpleCase.sqrt => unaryOp fl.sqrt (t.pc + 1) t
        | SimpleCase.round => do
          let sp := sizeSub t.sp 1
          let b ← stackRead t.stack sp
          if fl.ne b fl.zero then do
            let a ← stackRead t.stack (sizeSub sp 1)
            let stack ← stackWrite t.stack (sizeSub sp 1) (fl.mul b (fl.round (fl.div a b)))
            pure { t with pc := t.pc + 1, sp := sp, stack := stack }
          else
            pure { t with pc := t.pc + 1, sp := sp }
        | SimpleCase.pow => binaryOp fl.pow (t.pc + 1) t
        | SimpleCase.limit => do
          let x ← stackRead t.stack (sizeSub t.sp 1)
          let stack ← stackWrite t.stack (sizeSub t.sp 1) (stdMin fl x fl.one)
          let y ← stackRead stack (sizeSub t.sp 1)
          let stack ← stackWrite stack (sizeSub t.sp 1) (stdMax fl y fl.negOne)
          pure { t with pc := t.pc + 1, stack := stack }
        | SimpleCase.default => some { t with pc := t.pc + 1 } := by
      simp only [step, hc, htop2, ne_eq, not_true_eq_false, if_false]
      try rfl
    have un : ∀ f : F → F, 1 ≤ t.sp →
        ∃ t1, unaryOp f (t.pc + 1) t = some t1 ∧ t1.vars.length = size ∧
          t1.sp ≤ t.sp + 1 ∧ t.sp ≤ t1.sp + 1 := by
      intro f h1
      exact ⟨_, unaryOp_eq f _ t h1 (by omega), hsz, (by simp only; omega), (by simp only; omega)⟩
    have bi : ∀ f : F → F → F, 2 ≤ t.sp →
        ∃ t1, binaryOp f (t.pc + 1) t = some t1 ∧ t1.vars.length = size ∧
          t1.sp ≤ t.sp + 1 ∧ t.sp ≤ t1.sp + 1 := by
      intro f h2
      refine ⟨_, binaryOp_eq f _ t h2 (by omega), hsz, ?_, ?_⟩
      · simp only; omega
      · simp only; omega
    rw [hstep]
    cases hsel : selectSimple oc c.icode with
    | add => exact bi _ (by simpa [operandCount, htop2, hsel] using w3)
    | sub => exact bi _ (by simpa [operandCount, htop2, hsel] using w3)
    | mul => exact bi _ (by simpa [operandCount, htop2, hsel] using w3)
    | div => exact bi _ (by simpa [operandCount, htop2, hsel] using w3)
    | pow => exact bi _ (by simpa [operandCount, htop2, hsel] using w3)
    | neg => exact un _ (by simpa [operandCount, htop2, hsel] using w3)
    | sin => exact un _ (by simpa [operandCount, htop2, hsel] using w3)
    | tan => exact un _ (by simpa [operandCount, htop2, hsel] using w3)
    | tanh => exact un _ (by simpa [operandCount, htop2, hsel] using w3)
    | cos => exact un _ (by simpa [operandCount, htop2, hsel] using w3)
    | sin1 => exact un _ (by simpa [operandCount, htop2, hsel] using w3)
    | cos1 => exact un _ (by simpa [operandCount, htop2, hsel] using w3)
    | mod1 => exact un _ (by simpa [operandCount, htop2, hsel] using w3)
    | abs => exact un _ (by simpa [operandCount, htop2, hsel] using w3)
    | sqrt => exact un _ (by simpa [operandCount, htop2, hsel] using w3)
    | literal =>
      have hp : t.pc + 1 < program.length := w2 htop2 hsel
      simp only [List.getElem?_eq_getElem hp, hw]
      exact ⟨_, rfl, hsz, (by simp only; omega), (by simp only; omega)⟩
    | round =>
      have h2 : 2 ≤ t.sp := by simpa [operandCount, htop2, hsel] using w3
      have e1 : sizeSub t.sp 1 = t.sp - 1 := sizeSub_one (by omega)
      have e2 : sizeSub (t.sp - 1) 1 = t.sp - 2 := by
        rw [sizeSub_one (by omega)]; rfl
      have e3 : t.sp - 1 < 2048 := by omega
      have e4 : t.sp - 2 < 2048 := by omega
      by_cases hb : fl.ne (t.stack (t.sp - 1)) fl.zero = true
      · refine ⟨{ t with pc := t.pc + 1, sp := t.sp - 1,
                         stack := Function.update t.stack (t.sp - 2)
                           (fl.mul (t.stack (t.sp - 1))
                             (fl.round (fl.div (t.stack (t.sp - 2)) (t.stack (t.sp - 1))))) },
          ?_, hsz, ?_, ?_⟩
        · simp [e1, e2, stackRead, stackWrite, STACK_SIZE, e3, e4, hb]
        · simp only; omega
        · simp only; omega
      · refine ⟨{ t with pc := t.pc + 1, sp := t.sp - 1 }, ?_, hsz, ?_, ?_⟩
        · simp [e1, stackRead, STACK_SIZE, e3, hb]
        · simp only; omega
        · simp only; omega
    | limit =>
      have h1 : 1 ≤ t.sp := by simpa [operandCount, htop2, hsel] using w3
      have e1 : sizeSub t.sp 1 = t.sp - 1 := sizeSub_one (by omega)
      have e3 : t.sp - 1 < 2048 := by omega
      refine ⟨{ t with pc := t.pc + 1,
                       stack := Function.update t.stack (t.sp - 1)
                         (stdMax fl (stdMin fl (t.stack (t.sp - 1)) fl.one) fl.negOne) },
        ?_, hsz, (by simp only; omega), (by simp only; omega)⟩
      simp [e1, stackRead, stackWrite, STACK_SIZE, e3]
    | default => exact ⟨_, rfl, hsz, (by simp only; omega), (by simp only; omega)⟩

/-- While the loop makes no access out of range, it does not end in a fault,
and every instruction it starts is left with a stack pointer that moved by at
most one. -/
theorem runLoop_safe {F D : Type} (oc : Opcodes) (fl : FloatOps F D)
    (program : List (instruction_t F)) (size : Nat) (fuel : Nat) :
    ∀ s : ExecState F, s.vars.length = size → s.sp ≤ 2044 →
      (∀ t ∈ loopStates oc fl program fuel s, WellFormedAt oc program size t) →
      runLoop oc fl program fuel s ≠ LoopResult.fault ∧
      ∀ t ∈ loopStates oc fl program fuel s,
        t.pc < program.length ∧ t.sp ≤ 2044 ∧ t.vars.length = size ∧
        ∃ t1, step oc fl program t = some t1 ∧ t1.vars.length = size ∧
          t1.sp ≤ t.sp + 1 ∧ t.sp ≤ t1.sp + 1 := by
  induction fuel with
  | zero =>
    intro s _ _ _
    unfold runLoop loopStates
    split
    · exact ⟨by simp, fun t ht => by simp at ht⟩
    · exact ⟨by simp, fun t ht => by simp at ht⟩
  | succ fuel ih =>
    intro s hsz hsp hwf
    unfold runLoop
    unfold loopStates at hwf ⊢
    by_cases hpc : s.pc < program.length
    · rw [if_pos hpc] at hwf ⊢
      rw [if_pos hpc]
      dsimp only at hwf ⊢
      obtain ⟨s1, hst, hsz1, hup, hdown⟩ :=
        step_safe oc fl program size s hsz hsp hpc (hwf s (List.mem_cons_self _ _))
      simp only [hst] at hwf ⊢
      by_cases hov : s1.sp > 2044
      · rw [if_pos hov] at hwf ⊢
        rw [if_pos hov]
        refine ⟨by simp, fun t ht => ?_⟩
        simp only [List.mem_singleton] at ht
        subst ht
        exact ⟨hpc, hsp, hsz, s1, hst, hsz1, hup, hdown⟩
      · rw [if_neg hov] at hwf ⊢
        rw [if_neg hov]
        obtain ⟨a1, a2⟩ := ih s1 hsz1 (by omega)
          (fun t ht => hwf t (List.mem_cons_of_mem _ ht))
        refine ⟨a1, fun t ht => ?_⟩
        rcases List.mem_cons.mp ht with rfl | ht
        · exact ⟨hpc, hsp, hsz, s1, hst, hsz1, hup, hdown⟩
        · exact a2 t ht
    · rw [if_neg hpc]
      rw [if_neg hpc]
      exact ⟨by simp, fun t ht => by simp at ht⟩

/-- The block that assigns the outputs makes no access outside a table that
has the size of the table the pointers were resolved on. -/
theorem readOutputs_of_loaded {F D : Type} (fl : FloatOps F D) (vm : VirtualMachine F)
    (vars : List (variable_t F)) (hload : Loaded fl vm) (hlen : vm.m_vars.length ≤ 2 ^ 31)
    (hl : vars.length = vm.m_vars.length) :
    ∃ l r, readOutputs fl vm vars = some (l, r) := by
  obtain ⟨-, -, hlout, hrout, -, hout, -⟩ := (Loaded_iff fl vm hlen).mp hload
  have key : ∀ (p : Option Nat) (nm : String), p = slotNamed vm.m_vars nm →
      ∃ x, readPort fl vars p = some x := by
    intro p nm hp
    rw [hp]
    cases h : slotNamed vm.m_vars nm with
    | some i =>
      obtain ⟨x, hx⟩ := readVar_of_lt vars i (hl ▸ slotNamed_lt h)
      exact ⟨x, hx⟩
    | none => exact ⟨fl.zero, rfl⟩
  cases ho : slotNamed vm.m_vars "out" with
  | some i =>
    obtain ⟨x, hx⟩ := readVar_of_lt vars i (hl ▸ slotNamed_lt ho)
    exact ⟨x, x, by simp [readOutputs, hout, ho, hx]⟩
  | none =>
    obtain ⟨l, el⟩ := key _ _ hlout
    obtain ⟨r, er⟩ := key _ _ hrout
    exact ⟨l, r, by simp [readOutputs, hout, ho, el, er]⟩

/-- In a run of pushes that fills the stack up to the guard, no instruction
the loop starts is a pop. -/
theorem loopStates_pushes {F D : Type} (oc : Opcodes) (fl : FloatOps F D)
    (program : List (instruction_t F)) (n : Nat) (x : F) (k : Nat) :
    ∀ (fuel : Nat) (s : ExecState F), 1 ≤ k → k ≤ fuel → s.sp + k = 2045 →
      readVar s.vars n = some x →
      (∀ j, j < k → ∃ c, program[s.pc + j]? = some c ∧ IsReadVar oc c n) →
      (loopStates oc fl program fuel s).filterMap (popOf oc program) = [] := by
  induction k with
  | zero => intro fuel s h; omega
  | succ k ih =>
    intro fuel s _ hf hsp hx hprog
    obtain ⟨c, hc, hr⟩ := hprog 0 (by omega)
    rw [Nat.add_zero] at hc
    have hlt : s.pc < program.length := by
      by_contra hn
      rw [List.getElem?_eq_none (by omega)] at hc
      exact absurd hc (by simp)
    have hst := step_readVar oc fl program s c n x hc hr hx (by omega)
    have hpop : popOf oc program s = none := by
      obtain ⟨h1, h2, -⟩ := hr
      simp [popOf, hc, h1, h2, selectSpecial_readvar]
    cases fuel with
    | zero => omega
    | succ fuel =>
      unfold loopStates
      rw [if_pos hlt]
      simp only [hst, List.filterMap_cons, hpop]
      by_cases hk : k = 0
      · subst hk
        rw [if_pos (by simp; omega)]
        rfl
      · rw [if_neg (by simp; omega)]
        refine ih fuel _ (by omega) (by omega) (by simp; omega) hx ?_
        intro j hj
        obtain ⟨c1, hc1, hr1⟩ := hprog (j + 1) (by omega)
        refine ⟨c1, ?_, hr1⟩
        rw [← hc1]
        simp only
        congr 1
        omega

theorem filterMap_pair {α β : Type} (f : α → Option β) (a b : α) (l : List α) (y : β)
    (h1 : f a = none) (h2 : f b = some y) (h3 : l.filterMap f = []) :
    (a :: b :: l).filterMap f = [y] := by
  simp [List.filterMap_cons, h1, h2, h3]

/-- The pops executed in the aborted tick of `abortMachine`: the one into
slot 0, of the value 1, and no other. -/
theorem abortMachine_log :
    (loopStates exampleOpcodes ratOps abortMachine.m_program abortMachine.m_program.length
        { pc := 0, sp := 0, stack := fun _ => 0,
          vars := [⟨"x", 0⟩, ⟨"outl", 0⟩, ⟨"y", 5⟩] }).filterMap
      (popOf exampleOpcodes abortMachine.m_program) = [(0, 1)] := by
  have e1 : step exampleOpcodes ratOps abortProgram
      { pc := 0, sp := 0, stack := fun _ => 0, vars := [⟨"x", 0⟩, ⟨"outl", 0⟩, ⟨"y", 5⟩] } =
      some { pc := 2, sp := 1, stack := Function.update (fun _ => 0) 0 1,
             vars := [⟨"x", 0⟩, ⟨"outl", 0⟩, ⟨"y", 5⟩] } :=
    step_literal exampleOpcodes (by decide) ratOps _ _ (instr 12) (payload 1)
      abortProgram_head.1 (by decide) abortProgram_head.2.1 (by decide)
  have e2 : step exampleOpcodes ratOps abortProgram
      { pc := 2, sp := 1, stack := Function.update (fun _ => 0) 0 1,
        vars := [⟨"x", 0⟩, ⟨"outl", 0⟩, ⟨"y", 5⟩] } =
      some { pc := 3, sp := 0, stack := Function.update (fun _ => 0) 0 1,
             vars := [⟨"x", 1⟩, ⟨"outl", 0⟩, ⟨"y", 5⟩] } :=
    step_writeVar exampleOpcodes (by decide) ratOps _ _ (instr 0x81000000) 0 _
      abortProgram_head.2.2 (by decide) (by decide) (by decide) (by simp [writeVar])
  have p1 : popOf exampleOpcodes abortProgram
      { pc := 0, sp := 0, stack := fun _ => (0 : ℚ),
        vars := [⟨"x", 0⟩, ⟨"outl", 0⟩, ⟨"y", 5⟩] } = none := by
    simp only [popOf, abortProgram_head.1]
    decide
  have p2 : popOf exampleOpcodes abortProgram
      { pc := 2, sp := 1, stack := Function.update (fun _ => (0 : ℚ)) 0 1,
        vars := [⟨"x", 0⟩, ⟨"outl", 0⟩, ⟨"y", 5⟩] } = some (0, 1) := by
    simp only [popOf, abortProgram_head.2.2]
    decide
  have h3 := loopStates_pushes exampleOpcodes ratOps abortProgram 0 1 2045 4091
    { pc := 3, sp := 0, stack := Function.update (fun _ => 0) 0 1,
      vars := [⟨"x", 1⟩, ⟨"outl", 0⟩, ⟨"y", 5⟩] } (by decide) (by decide) rfl rfl
    abortProgram_pushes
  have l0 : (0 : Nat) < abortProgram.length := by rw [abortProgram_length]; decide
  have l2 : (2 : Nat) < abortProgram.length := by rw [abortProgram_length]; decide
  show (loopStates exampleOpcodes ratOps abortProgram abortProgram.length _).filterMap
    (popOf exampleOpcodes abortProgram) = [(0, 1)]
  rw [abortProgram_length]
  rw [show (4093 : Nat) = 4091 + 1 + 1 from rfl]
  unfold loopStates
  rw [if_pos l0]
  simp only [e1]
  rw [if_neg (by decide)]
  unfold loopStates
  rw [if_pos l2]
  simp only [e2]
  rw [if_neg (by decide)]
  exact filterMap_pair (popOf exampleOpcodes abortProgram) _ _ _ _ p1 p2 h3

/-- A program that reads below the empty stack and goes on: the interpreter
model stops at the first instruction, the indices are followed through the
push after it. -/
theorem indexStates_past_fault :
    indexStates exampleOpcodes ([instr 5, instr 0x80000000] : List (instruction_t ℚ)) 2 0 0 =
      [(0, 0), (1, 0)] ∧
    (loopStates exampleOpcodes ratOps [instr 5, instr 0x80000000] 2
        { pc := 0, sp := 0, stack := fun _ => 0, vars := [⟨"x", 0⟩] }).map
      (fun t => (t.pc, t.sp)) = [(0, 0)] :=
  ⟨by decide, by decide⟩

/-- Claim C1 (identity patch). A Running machine holds the compiled form of
`outl = inl`: the program is a push of the slot `inl` followed by a pop into
the slot `outl`, the table has exactly these two slots (in either order), and
the ports are the ones `loadProgram` resolves. Then for all inputs and
whatever the two slots held, the tick returns at the end of the function with
outLeft equal to inLeft (and outRight 0.0, there being no `outr`). The machine
afterwards meets the same conditions again, so the same holds on every later
tick. -/
theorem C1_identity_patch {F D : Type} (oc : Opcodes) (hoc : oc.Distinct) (fl : FloatOps F D)
    (vm : VirtualMachine F) (c1 c2 : instruction_t F) (nIn nOut : Nat) (a b : F)
    (stack : Nat → F) (inLeft inRight outLeft outRight : F)
    (hload : Loaded fl vm) (hrun : vm.m_runState = true)
    (hprog : vm.m_program = [c1, c2])
    (hread : IsReadVar oc c1 nIn) (hwrite : IsWriteVar oc c2 nOut)
    (hvars : (vm.m_vars = [⟨"inl", a⟩, ⟨"outl", b⟩] ∧ nIn = 0 ∧ nOut = 1) ∨
             (vm.m_vars = [⟨"outl", b⟩, ⟨"inl", a⟩] ∧ nIn = 1 ∧ nOut = 0)) :
    ∃ vm1 : VirtualMachine F,
      executeProgram oc fl vm stack inLeft inRight outLeft outRight =
        TickResult.returned Exit.finished vm1 inLeft fl.zero ∧
      vm1 = { vm with m_vars := vm.m_vars.map (fun v => { v with value := inLeft }) } ∧
      Loaded fl vm1 ∧ vm1.m_runState = true ∧ vm1.m_program = [c1, c2] ∧
      ((vm1.m_vars = [⟨"inl", inLeft⟩, ⟨"outl", inLeft⟩] ∧ nIn = 0 ∧ nOut = 1) ∨
       (vm1.m_vars = [⟨"outl", inLeft⟩, ⟨"inl", inLeft⟩] ∧ nIn = 1 ∧ nOut = 0)) := by
  have hlen : vm.m_vars.length ≤ 2 ^ 31 := by
    rcases hvars with ⟨h, -, -⟩ | ⟨h, -, -⟩ <;> simp [h]
  obtain ⟨hlin, hrin, hlout, hrout, hin, hout, hsl⟩ := (Loaded_iff fl vm hlen).mp hload
  rcases hvars with ⟨hv, rfl, rfl⟩ | ⟨hv, rfl, rfl⟩
  · rw [hv] at hlin hrin hlout hrout hin hout hsl
    simp [slotNamed] at hlin hrin hlout hrout hin hout hsl
    have hb : bindInputs fl vm inLeft inRight = some [⟨"inl", inLeft⟩, ⟨"outl", b⟩] := by
      simp [bindInputs, hin, hlin, hrin, writePort, writeVar, hv]
    have s1 : step oc fl [c1, c2]
        { pc := 0, sp := 0, stack := stack, vars := [⟨"inl", inLeft⟩, ⟨"outl", b⟩] } =
        some { pc := 1, sp := 1, stack := Function.update stack 0 inLeft,
               vars := [⟨"inl", inLeft⟩, ⟨"outl", b⟩] } :=
      step_readVar oc fl _ _ c1 0 inLeft rfl hread rfl (by simp)
    have s2 : step oc fl [c1, c2]
        { pc := 1, sp := 1, stack := Function.update stack 0 inLeft,
          vars := [⟨"inl", inLeft⟩, ⟨"outl", b⟩] } =
        some { pc := 2, sp := 0, stack := Function.update stack 0 inLeft,
               vars := [⟨"inl", inLeft⟩, ⟨"outl", inLeft⟩] } :=
      step_writeVar oc hoc fl _ _ c2 1 _ rfl hwrite (by simp) (by simp)
        (by simp [writeVar])
    refine ⟨_, ?_, rfl, ?_, hrun, hprog, Or.inl ⟨by simp [hv], rfl, rfl⟩⟩
    · simp [executeProgram, hb, hprog, hrun, runLoop, s1, s2, afterLoop, readOutputs, readPort, hout,
        hlout, hrout, readVar, hv]
    · rw [Loaded_iff fl _ (by simp [hv])]
      simp [hv, slotNamed, hlin, hrin, hlout, hrout, hin, hout, hsl]
  · rw [hv] at hlin hrin hlout hrout hin hout hsl
    simp [slotNamed] at hlin hrin hlout hrout hin hout hsl
    have hb : bindInputs fl vm inLeft inRight = some [⟨"outl", b⟩, ⟨"inl", inLeft⟩] := by
      simp [bindInputs, hin, hlin, hrin, writePort, writeVar, hv]
    have s1 : step oc fl [c1, c2]
        { pc := 0, sp := 0, stack := stack, vars := [⟨"outl", b⟩, ⟨"inl", inLeft⟩] } =
        some { pc := 1, sp := 1, stack := Function.update stack 0 inLeft,
               vars := [⟨"outl", b⟩, ⟨"inl", inLeft⟩] } :=
      step_readVar oc fl _ _ c1 1 inLeft rfl hread rfl (by simp)
    have s2 : step oc fl [c1, c2]
        { pc := 1, sp := 1, stack := Function.update stack 0 inLeft,
          vars := [⟨"outl", b⟩, ⟨"inl", inLeft⟩] } =
        some { pc := 2, sp := 0, stack := Function.update stack 0 inLeft,
               vars := [⟨"outl", inLeft⟩, ⟨"inl", inLeft⟩] } :=
      step_writeVar oc hoc fl _ _ c2 0 _ rfl hwrite (by simp) (by simp)
        (by simp [writeVar])
    refine ⟨_, ?_, rfl, ?_, hrun, hprog, Or.inr ⟨by simp [hv], rfl, rfl⟩⟩
    · simp [executeProgram, hb, hprog, hrun, runLoop, s1, s2, afterLoop, readOutputs, readPort, hout,
        hlout, hrout, readVar, hv]
    · rw [Loaded_iff fl _ (by simp [hv])]
      simp [hv, slotNamed, hlin, hrin, hlout, hrout, hin, hout, hsl]

/-- The identity patch on the rational arithmetic, ticked with (3, 5). -/
theorem C1_identity_patch_witness :
    ∃ vm1 : VirtualMachine ℚ,
      executeProgram exampleOpcodes ratOps (identityMachine 7 9) (fun _ => 0) 3 5 0 0 =
        TickResult.returned Exit.finished vm1 3 ratOps.zero ∧
      vm1 = { identityMachine 7 9 with
        m_vars := (identityMachine 7 9).m_vars.map (fun v => { v with value := 3 }) } ∧
      Loaded ratOps vm1 ∧ vm1.m_runState = true ∧
      vm1.m_program = [instr 0x80000000, instr 0x81000001] ∧
      ((vm1.m_vars = [⟨"inl", 3⟩, ⟨"outl", 3⟩] ∧ 0 = 0 ∧ 1 = 1) ∨
       (vm1.m_vars = [⟨"outl", 3⟩, ⟨"inl", 3⟩] ∧ 0 = 1 ∧ 1 = 0)) :=
  C1_identity_patch exampleOpcodes (by decide) ratOps (identityMachine 7 9)
    (instr 0x80000000) (instr 0x81000001) 0 1 7 9 (fun _ => 0) 3 5 0 0
    (Loaded_loadProgram ratOps freshMachine _ _) rfl rfl (by decide) (by decide)
    (Or.inl ⟨rfl, rfl, rfl⟩)

/-- Claim C2 (constant patch). A Running machine holds the compiled form of
`outl = 0.5 + 0.5`: a literal and its payload, a second literal and its
payload, ADD, and a pop into `outl`, with the table `[outl]`; `half` is the
value of both payloads and the float sum `half + half` is `1.0`. Then for all
inputs the tick returns at the end with outLeft equal to `1.0`, and the
machine afterwards is loaded as before. Each literal moves the program counter
by two and pushes the value of its payload cell; nothing is asked of the
payload cells read as instruction codes, so they are never decoded. -/
theorem C2_constant_patch {F D : Type} (oc : Opcodes) (hoc : oc.Distinct) (fl : FloatOps F D)
    (vm : VirtualMachine F) (l1 p1 l2 p2 ad wv : instruction_t F) (half b : F)
    (stack : Nat → F) (inLeft inRight outLeft outRight : F)
    (hhalf : fl.add half half = fl.one)
    (hload : Loaded fl vm) (hrun : vm.m_runState = true)
    (hprog : vm.m_program = [l1, p1, l2, p2, ad, wv])
    (hvars : vm.m_vars = [⟨"outl", b⟩])
    (hl1 : IsSimple l1 oc.P_literal) (hp1 : p1.value = half)
    (hl2 : IsSimple l2 oc.P_literal) (hp2 : p2.value = half)
    (had : IsSimple ad oc.P_add) (hwv : IsWriteVar oc wv 0) :
    ∃ vm1 : VirtualMachine F,
      executeProgram oc fl vm stack inLeft inRight outLeft outRight =
        TickResult.returned Exit.finished vm1 fl.one fl.zero ∧
      vm1 = { vm with m_vars := [⟨"outl", fl.one⟩] } ∧
      Loaded fl vm1 ∧
      step oc fl vm.m_program { pc := 0, sp := 0, stack := stack, vars := vm.m_vars } =
        some { pc := 2, sp := 1, stack := Function.update stack 0 half, vars := vm.m_vars } ∧
      step oc fl vm.m_program
          { pc := 2, sp := 1, stack := Function.update stack 0 half, vars := vm.m_vars } =
        some { pc := 4, sp := 2,
               stack := Function.update (Function.update stack 0 half) 1 half,
               vars := vm.m_vars } := by
  have hlen : vm.m_vars.length ≤ 2 ^ 31 := by simp [hvars]
  obtain ⟨hlin, hrin, hlout, hrout, hin, hout, hsl⟩ := (Loaded_iff fl vm hlen).mp hload
  rw [hvars] at hlin hrin hlout hrout hin hout hsl
  simp [slotNamed] at hlin hrin hlout hrout hin hout hsl
  have hb : bindInputs fl vm inLeft inRight = some [⟨"outl", b⟩] := by
    simp [bindInputs, hin, hlin, hrin, writePort, hvars]
  have s1 : step oc fl [l1, p1, l2, p2, ad, wv]
      { pc := 0, sp := 0, stack := stack, vars := [⟨"outl", b⟩] } =
      some { pc := 2, sp := 1, stack := Function.update stack 0 half, vars := [⟨"outl", b⟩] } := by
    rw [← hp1]
    exact step_literal oc hoc fl _ _ l1 p1 rfl hl1 rfl (by simp)
  have s2 : step oc fl [l1, p1, l2, p2, ad, wv]
      { pc := 2, sp := 1, stack := Function.update stack 0 half, vars := [⟨"outl", b⟩] } =
      some { pc := 4, sp := 2, stack := Function.update (Function.update stack 0 half) 1 half,
             vars := [⟨"outl", b⟩] } := by
    rw [← hp2]
    exact step_literal oc hoc fl _ _ l2 p2 rfl hl2 rfl (by simp)
  have s3 : step oc fl [l1, p1, l2, p2, ad, wv]
      { pc := 4, sp := 2, stack := Function.update (Function.update stack 0 half) 1 half,
        vars := [⟨"outl", b⟩] } =
      some { pc := 5, sp := 1,
             stack := Function.update (Function.update (Function.update stack 0 half) 1 half) 0
               fl.one,
             vars := [⟨"outl", b⟩] } := by
    have hsel := (selectSimple_labels oc hoc).1
    rw [← had.2] at hsel
    simp [step, had.1, hsel, binaryOp_eq, hhalf]
  have s4 : step oc fl [l1, p1, l2, p2, ad, wv]
      { pc := 5, sp := 1,
        stack := Function.update (Function.update (Function.update stack 0 half) 1 half) 0
          fl.one,
        vars := [⟨"outl", b⟩] } =
      some { pc := 6, sp := 0,
             stack := Function.update (Function.update (Function.update stack 0 half) 1 half) 0
               fl.one,
             vars := [⟨"outl", fl.one⟩] } :=
    step_writeVar oc hoc fl _ _ wv 0 _ rfl hwv (by simp) (by simp) (by simp [writeVar])
  refine ⟨_, ?_, rfl, ?_, ?_, ?_⟩
  · simp [executeProgram, hb, hprog, hrun, runLoop, s1, s2, s3, s4, afterLoop, readOutputs, readPort,
      hout, hlout, hrout, readVar]
  · rw [Loaded_iff fl _ (by simp)]
    simp [slotNamed, hlin, hrin, hlout, hrout, hin, hout, hsl]
  · rw [hprog, hvars]; exact s1
  · rw [hprog, hvars]; exact s2

/-- The constant patch on the rational arithmetic, where 1/2 + 1/2 = 1. -/
theorem C2_constant_patch_witness :
    ∃ vm1 : VirtualMachine ℚ,
      executeProgram exampleOpcodes ratOps constantMachine (fun _ => 0) 3 5 0 0 =
        TickResult.returned Exit.finished vm1 ratOps.one ratOps.zero ∧
      vm1 = { constantMachine with m_vars := [⟨"outl", ratOps.one⟩] } ∧
      Loaded ratOps vm1 ∧
      step exampleOpcodes ratOps constantMachine.m_program
          { pc := 0, sp := 0, stack := fun _ => 0, vars := constantMachine.m_vars } =
        some { pc := 2, sp := 1, stack := Function.update (fun _ => 0) 0 (1 / 2),
               vars := constantMachine.m_vars } ∧
      step exampleOpcodes ratOps constantMachine.m_program
          { pc := 2, sp := 1, stack := Function.update (fun _ => 0) 0 (1 / 2),
            vars := constantMachine.m_vars } =
        some { pc := 4, sp := 2,
               stack := Function.update (Function.update (fun _ => 0) 0 (1 / 2)) 1 (1 / 2),
               vars := constantMachine.m_vars } :=
  C2_constant_patch exampleOpcodes (by decide) ratOps constantMachine
    (instr 12) (payload (1 / 2)) (instr 12) (payload (1 / 2)) (instr 1) (instr 0x81000000)
    (1 / 2) 0 (fun _ => 0) 3 5 0 0 (add_halves (1 : ℚ))
    (Loaded_loadProgram ratOps freshMachine _ _) rfl rfl rfl (by decide) rfl (by decide) rfl
    (by decide) (by decide)

/-- Claim C3. When the machine is Stopped or the loaded program is empty the
call returns (0, 0) straight away, for all inputs, and leaves the whole
machine, the variable table included, exactly as it was. -/
theorem C3_idle_returns_silence {F D : Type} (oc : Opcodes) (fl : FloatOps F D)
    (vm : VirtualMachine F) (stack : Nat → F) (inLeft inRight outLeft outRight : F)
    (h : vm.m_runState = false ∨ vm.m_program = []) :
    executeProgram oc fl vm stack inLeft inRight outLeft outRight =
      TickResult.returned Exit.idle vm fl.zero fl.zero := by
  have hc : vm.m_program.length = 0 ∨ vm.m_runState = false := by
    rcases h with h | h
    · exact Or.inr h
    · exact Or.inl (by simp [h])
  simp only [executeProgram, if_pos hc]

/-- A stopped machine, ticked with (3, 5). -/
theorem C3_idle_returns_silence_witness :
    executeProgram exampleOpcodes ratOps (stop ratOps (identityMachine 7 9)) (fun _ => 0)
        3 5 1 1 =
      TickResult.returned Exit.idle (stop ratOps (identityMachine 7 9)) ratOps.zero
        ratOps.zero :=
  C3_idle_returns_silence exampleOpcodes ratOps (stop ratOps (identityMachine 7 9))
    (fun _ => 0) 3 5 1 1 (Or.inl rfl)

/-- Claim C4 (input binding). On every tick of a Running machine with a
non-empty program and ports resolved by `loadProgram`, the loop starts on a
table `vars1` in which the slot named `in` holds (inLeft+inRight)/2, the slot
named `inl` holds inLeft and the slot named `inr` holds inRight, each when the
loaded table has that name; all names are as before and every other slot is
untouched. The table is taken to have at most 2^31 slots, the range in which
the `int32_t` index of `findVariableByName` is exact. -/
theorem C4_input_binding {F D : Type} (oc : Opcodes) (fl : FloatOps F D)
    (vm : VirtualMachine F) (stack : Nat → F) (inLeft inRight outLeft outRight : F)
    (hload : Loaded fl vm) (hlen : vm.m_vars.length ≤ 2 ^ 31)
    (hprog : vm.m_program ≠ []) (hrun : vm.m_runState = true) :
    ∃ vars1,
      bindInputs fl vm inLeft inRight = some vars1 ∧
      executeProgram oc fl vm stack inLeft inRight outLeft outRight =
        afterLoop fl vm outLeft outRight
          (runLoop oc fl vm.m_program vm.m_program.length
            { pc := 0, sp := 0, stack := stack, vars := vars1 }) ∧
      vars1.map variable_t.name = vm.m_vars.map variable_t.name ∧
      (∀ i, slotNamed vm.m_vars "in" = some i →
        readVar vars1 i = some (fl.div (fl.add inLeft inRight) fl.two)) ∧
      (∀ i, slotNamed vm.m_vars "inl" = some i → readVar vars1 i = some inLeft) ∧
      (∀ i, slotNamed vm.m_vars "inr" = some i → readVar vars1 i = some inRight) ∧
      (∀ i, slotNamed vm.m_vars "in" ≠ some i → slotNamed vm.m_vars "inl" ≠ some i →
        slotNamed vm.m_vars "inr" ≠ some i → vars1[i]? = vm.m_vars[i]?) := by
  obtain ⟨vars1, h0, h1, h2, h3, h4, h5⟩ := bindInputs_spec fl vm inLeft inRight hload hlen
  refine ⟨vars1, h0, ?_, h1, h2, h3, h4, h5⟩
  have hl : vm.m_program.length ≠ 0 := by
    simpa using hprog
  simp [executeProgram, hl, hrun, h0]

/-- Input binding on a table with all three input ports and a user
variable. -/
theorem C4_input_binding_witness :
    ∃ vars1,
      bindInputs ratOps portsMachine 3 5 = some vars1 ∧
      executeProgram exampleOpcodes ratOps portsMachine (fun _ => 0) 3 5 0 0 =
        afterLoop ratOps portsMachine 0 0
          (runLoop exampleOpcodes ratOps portsMachine.m_program portsMachine.m_program.length
            { pc := 0, sp := 0, stack := fun _ => 0, vars := vars1 }) ∧
      vars1.map variable_t.name = portsMachine.m_vars.map variable_t.name ∧
      (∀ i, slotNamed portsMachine.m_vars "in" = some i →
        readVar vars1 i = some (ratOps.div (ratOps.add 3 5) ratOps.two)) ∧
      (∀ i, slotNamed portsMachine.m_vars "inl" = some i → readVar vars1 i = some 3) ∧
      (∀ i, slotNamed portsMachine.m_vars "inr" = some i → readVar vars1 i = some 5) ∧
      (∀ i, slotNamed portsMachine.m_vars "in" ≠ some i →
        slotNamed portsMachine.m_vars "inl" ≠ some i →
        slotNamed portsMachine.m_vars "inr" ≠ some i →
        vars1[i]? = portsMachine.m_vars[i]?) :=
  C4_input_binding exampleOpcodes ratOps portsMachine (fun _ => 0) 3 5 0 0
    (Loaded_loadProgram ratOps freshMachine _ _) (by decide) (by decide) rfl

/-- Claim C5 (output resolution). Take a tick of a Running, loaded machine
whose loop runs to the end of the program, leaving the table `s.vars`. Then
the call returns at the end of the function with outputs `l` and `r` such
that: if the table has a slot named `out`, both equal its value; otherwise `l`
is the value of the slot named `outl` if there is one and 0.0 if not, and `r`
is the value of the slot named `outr` if there is one and 0.0 if not. The
table is taken to have at most 2^31 slots. -/
theorem C5_output_resolution {F D : Type} (oc : Opcodes) (fl : FloatOps F D)
    (vm : VirtualMachine F) (stack : Nat → F) (inLeft inRight outLeft outRight : F)
    (vars1 : List (variable_t F)) (s : ExecState F)
    (hload : Loaded fl vm) (hlen : vm.m_vars.length ≤ 2 ^ 31)
    (hprog : vm.m_program ≠ []) (hrun : vm.m_runState = true)
    (hbind : bindInputs fl vm inLeft inRight = some vars1)
    (hloop : runLoop oc fl vm.m_program vm.m_program.length
      { pc := 0, sp := 0, stack := stack, vars := vars1 } = LoopResult.finished s) :
    ∃ l r,
      executeProgram oc fl vm stack inLeft inRight outLeft outRight =
        TickResult.returned Exit.finished { vm with m_vars := s.vars } l r ∧
      s.vars.map variable_t.name = vm.m_vars.map variable_t.name ∧
      (∀ i, slotNamed vm.m_vars "out" = some i → readVar s.vars i = some l ∧ r = l) ∧
      (slotNamed vm.m_vars "out" = none →
        (∀ i, slotNamed vm.m_vars "outl" = some i → readVar s.vars i = some l) ∧
        (slotNamed vm.m_vars "outl" = none → l = fl.zero) ∧
        (∀ i, slotNamed vm.m_vars "outr" = some i → readVar s.vars i = some r) ∧
        (slotNamed vm.m_vars "outr" = none → r = fl.zero)) := by
  obtain ⟨-, -, hlout, hrout, -, hout, -⟩ := (Loaded_iff fl vm hlen).mp hload
  obtain ⟨w, hw, hn1, -⟩ := bindInputs_spec fl vm inLeft inRight hload hlen
  rw [hbind] at hw
  cases hw
  have hnames : s.vars.map variable_t.name = vm.m_vars.map variable_t.name :=
    (runLoop_names oc fl _ _ _ s (Or.inr hloop)).trans hn1
  have hlens : s.vars.length = vm.m_vars.length := by
    simpa using congrArg List.length hnames
  have hl : vm.m_program.length ≠ 0 := by simpa using hprog
  have hex : executeProgram oc fl vm stack inLeft inRight outLeft outRight =
      match readOutputs fl vm s.vars with
      | none => TickResult.fault
      | some (l, r) => TickResult.returned Exit.finished { vm with m_vars := s.vars } l r := by
    have hcond : ¬ (vm.m_program.length = 0 ∨ vm.m_runState = false) := by simp [hl, hrun]
    simp only [executeProgram, if_neg hcond, hbind, hloop, afterLoop]
  rw [hex]
  cases ho : slotNamed vm.m_vars "out" with
  | some i =>
    obtain ⟨x, hx⟩ := readVar_of_lt s.vars i (hlens ▸ slotNamed_lt ho)
    refine ⟨x, x, ?_, hnames, ?_, by simp⟩
    · simp [readOutputs, hout, ho, hx]
    · intro j hj
      cases hj
      exact ⟨hx, rfl⟩
  | none =>
    have key : ∀ (p : Option Nat) (nm : String), p = slotNamed vm.m_vars nm →
        ∃ x, readPort fl s.vars p = some x ∧
          (∀ i, slotNamed vm.m_vars nm = some i → readVar s.vars i = some x) ∧
          (slotNamed vm.m_vars nm = none → x = fl.zero) := by
      intro p nm hp
      rw [hp]
      cases h : slotNamed vm.m_vars nm with
      | some i =>
        obtain ⟨x, hx⟩ := readVar_of_lt s.vars i (hlens ▸ slotNamed_lt h)
        exact ⟨x, hx, fun j hj => by cases hj; exact hx, by simp⟩
      | none => exact ⟨fl.zero, rfl, by simp, fun _ => rfl⟩
    obtain ⟨l, el, al, bl⟩ := key _ _ hlout
    obtain ⟨r, er, ar, br⟩ := key _ _ hrout
    refine ⟨l, r, ?_, hnames, by simp, fun _ => ⟨al, bl, ar, br⟩⟩
    simp [readOutputs, hout, ho, el, er]

/-- Output resolution for the patch `out = 3` on a table that also has
`outl`: both outputs are read from `out`. -/
theorem C5_output_resolution_witness :
    ∃ l r,
      executeProgram exampleOpcodes ratOps outMachine (fun _ => 0) 3 5 0 0 =
        TickResult.returned Exit.finished
          { outMachine with m_vars := [⟨"inl", 3⟩, ⟨"x", 4⟩, ⟨"out", 3⟩, ⟨"outl", 9⟩] } l r ∧
      ([⟨"inl", 3⟩, ⟨"x", 4⟩, ⟨"out", 3⟩, ⟨"outl", 9⟩] : List (variable_t ℚ)).map
          variable_t.name = outMachine.m_vars.map variable_t.name ∧
      (∀ i, slotNamed outMachine.m_vars "out" = some i →
        readVar [⟨"inl", 3⟩, ⟨"x", 4⟩, ⟨"out", 3⟩, ⟨"outl", 9⟩] i = some l ∧ r = l) ∧
      (slotNamed outMachine.m_vars "out" = none →
        (∀ i, slotNamed outMachine.m_vars "outl" = some i →
          readVar [⟨"inl", 3⟩, ⟨"x", 4⟩, ⟨"out", 3⟩, ⟨"outl", 9⟩] i = some l) ∧
        (slotNamed outMachine.m_vars "outl" = none → l = ratOps.zero) ∧
        (∀ i, slotNamed outMachine.m_vars "outr" = some i →
          readVar [⟨"inl", 3⟩, ⟨"x", 4⟩, ⟨"out", 3⟩, ⟨"outl", 9⟩] i = some r) ∧
        (slotNamed outMachine.m_vars "outr" = none → r = ratOps.zero)) :=
  C5_output_resolution exampleOpcodes ratOps outMachine (fun _ => 0) 3 5 0 0
    [⟨"inl", 3⟩, ⟨"x", 4⟩, ⟨"out", 0⟩, ⟨"outl", 9⟩]
    { pc := 3, sp := 0, stack := Function.update (fun _ => 0) 0 3,
      vars := [⟨"inl", 3⟩, ⟨"x", 4⟩, ⟨"out", 3⟩, ⟨"outl", 9⟩] }
    (Loaded_loadProgram ratOps freshMachine _ _) (by decide) (by decide) rfl (by decide) rfl

/-- Claim C6 (operand order). First part: pushing `a`, pushing `b` and then
executing SUB on an empty stack leaves depth one with `a - b` in the only
cell, and likewise DIV leaves `a / b`. Second part: each of ADD, SUB, MUL, DIV
and POW, executed at a depth of at least two, lowers the depth by exactly one
and stores `f(first-pushed, second-pushed)` in the new top cell. Third part:
each of NEG, SIN, COS, SIN1, COS1, TAN, TANH, ABS, SQRT, MOD1 and LIMIT,
executed at a depth of at least one, keeps the depth, the table and every
cell other than the top one. -/
theorem C6_operand_order {F D : Type} (oc : Opcodes) (hoc : oc.Distinct) (fl : FloatOps F D) :
    (∀ (l1 pa l2 pb op : instruction_t F) (stack : Nat → F) (vars : List (variable_t F)),
      IsSimple l1 oc.P_literal → IsSimple l2 oc.P_literal →
      (IsSimple op oc.P_sub →
        ∃ s1, runLoop oc fl [l1, pa, l2, pb, op] 5
            { pc := 0, sp := 0, stack := stack, vars := vars } = LoopResult.finished s1 ∧
          s1.sp = 1 ∧ s1.stack 0 = fl.sub pa.value pb.value ∧ s1.vars = vars) ∧
      (IsSimple op oc.P_div →
        ∃ s1, runLoop oc fl [l1, pa, l2, pb, op] 5
            { pc := 0, sp := 0, stack := stack, vars := vars } = LoopResult.finished s1 ∧
          s1.sp = 1 ∧ s1.stack 0 = fl.div pa.value pb.value ∧ s1.vars = vars)) ∧
    (∀ (code : Nat) (f : F → F → F), (code, f) ∈ binaryCases oc fl →
      ∀ (program : List (instruction_t F)) (s : ExecState F) (c : instruction_t F),
        program[s.pc]? = some c → IsSimple c code → 2 ≤ s.sp → s.sp ≤ 2048 →
        step oc fl program s =
          some { s with pc := s.pc + 1, sp := s.sp - 1,
                        stack := Function.update s.stack (s.sp - 2)
                          (f (s.stack (s.sp - 2)) (s.stack (s.sp - 1))) }) ∧
    (∀ code ∈ unaryLabels oc,
      ∀ (program : List (instruction_t F)) (s : ExecState F) (c : instruction_t F),
        program[s.pc]? = some c → IsSimple c code → 1 ≤ s.sp → s.sp ≤ 2048 →
        ∃ s1, step oc fl program s = some s1 ∧ s1.pc = s.pc + 1 ∧ s1.sp = s.sp ∧
          s1.vars = s.vars ∧ ∀ i, i ≠ s.sp - 1 → s1.stack i = s.stack i) := by
  obtain ⟨hadd, hsub, hmul, hdiv, hneg, hsin, htan, htanh, hcos, hsin1, hcos1, hlit, hmod1,
    habs, hsqrt, hround, hpow, hlimit⟩ := selectSimple_labels oc hoc
  have hbin : ∀ (code : Nat) (f : F → F → F), (code, f) ∈ binaryCases oc fl →
      ∀ (program : List (instruction_t F)) (s : ExecState F) (c : instruction_t F),
        program[s.pc]? = some c → IsSimple c code → 2 ≤ s.sp → s.sp ≤ 2048 →
        step oc fl program s =
          some { s with pc := s.pc + 1, sp := s.sp - 1,
                        stack := Function.update s.stack (s.sp - 2)
                          (f (s.stack (s.sp - 2)) (s.stack (s.sp - 1))) } := by
    intro code f hmem program s c hc hs h2 h3
    obtain ⟨t1, t2⟩ := hs
    simp only [binaryCases, List.mem_cons, Prod.mk.injEq, List.mem_singleton, List.mem_nil_iff,
      or_false] at hmem
    rcases hmem with ⟨rfl, rfl⟩ | ⟨rfl, rfl⟩ | ⟨rfl, rfl⟩ | ⟨rfl, rfl⟩ | ⟨rfl, rfl⟩
    · rw [← t2] at hadd; simp [step, hc, t1, hadd, binaryOp_eq _ _ _ h2 h3]
    · rw [← t2] at hsub; simp [step, hc, t1, hsub, binaryOp_eq _ _ _ h2 h3]
    · rw [← t2] at hmul; simp [step, hc, t1, hmul, binaryOp_eq _ _ _ h2 h3]
    · rw [← t2] at hdiv; simp [step, hc, t1, hdiv, binaryOp_eq _ _ _ h2 h3]
    · rw [← t2] at hpow; simp [step, hc, t1, hpow, binaryOp_eq _ _ _ h2 h3]
  have hseq : ∀ (code : Nat) (f : F → F → F), (code, f) ∈ binaryCases oc fl →
      ∀ (l1 pa l2 pb op : instruction_t F) (stack : Nat → F) (vars : List (variable_t F)),
        IsSimple l1 oc.P_literal → IsSimple l2 oc.P_literal → IsSimple op code →
        ∃ s1, runLoop oc fl [l1, pa, l2, pb, op] 5
            { pc := 0, sp := 0, stack := stack, vars := vars } = LoopResult.finished s1 ∧
          s1.sp = 1 ∧ s1.stack 0 = f pa.value pb.value ∧ s1.vars = vars := by
    intro code f hmem l1 pa l2 pb op stack vars h1 h2 hop
    have s1 : step oc fl [l1, pa, l2, pb, op]
        { pc := 0, sp := 0, stack := stack, vars := vars } =
        some { pc := 2, sp := 1, stack := Function.update stack 0 pa.value, vars := vars } :=
      step_literal oc hoc fl _ _ l1 pa rfl h1 rfl (by simp)
    have s2 : step oc fl [l1, pa, l2, pb, op]
        { pc := 2, sp := 1, stack := Function.update stack 0 pa.value, vars := vars } =
        some { pc := 4, sp := 2,
               stack := Function.update (Function.update stack 0 pa.value) 1 pb.value,
               vars := vars } :=
      step_literal oc hoc fl _ _ l2 pb rfl h2 rfl (by simp)
    have s3 : step oc fl [l1, pa, l2, pb, op]
        { pc := 4, sp := 2,
          stack := Function.update (Function.update stack 0 pa.value) 1 pb.value,
          vars := vars } =
        some { pc := 5, sp := 1,
               stack := Function.update
                 (Function.update (Function.update stack 0 pa.value) 1 pb.value) 0
                 (f pa.value pb.value),
               vars := vars } := by
      have h := hbin code f hmem [l1, pa, l2, pb, op]
        { pc := 4, sp := 2,
          stack := Function.update (Function.update stack 0 pa.value) 1 pb.value,
          vars := vars } op rfl hop (by simp) (by simp)
      simpa using h
    refine ⟨{ pc := 5, sp := 1,
              stack := Function.update
                (Function.update (Function.update stack 0 pa.value) 1 pb.value) 0
                (f pa.value pb.value),
              vars := vars }, by simp [runLoop, s1, s2, s3], rfl, by simp, rfl⟩
  refine ⟨?_, hbin, ?_⟩
  · intro l1 pa l2 pb op stack vars h1 h2
    exact ⟨hseq _ _ (by simp [binaryCases]) l1 pa l2 pb op stack vars h1 h2,
      hseq _ _ (by simp [binaryCases]) l1 pa l2 pb op stack vars h1 h2⟩
  · intro code hmem program s c hc hs h1 h2
    obtain ⟨t1, t2⟩ := hs
    have hu : ∀ f : F → F, ∃ s1, unaryOp f (s.pc + 1) s = some s1 ∧ s1.pc = s.pc + 1 ∧
        s1.sp = s.sp ∧ s1.vars = s.vars ∧ ∀ i, i ≠ s.sp - 1 → s1.stack i = s.stack i := by
      intro f
      refine ⟨_, unaryOp_eq f _ s h1 h2, rfl, rfl, rfl, ?_⟩
      intro i hi
      simp [Function.update, hi]
    simp only [unaryLabels, List.mem_cons, List.mem_singleton, List.mem_nil_iff, or_false] at hmem
    rcases hmem with rfl | rfl | rfl | rfl | rfl | rfl | rfl | rfl | rfl | rfl | rfl
    · rw [← t2] at hneg; simpa [step, hc, t1, hneg] using hu _
    · rw [← t2] at hsin; simpa [step, hc, t1, hsin] using hu _
    · rw [← t2] at hcos; simpa [step, hc, t1, hcos] using hu _
    · rw [← t2] at hsin1; simpa [step, hc, t1, hsin1] using hu _
    · rw [← t2] at hcos1; simpa [step, hc, t1, hcos1] using hu _
    · rw [← t2] at htan; simpa [step, hc, t1, htan] using hu _
    · rw [← t2] at htanh; simpa [step, hc, t1, htanh] using hu _
    · rw [← t2] at habs; simpa [step, hc, t1, habs] using hu _
    · rw [← t2] at hsqrt; simpa [step, hc, t1, hsqrt] using hu _
    · rw [← t2] at hmod1; simpa [step, hc, t1, hmod1] using hu _
    · rw [← t2] at hlimit
      have e1 : sizeSub s.sp 1 = s.sp - 1 := sizeSub_one (by omega)
      have e3 : s.sp - 1 < 2048 := by omega
      refine ⟨{ s with
          pc := s.pc + 1
          stack := Function.update s.stack (s.sp - 1)
            (stdMax fl (stdMin fl (s.stack (s.sp - 1)) fl.one) fl.negOne) },
        by simp [step, hc, t1, hlimit, e1, stackRead, stackWrite, STACK_SIZE, e3],
        rfl, rfl, rfl, ?_⟩
      intro i hi
      simp [Function.update, hi]

/-- Pushing 7, pushing 2 and subtracting leaves `7 - 2` on the rational
arithmetic. -/
theorem C6_operand_order_witness :
    ∃ s1, runLoop exampleOpcodes ratOps
        [instr 12, payload 7, instr 12, payload 2, instr 2] 5
        { pc := 0, sp := 0, stack := fun _ => 0, vars := [] } = LoopResult.finished s1 ∧
      s1.sp = 1 ∧ s1.stack 0 = ratOps.sub 7 2 ∧ s1.vars = [] :=
  ((C6_operand_order exampleOpcodes (by decide) ratOps).1 (instr 12) (payload 7) (instr 12)
    (payload 2) (instr 2) (fun _ => 0) [] (by decide) (by decide)).1 (by decide)

/-- Claim C7, evaluated at a failing input. A patch nested 2045 deep drives the
stack pointer to 2045; the call returns at the test `sp > 2044` and the two
output locations still hold the 1.0 they held before the call, not 0.0. -/
theorem C7_overflow_leaves_outputs_unwritten :
    executeProgram exampleOpcodes ratOps deepMachine (fun _ => 0) 0 0 1 1 =
      TickResult.returned Exit.overflow deepMachine 1 1 ∧
    executeProgram exampleOpcodes ratOps deepMachine (fun _ => 0) 0 0 1 1 ≠
      TickResult.returned Exit.overflow deepMachine 0 0 := by
  obtain ⟨s1, h1, h2⟩ := deepMachine_loop
  have key : executeProgram exampleOpcodes ratOps deepMachine (fun _ => 0) 0 0 1 1 =
      TickResult.returned Exit.overflow deepMachine 1 1 := by
    rw [executeProgram_of_overflow exampleOpcodes ratOps deepMachine (fun _ => 0) 0 0 1 1
      [⟨"outl", 0⟩] s1 deepProgram_ne_nil rfl rfl h1, h2]
    rfl
  refine ⟨key, ?_⟩
  rw [key]
  intro h
  injection h with _ _ h3 _
  exact absurd h3 (by decide)

/-- Claim C8 fails as stated. In the tick of `abortMachine` that the stack
guard aborts, the pop into the user variable `x` executed before the abort
persists: `x` held 0 before the tick and holds 1 after it. -/
theorem C8_counterexample_pop_survives_abort :
    executeProgram exampleOpcodes ratOps abortMachine (fun _ => 0) 0 0 0 0 =
      TickResult.returned Exit.overflow
        { abortMachine with m_vars := [⟨"x", 1⟩, ⟨"outl", 0⟩, ⟨"y", 5⟩] } 0 0 ∧
    readVar abortMachine.m_vars 0 = some 0 ∧
    readVar [(⟨"x", 1⟩ : variable_t ℚ), ⟨"outl", 0⟩, ⟨"y", 5⟩] 0 = some 1 ∧
    (0 : ℚ) ≠ 1 :=
  ⟨abortMachine_tick, rfl, rfl, by decide⟩

/-- Claim C8, amended. When a tick is aborted by the stack guard, the machine
afterwards differs from the machine before at most in its variable table, and
the table keeps its names. The table is the one the input block left, with
the pops executed before the abort applied and nothing undone: a slot holds
the value of the last pop executed into it; a slot into which no pop was
executed holds what the input block left there, which is its value from
before the tick unless an input port (`in`, `inl`, `inr`) points to it. In
particular a slot that no pop instruction of the program targets and no input
port points to has the value it had before the tick. -/
theorem C8_abort_keeps_unpopped_slots {F D : Type} (oc : Opcodes) (fl : FloatOps F D)
    (vm vm1 : VirtualMachine F) (stack : Nat → F) (inLeft inRight outLeft outRight l r : F)
    (h : executeProgram oc fl vm stack inLeft inRight outLeft outRight =
      TickResult.returned Exit.overflow vm1 l r) :
    vm1 = { vm with m_vars := vm1.m_vars } ∧
    vm1.m_vars.map variable_t.name = vm.m_vars.map variable_t.name ∧
    (∃ vars1, bindInputs fl vm inLeft inRight = some vars1 ∧
      ∀ i,
        (∀ x, lastPop ((loopStates oc fl vm.m_program vm.m_program.length
            { pc := 0, sp := 0, stack := stack, vars := vars1 }).filterMap
              (popOf oc vm.m_program)) i = some x →
          readVar vm1.m_vars i = some x) ∧
        (lastPop ((loopStates oc fl vm.m_program vm.m_program.length
            { pc := 0, sp := 0, stack := stack, vars := vars1 }).filterMap
              (popOf oc vm.m_program)) i = none →
          vm1.m_vars[i]? = vars1[i]? ∧
          (vm.m_in ≠ some i → vm.m_lin ≠ some i → vm.m_rin ≠ some i →
            vm1.m_vars[i]? = vm.m_vars[i]?))) ∧
    ∀ i, vm.m_in ≠ some i → vm.m_lin ≠ some i → vm.m_rin ≠ some i →
      (∀ c ∈ vm.m_program, ¬ IsWriteVar oc c i) → vm1.m_vars[i]? = vm.m_vars[i]? := by
  unfold executeProgram at h
  dsimp only at h
  split at h
  · cases h
  · cases hb : bindInputs fl vm inLeft inRight with
    | none => simp [hb] at h
    | some vars1 =>
      simp only [hb] at h
      obtain ⟨hn, hf⟩ := bindInputs_frame hb
      cases hloop : runLoop oc fl vm.m_program vm.m_program.length
          { pc := 0, sp := 0, stack := stack, vars := vars1 } with
      | fault => simp [hloop, afterLoop] at h
      | outOfFuel => simp [hloop, afterLoop] at h
      | finished s =>
        simp only [hloop, afterLoop] at h
        split at h
        · cases h
        · cases h
      | overflow s =>
        simp only [hloop, afterLoop] at h
        cases h
        refine ⟨rfl, (runLoop_names oc fl _ _ _ s (Or.inl hloop)).trans hn,
          ⟨vars1, rfl, ?_⟩, ?_⟩
        · intro i
          obtain ⟨a1, a2⟩ := runLoop_lastPop oc fl vm.m_program vm.m_program.length _ s
            (Or.inl hloop) i
          exact ⟨a1, fun hnone => ⟨a2 hnone, fun h1 h2 h3 => (a2 hnone).trans (hf i h1 h2 h3)⟩⟩
        · intro i h1 h2 h3 h4
          exact (runLoop_frame oc fl _ _ _ s i h4 (Or.inl hloop)).trans (hf i h1 h2 h3)

/-- The aborted tick of `abortMachine`: the only pop executed before the abort
is the one of 1 into `x`; `outl`, whose pop comes after the abort, and `y`
are kept. -/
theorem C8_abort_keeps_unpopped_slots_witness :
    (({ abortMachine with m_vars := [⟨"x", 1⟩, ⟨"outl", 0⟩, ⟨"y", 5⟩] } : VirtualMachine ℚ) =
      { abortMachine with m_vars := [⟨"x", 1⟩, ⟨"outl", 0⟩, ⟨"y", 5⟩] } ∧
    ([⟨"x", 1⟩, ⟨"outl", 0⟩, ⟨"y", 5⟩] : List (variable_t ℚ)).map variable_t.name =
      abortMachine.m_vars.map variable_t.name ∧
    (∃ vars1, bindInputs ratOps abortMachine 0 0 = some vars1 ∧
      ∀ i,
        (∀ x, lastPop ((loopStates exampleOpcodes ratOps abortMachine.m_program
            abortMachine.m_program.length
            { pc := 0, sp := 0, stack := fun _ => 0, vars := vars1 }).filterMap
              (popOf exampleOpcodes abortMachine.m_program)) i = some x →
          readVar [⟨"x", 1⟩, ⟨"outl", 0⟩, ⟨"y", 5⟩] i = some x) ∧
        (lastPop ((loopStates exampleOpcodes ratOps abortMachine.m_program
            abortMachine.m_program.length
            { pc := 0, sp := 0, stack := fun _ => 0, vars := vars1 }).filterMap
              (popOf exampleOpcodes abortMachine.m_program)) i = none →
          ([⟨"x", 1⟩, ⟨"outl", 0⟩, ⟨"y", 5⟩] : List (variable_t ℚ))[i]? = vars1[i]? ∧
          (abortMachine.m_in ≠ some i → abortMachine.m_lin ≠ some i →
            abortMachine.m_rin ≠ some i →
            ([⟨"x", 1⟩, ⟨"outl", 0⟩, ⟨"y", 5⟩] : List (variable_t ℚ))[i]? =
              abortMachine.m_vars[i]?))) ∧
    ∀ i, abortMachine.m_in ≠ some i → abortMachine.m_lin ≠ some i →
      abortMachine.m_rin ≠ some i →
      (∀ c ∈ abortMachine.m_program, ¬ IsWriteVar exampleOpcodes c i) →
      ([⟨"x", 1⟩, ⟨"outl", 0⟩, ⟨"y", 5⟩] : List (variable_t ℚ))[i]? =
        abortMachine.m_vars[i]?) ∧
    bindInputs ratOps abortMachine 0 0 = some [⟨"x", 0⟩, ⟨"outl", 0⟩, ⟨"y", 5⟩] ∧
    (loopStates exampleOpcodes ratOps abortMachine.m_program abortMachine.m_program.length
        { pc := 0, sp := 0, stack := fun _ => 0,
          vars := [⟨"x", 0⟩, ⟨"outl", 0⟩, ⟨"y", 5⟩] }).filterMap
      (popOf exampleOpcodes abortMachine.m_program) = [(0, 1)] ∧
    lastPop [((0 : Nat), (1 : ℚ))] 0 = some 1 ∧
    lastPop [((0 : Nat), (1 : ℚ))] 1 = none ∧
    lastPop [((0 : Nat), (1 : ℚ))] 2 = none :=
  ⟨C8_abort_keeps_unpopped_slots exampleOpcodes ratOps abortMachine _ (fun _ => 0) 0 0 0 0 0 0
      abortMachine_tick,
    by decide, abortMachine_log, by decide, by decide, by decide⟩

/-- Claim C9, evaluated at a failing input. The parser reports failure on a
text whose second statement is malformed and hands back the first statement;
the conversion of that partial list succeeds. The handler sets the status to
"Program error" and all the same calls `loadProgram`: afterwards the machine
holds the program and table of `outl = inl` instead of those of `outl = 0.5`
it had before. -/
theorem C9_failed_parse_replaces_program :
    (brokenFrontEnd.parse (brokenFrontEnd.tokenize brokenWindow.sourceEditor).2).1 = false ∧
    (on_runButton_clicked brokenFrontEnd ratOps PaOutcome.started brokenWindow).map
        (fun w => (w.statusAccepted, w.m_machine.map (fun m => (m.m_program, m.m_vars)))) =
      some (some false, some (identityProgram, [⟨"inl", 0⟩, ⟨"outl", 0⟩])) ∧
    brokenWindow.m_machine.map (fun m => (m.m_program, m.m_vars)) =
      some (halfProgram, [⟨"outl", 0⟩]) ∧
    halfProgram ≠ identityProgram := by
  refine ⟨rfl, ?_, rfl, by decide⟩
  decide

/-- Claim C10. `loadProgram` stores exactly the given program and table, leaves
the run state and the input source as they were, and sets every port from the
new table alone: each of `inl`, `inr`, `outl`, `outr`, `in`, `out` and
`slider1` to `slider4` points to `slotNamed vars name`, which is the first
slot carrying that name (the index `findVariableByName` returns) when the
name occurs in the table and the null pointer when it does not. Nothing of
the previous bindings enters the result. The table is taken to have at most
2^31 slots. -/
theorem C10_loadProgram_rebinds_ports {F D : Type} (fl : FloatOps F D) (vm : VirtualMachine F)
    (program : List (instruction_t F)) (vars : List (variable_t F))
    (hlen : vars.length ≤ 2 ^ 31) :
    (loadProgram fl vm program vars).m_program = program ∧
    (loadProgram fl vm program vars).m_vars = vars ∧
    (loadProgram fl vm program vars).m_lin = slotNamed vars "inl" ∧
    (loadProgram fl vm program vars).m_rin = slotNamed vars "inr" ∧
    (loadProgram fl vm program vars).m_lout = slotNamed vars "outl" ∧
    (loadProgram fl vm program vars).m_rout = slotNamed vars "outr" ∧
    (loadProgram fl vm program vars).m_in = slotNamed vars "in" ∧
    (loadProgram fl vm program vars).m_out = slotNamed vars "out" ∧
    (loadProgram fl vm program vars).m_slider =
      [slotNamed vars "slider1", slotNamed vars "slider2", slotNamed vars "slider3",
       slotNamed vars "slider4"] ∧
    (loadProgram fl vm program vars).m_runState = vm.m_runState ∧
    (loadProgram fl vm program vars).m_source = vm.m_source ∧
    (∀ name i, slotNamed vars name = some i ↔
      (∃ v, vars[i]? = some v ∧ v.name = name) ∧
      ∀ j v, j < i → vars[j]? = some v → v.name ≠ name) ∧
    (∀ name, slotNamed vars name = none ↔ ∀ v ∈ vars, v.name ≠ name) ∧
    (∀ name, findVariableByName vars name =
      match slotNamed vars name with
      | some i => (i : Int)
      | none => -1) := by
  obtain ⟨h1, h2, h3, h4, h5, h6, h7⟩ := loadProgram_ports fl vm program vars hlen
  refine ⟨rfl, rfl, h1, h2, h3, h4, h5, h6, h7, rfl, rfl, slotNamed_eq_some_iff vars,
    slotNamed_eq_none_iff vars, ?_⟩
  intro name
  exact findVariableByNameFrom_eq name vars 0 (by omega)

/-- Loading over a machine that had `inl` bound: `inl` is unbound afterwards,
`outl` points to the first of two slots of that name, `slider2` is bound. -/
theorem C10_loadProgram_rebinds_ports_witness :
    (loadProgram ratOps (identityMachine 7 9) constantProgram
        [⟨"x", 1⟩, ⟨"outl", 0⟩, ⟨"slider2", 0⟩, ⟨"outl", 4⟩]).m_lin = none ∧
    (loadProgram ratOps (identityMachine 7 9) constantProgram
        [⟨"x", 1⟩, ⟨"outl", 0⟩, ⟨"slider2", 0⟩, ⟨"outl", 4⟩]).m_lout = some 1 ∧
    (loadProgram ratOps (identityMachine 7 9) constantProgram
        [⟨"x", 1⟩, ⟨"outl", 0⟩, ⟨"slider2", 0⟩, ⟨"outl", 4⟩]).m_slider =
      [none, some 2, none, none] := by
  obtain ⟨-, -, h1, -, h2, -, -, -, h3, -⟩ :=
    C10_loadProgram_rebinds_ports ratOps (identityMachine 7 9) constantProgram
      [⟨"x", 1⟩, ⟨"outl", 0⟩, ⟨"slider2", 0⟩, ⟨"outl", 4⟩] (by decide)
  exact ⟨h1, h2, h3⟩

/-- Claim C11.  On a machine whose pointers are those `loadProgram` resolved:
if `id < 4` and the table has the name `slider(id+1)` (first at slot `i`),
`setSlider id value` returns a machine that differs from the old one in
`m_vars` only, slot `i` then holds `value`, the names are the same and every
other slot is unchanged; if `4 ≤ id` or the table has no such name, the
machine is returned unchanged. -/
theorem C11_setSlider {F D : Type} (fl : FloatOps F D) (vm : VirtualMachine F) (id : Nat)
    (value : F) (hload : Loaded fl vm) (hlen : vm.m_vars.length ≤ 2 ^ 31) :
    (∀ i, id < 4 → slotNamed vm.m_vars (sliderName id) = some i →
      ∃ vm1, setSlider vm id value = some vm1 ∧
        vm1 = { vm with m_vars := vm1.m_vars } ∧
        readVar vm1.m_vars i = some value ∧
        vm1.m_vars.map variable_t.name = vm.m_vars.map variable_t.name ∧
        ∀ j, j ≠ i → vm1.m_vars[j]? = vm.m_vars[j]?) ∧
    ((4 ≤ id ∨ slotNamed vm.m_vars (sliderName id) = none) →
      setSlider vm id value = some vm) := by
  obtain ⟨-, -, -, -, -, -, hsl⟩ := (Loaded_iff fl vm hlen).mp hload
  have hget : id < 4 → vm.m_slider.getD id none = slotNamed vm.m_vars (sliderName id) := by
    intro h
    rw [hsl]
    have : id = 0 ∨ id = 1 ∨ id = 2 ∨ id = 3 := by omega
    rcases this with rfl | rfl | rfl | rfl <;> rfl
  constructor
  · intro i hid hi
    obtain ⟨w, hw, hn, hr, hf⟩ := writeVar_spec vm.m_vars i value (slotNamed_lt hi)
    refine ⟨{ vm with m_vars := w }, ?_, rfl, hr, hn, hf⟩
    simp only [setSlider, if_pos hid, hget hid, hi, hw]
  · intro h
    rcases h with h | h
    · simp [setSlider, Nat.not_lt.mpr h]
    · by_cases hid : id < 4
      · simp only [setSlider, if_pos hid, hget hid, h]
      · simp [setSlider, hid]

/-- Setting the second slider to 7 on a table that has `slider2` in slot 1. -/
theorem C11_setSlider_witness :
    (∀ i, 1 < 4 → slotNamed sliderMachine.m_vars (sliderName 1) = some i →
      ∃ vm1, setSlider sliderMachine 1 7 = some vm1 ∧
        vm1 = { sliderMachine with m_vars := vm1.m_vars } ∧
        readVar vm1.m_vars i = some 7 ∧
        vm1.m_vars.map variable_t.name = sliderMachine.m_vars.map variable_t.name ∧
        ∀ j, j ≠ i → vm1.m_vars[j]? = sliderMachine.m_vars[j]?) ∧
    ((4 ≤ 1 ∨ slotNamed sliderMachine.m_vars (sliderName 1) = none) →
      setSlider sliderMachine 1 7 = some sliderMachine) :=
  C11_setSlider ratOps sliderMachine 1 7 (Loaded_loadProgram ratOps freshMachine _ _)
    (by decide)

/-- Claim C12.  When `tryLock` answers false, `processSamples` returns with
the machine unchanged (program, table, levels, ring buffers: no instruction
ran) and with the first `2 * framesPerBuffer` cells of the output buffer set
to `0.0f`, the cells after them untouched, whatever the program, the source,
the input buffer and the previous content of the output buffer are. -/
theorem C12_contention_gives_silence {F D : Type} (oc : Opcodes) (fl : FloatOps F D)
    (sc : SampleConsts F) (rand : Nat → Int) (stackOf : Nat → Nat → F)
    (vm : VirtualMachine F) (inbuf outbuf : List F) (framesPerBuffer : Nat)
    (hbuf : 2 * framesPerBuffer ≤ outbuf.length) :
    processSamples oc fl sc false rand stackOf vm inbuf outbuf framesPerBuffer =
      some (vm, List.replicate (2 * framesPerBuffer) fl.zero ++
        outbuf.drop (2 * framesPerBuffer)) := by
  obtain ⟨out1, e1, l1, g1⟩ := muteLoop_spec fl framesPerBuffer 0 outbuf (by omega)
  have : out1 = List.replicate (2 * framesPerBuffer) fl.zero ++
      outbuf.drop (2 * framesPerBuffer) := by
    apply List.ext_getElem?
    intro j
    rw [g1 j]
    by_cases c : j < 2 * framesPerBuffer
    · rw [if_pos (by omega), List.getElem?_append_left (by simpa using c),
        List.getElem?_replicate, if_pos c]
    · rw [if_neg (by omega), List.getElem?_append_right (by simpa using c)]
      simp only [List.length_replicate, List.getElem?_drop]
      congr 1
      omega
  simp [processSamples, e1, this]

/-- Two frames without the lock on an output buffer of five cells: four zeros,
the fifth cell untouched. -/
theorem C12_contention_gives_silence_witness :
    processSamples exampleOpcodes ratOps ratConsts false (fun _ => 0) (fun _ _ => 0)
        (identityMachine 7 9) [3, 5, 3, 5] [1, 2, 3, 4, 5] 2 =
      some (identityMachine 7 9,
        List.replicate (2 * 2) ratOps.zero ++ List.drop (2 * 2) [1, 2, 3, 4, 5]) :=
  C12_contention_gives_silence exampleOpcodes ratOps ratConsts (fun _ => 0) (fun _ _ => 0)
    (identityMachine 7 9) [3, 5, 3, 5] [1, 2, 3, 4, 5] 2 (by decide)

/-- Claim C14.  In every state reached from the constructed machine by
calls of `start`, `stop`, `loadProgram`, `setSlider` and `setSource`, with
any answers of the audio library: `start` returns true exactly when the
stream opened and started, the machine is Running after a call that returned
true, and `m_runState` is false after a call that returned false. -/
theorem C14_start_outcome {F D : Type} (fl : FloatOps F D) (vm : VirtualMachine F)
    (pa : PaOutcome) (h : Reachable fl vm) :
    ((start fl vm pa).2 = true ↔ pa = PaOutcome.started) ∧
    ((start fl vm pa).2 = true → (start fl vm pa).1.m_runState = true) ∧
    ((start fl vm pa).2 = false → (start fl vm pa).1.m_runState = false) := by
  have inv := reachable_stream_of_running h
  have hfalse : (if vm.m_stream = true then ({ vm with m_runState := false } : VirtualMachine F)
      else vm).m_runState = false := by
    by_cases hs : vm.m_stream = true
    · simp [hs]
    · simp only [hs, if_false]
      by_contra hr
      exact hs (inv (by simpa using hr))
  cases pa with
  | started => exact ⟨by simp [start], fun _ => rfl, fun h => by simp [start] at h⟩
  | startFailed =>
    refine ⟨by simp [start], fun h => by simp [start] at h, fun _ => ?_⟩
    exact hfalse
  | openFailed stream =>
    refine ⟨by simp [start], fun h => by simp [start] at h, fun _ => ?_⟩
    exact hfalse

/-- A second `start` whose stream fails to open, after one that succeeded. -/
theorem C14_start_outcome_witness :
    ((start ratOps (start ratOps (construct ratOps) PaOutcome.started).1
        (PaOutcome.openFailed false)).2 = true ↔
      PaOutcome.openFailed false = PaOutcome.started) ∧
    ((start ratOps (start ratOps (construct ratOps) PaOutcome.started).1
        (PaOutcome.openFailed false)).2 = true →
      (start ratOps (start ratOps (construct ratOps) PaOutcome.started).1
        (PaOutcome.openFailed false)).1.m_runState = true) ∧
    ((start ratOps (start ratOps (construct ratOps) PaOutcome.started).1
        (PaOutcome.openFailed false)).2 = false →
      (start ratOps (start ratOps (construct ratOps) PaOutcome.started).1
        (PaOutcome.openFailed false)).1.m_runState = false) :=
  C14_start_outcome ratOps (start ratOps (construct ratOps) PaOutcome.started).1
    (PaOutcome.openFailed false)
    (Reachable.start (construct ratOps) PaOutcome.started Reachable.construct)

/-- Claim C15.  From every machine state `stop` leaves `m_runState` false and
no stream, a second `stop` changes nothing more, and the program, the table
and the port and slider pointers are what they were. -/
theorem C15_stop_idempotent {F D : Type} (fl : FloatOps F D) (vm : VirtualMachine F) :
    (stop fl vm).m_runState = false ∧ (stop fl vm).m_stream = false ∧
    stop fl (stop fl vm) = stop fl vm ∧
    (stop fl vm).m_program = vm.m_program ∧ (stop fl vm).m_vars = vm.m_vars ∧
    (stop fl vm).m_lin = vm.m_lin ∧ (stop fl vm).m_rin = vm.m_rin ∧
    (stop fl vm).m_lout = vm.m_lout ∧ (stop fl vm).m_rout = vm.m_rout ∧
    (stop fl vm).m_in = vm.m_in ∧ (stop fl vm).m_out = vm.m_out ∧
    (stop fl vm).m_slider = vm.m_slider :=
  ⟨rfl, rfl, rfl, rfl, rfl, rfl, rfl, rfl, rfl, rfl, rfl, rfl⟩

/-- Claim C16.  The instruction `P_round` with `a` pushed first and `b`
second: when `b != 0.0f` is false it pops `b` and changes no cell, so `a` is
on top, and the same state results under every float arithmetic that agrees
on `!=` and `0.0f` (division, rounding and multiplication are not used);
when `b != 0.0f` holds, the top after the pop is `b * round(a / b)` and no
other cell changes. -/
theorem C16_round_guard {F D : Type} (oc : Opcodes) (hoc : oc.Distinct) (fl : FloatOps F D)
    (program : List (instruction_t F)) (s : ExecState F) (c : instruction_t F) (a b : F)
    (hc : program[s.pc]? = some c) (hr : IsSimple c oc.P_round)
    (h2 : 2 ≤ s.sp) (h3 : s.sp ≤ 2048)
    (ha : s.stack (s.sp - 2) = a) (hb : s.stack (s.sp - 1) = b) :
    (fl.ne b fl.zero = false →
      ∃ s1, step oc fl program s = some s1 ∧ s1.pc = s.pc + 1 ∧ s1.sp = s.sp - 1 ∧
        s1.stack = s.stack ∧ s1.vars = s.vars ∧ s1.stack (s1.sp - 1) = a ∧
        ∀ fl2 : FloatOps F D, fl2.ne = fl.ne → fl2.zero = fl.zero →
          step oc fl2 program s = some s1) ∧
    (fl.ne b fl.zero = true →
      ∃ s1, step oc fl program s = some s1 ∧ s1.pc = s.pc + 1 ∧ s1.sp = s.sp - 1 ∧
        s1.vars = s.vars ∧ s1.stack (s1.sp - 1) = fl.mul b (fl.round (fl.div a b)) ∧
        ∀ i, i ≠ s.sp - 2 → s1.stack i = s.stack i) := by
  obtain ⟨t1, t2⟩ := hr
  have hsel := (selectSimple_labels oc hoc).2.2.2.2.2.2.2.2.2.2.2.2.2.2.2.1
  rw [← t2] at hsel
  have e1 : sizeSub s.sp 1 = s.sp - 1 := sizeSub_one (by omega)
  have e2 : sizeSub (s.sp - 1) 1 = s.sp - 2 := by
    rw [sizeSub_one (by omega)]; rfl
  have e3 : s.sp - 1 < 2048 := by omega
  have e4 : s.sp - 2 < 2048 := by omega
  constructor
  · intro hz
    have key : ∀ fl2 : FloatOps F D, fl2.ne = fl.ne → fl2.zero = fl.zero →
        step oc fl2 program s = some { s with pc := s.pc + 1, sp := s.sp - 1 } := by
      intro fl2 g1 g2
      simp [step, hc, t1, hsel, e1, stackRead, STACK_SIZE, e3, hb, g1, g2, hz]
    refine ⟨{ s with pc := s.pc + 1, sp := s.sp - 1 }, key fl rfl rfl, rfl, rfl, rfl, rfl,
      ?_, key⟩
    rw [← ha]; rfl
  · intro hz
    refine ⟨{ s with pc := s.pc + 1, sp := s.sp - 1,
                     stack := Function.update s.stack (s.sp - 2)
                       (fl.mul b (fl.round (fl.div a b))) }, ?_, rfl, rfl, rfl, ?_, ?_⟩
    · simp [step, hc, t1, hsel, e1, e2, stackRead, stackWrite, STACK_SIZE, e3, e4, hb, ha, hz]
    · show Function.update s.stack (s.sp - 2) _ (s.sp - 1 - 1) = _
      have : s.sp - 1 - 1 = s.sp - 2 := rfl
      rw [this, Function.update_same]
    · intro i hi
      show Function.update s.stack (s.sp - 2) _ i = _
      rw [Function.update_noteq hi]

/-- The instruction `P_round` with the operands 7 and 0. -/
theorem C16_round_guard_witness :
    ∃ s1, step exampleOpcodes ratOps [instr 16] roundState = some s1 ∧
      s1.pc = roundState.pc + 1 ∧ s1.sp = roundState.sp - 1 ∧
      s1.stack = roundState.stack ∧ s1.vars = roundState.vars ∧ s1.stack (s1.sp - 1) = 7 ∧
      ∀ fl2 : FloatOps ℚ ℚ, fl2.ne = ratOps.ne → fl2.zero = ratOps.zero →
        step exampleOpcodes fl2 [instr 16] roundState = some s1 :=
  (C16_round_guard exampleOpcodes (by decide) ratOps [instr 16] roundState (instr 16) 7 0 rfl
    (by decide) (by decide) (by decide) rfl rfl).1 ratOps_ne_zero_zero

/-- Claim C17.  For a float comparison `<` that is asymmetric and transitive
with `-1.0f < 1.0f`: the instruction `P_limit` replaces the top `x` by `y`,
where `y = 1.0f` if `1.0f < x`, `y = -1.0f` if `x < -1.0f` and `y = x`
otherwise; `y` is neither above `1.0f` nor below `-1.0f`, clamping `y` again
returns `y`, and the stack pointer, the other cells and the table are
unchanged. -/
theorem C17_limit_clamps {F D : Type} (oc : Opcodes) (hoc : oc.Distinct) (fl : FloatOps F D)
    (hasymm : ∀ a b : F, fl.lt a b = true → fl.lt b a = false)
    (htrans : ∀ a b c : F, fl.lt a b = true → fl.lt b c = true → fl.lt a c = true)
    (hone : fl.lt fl.negOne fl.one = true)
    (program : List (instruction_t F)) (s : ExecState F) (c : instruction_t F) (x : F)
    (hc : program[s.pc]? = some c) (hl : IsSimple c oc.P_limit)
    (h1 : 1 ≤ s.sp) (h2 : s.sp ≤ 2048) (hx : s.stack (s.sp - 1) = x) :
    ∃ s1 y, step oc fl program s = some s1 ∧ s1.pc = s.pc + 1 ∧ s1.sp = s.sp ∧
      s1.vars = s.vars ∧ s1.stack (s.sp - 1) = y ∧
      (∀ i, i ≠ s.sp - 1 → s1.stack i = s.stack i) ∧
      (fl.lt fl.one x = true → y = fl.one) ∧
      (fl.lt x fl.negOne = true → y = fl.negOne) ∧
      (fl.lt fl.one x = false → fl.lt x fl.negOne = false → y = x) ∧
      fl.lt fl.one y = false ∧ fl.lt y fl.negOne = false ∧
      stdMax fl (stdMin fl y fl.one) fl.negOne = y := by
  obtain ⟨t1, t2⟩ := hl
  have hsel := (selectSimple_labels oc hoc).2.2.2.2.2.2.2.2.2.2.2.2.2.2.2.2.2
  rw [← t2] at hsel
  have e1 : sizeSub s.sp 1 = s.sp - 1 := sizeSub_one (by omega)
  have e3 : s.sp - 1 < 2048 := by omega
  have hirr : ∀ a : F, fl.lt a a = false := by
    intro a
    cases h : fl.lt a a with
    | false => rfl
    | true => rw [hasymm a a h] at h; cases h
  have h11 : fl.lt fl.one fl.negOne = false := hasymm _ _ hone
  have hstep : step oc fl program s =
      some { s with pc := s.pc + 1,
                    stack := Function.update s.stack (s.sp - 1)
                      (stdMax fl (stdMin fl x fl.one) fl.negOne) } := by
    simp [step, hc, t1, hsel, e1, stackRead, stackWrite, STACK_SIZE, e3, hx]
  have key : (fl.lt fl.one x = true → stdMax fl (stdMin fl x fl.one) fl.negOne = fl.one) ∧
      (fl.lt x fl.negOne = true → stdMax fl (stdMin fl x fl.one) fl.negOne = fl.negOne) ∧
      (fl.lt fl.one x = false → fl.lt x fl.negOne = false →
        stdMax fl (stdMin fl x fl.one) fl.negOne = x) := by
    refine ⟨?_, ?_, ?_⟩
    · intro g
      simp [stdMax, stdMin, g, h11]
    · intro g
      have g2 : fl.lt fl.one x = false := by
        cases h : fl.lt fl.one x with
        | false => rfl
        | true => rw [htrans _ _ _ h g] at h11; cases h11
      simp [stdMax, stdMin, g, g2]
    · intro g g2
      simp [stdMax, stdMin, g, g2]
  have hy : fl.lt fl.one (stdMax fl (stdMin fl x fl.one) fl.negOne) = false ∧
      fl.lt (stdMax fl (stdMin fl x fl.one) fl.negOne) fl.negOne = false := by
    cases g : fl.lt fl.one x with
    | true => rw [key.1 g]; exact ⟨hirr _, h11⟩
    | false =>
      cases g2 : fl.lt x fl.negOne with
      | true => rw [key.2.1 g2]; exact ⟨h11, hirr _⟩
      | false => rw [key.2.2 g g2]; exact ⟨g, g2⟩
  refine ⟨_, stdMax fl (stdMin fl x fl.one) fl.negOne, hstep, rfl, rfl, rfl, ?_, ?_, key.1,
    key.2.1, key.2.2, hy.1, hy.2, ?_⟩
  · simp
  · intro i hi
    simp [Function.update, hi]
  · have idem : ∀ y : F, fl.lt fl.one y = false → fl.lt y fl.negOne = false →
        stdMax fl (stdMin fl y fl.one) fl.negOne = y := by
      intro y g g2
      simp [stdMax, stdMin, g, g2]
    exact idem _ hy.1 hy.2

/-- The instruction `P_limit` on the rationals with 3 on top. -/
theorem C17_limit_clamps_witness :
    ∃ s1 y, step exampleOpcodes ratOps [instr 18] limitState = some s1 ∧
      s1.pc = limitState.pc + 1 ∧ s1.sp = limitState.sp ∧
      s1.vars = limitState.vars ∧ s1.stack (limitState.sp - 1) = y ∧
      (∀ i, i ≠ limitState.sp - 1 → s1.stack i = limitState.stack i) ∧
      (ratOps.lt ratOps.one 3 = true → y = ratOps.one) ∧
      (ratOps.lt 3 ratOps.negOne = true → y = ratOps.negOne) ∧
      (ratOps.lt ratOps.one 3 = false → ratOps.lt 3 ratOps.negOne = false → y = 3) ∧
      ratOps.lt ratOps.one y = false ∧ ratOps.lt y ratOps.negOne = false ∧
      stdMax ratOps (stdMin ratOps y ratOps.one) ratOps.negOne = y :=
  C17_limit_clamps exampleOpcodes (by decide) ratOps ratOps_lt_asymm ratOps_lt_trans
    ratOps_negOne_lt_one [instr 18] limitState (instr 18) 3 rfl (by decide) (by decide)
    (by decide) rfl

/-- Claim C19.  `execFIR` and `execBiquad` return 0 for every argument count,
and a cell decoded as `P_fir` or `P_biquad` moves the program counter by one
and leaves the stack pointer, every stack cell and the table unchanged. -/
theorem C19_filter_ops_are_stubs {F D : Type} (oc : Opcodes) (hoc : oc.Distinct)
    (fl : FloatOps F D) (program : List (instruction_t F)) (s : ExecState F)
    (c : instruction_t F) (n : Nat) (hc : program[s.pc]? = some c)
    (hf : IsFir oc c n ∨ IsBiquad oc c n) :
    execFIR n = 0 ∧ execBiquad n = 0 ∧
    ∃ s1, step oc fl program s = some s1 ∧ s1.pc = s.pc + 1 ∧ s1.sp = s.sp ∧
      s1.stack = s.stack ∧ s1.vars = s.vars := by
  refine ⟨rfl, rfl, { s with pc := s.pc + 1 }, ?_, rfl, rfl, rfl, rfl⟩
  rcases hf with ⟨h1, h2, -⟩ | ⟨h1, h2, -⟩
  · simp [step, hc, h1, h2, selectSpecial_fir oc hoc, execFIR, sizeSub_zero]
  · simp [step, hc, h1, h2, selectSpecial_biquad oc hoc, execBiquad, sizeSub_zero]

/-- A `P_fir` cell with argument count 3 on a stack of two cells. -/
theorem C19_filter_ops_are_stubs_witness :
    execFIR 3 = 0 ∧ execBiquad 3 = 0 ∧
    ∃ s1, step exampleOpcodes ratOps [instr 0x82000003] roundState = some s1 ∧
      s1.pc = roundState.pc + 1 ∧ s1.sp = roundState.sp ∧
      s1.stack = roundState.stack ∧ s1.vars = roundState.vars :=
  C19_filter_ops_are_stubs exampleOpcodes (by decide) ratOps [instr 0x82000003] roundState
    (instr 0x82000003) 3 rfl (Or.inl (by decide))

/-- Claim C20, evaluated on the compiled form of `outl = -inl`: `dump` prints
`READ inl`, `UNKNOWN`, `WRITE outl` after its header, while a tick of the
same machine with 3 on the left input negates it and returns -3: the
`switch` of `executeProgram` selects the negation for the code 5, the `switch`
of `dump` has no case for it and takes its `default`, though it has one for
the code 1 of the addition. -/
theorem C20_dump_prints_neg_as_unknown :
    dump exampleOpcodes showRat negMachine =
      some "-- VIRTUAL MACHINE PROGRAM --\n\nREAD inl\nUNKNOWN\nWRITE outl\n" ∧
    executeProgram exampleOpcodes ratOps negMachine (fun _ => 0) 3 0 9 9 =
      TickResult.returned Exit.finished
        { negMachine with m_vars := [⟨"inl", 3⟩, ⟨"outl", -3⟩] } (-3) 0 ∧
    selectSimple exampleOpcodes 5 = SimpleCase.neg ∧
    dumpSimple exampleOpcodes 5 = DumpCase.line "UNKNOWN" ∧
    dumpSimple exampleOpcodes 1 = DumpCase.line "ADD" :=
  ⟨by decide, by decide, by decide, by decide, by decide⟩

/-- Claim C21.  Take a tick of a machine whose port pointers are those
`loadProgram` resolved on its table (at most 2^31 slots), and suppose that
every instruction the loop starts is well formed: a push or pop of a variable
has its index below the table size, a literal is followed by a payload cell,
and the stack holds at least the operands of the instruction (one for a unary
case and a pop, two for a binary case).  Then the call returns without any
access outside the program, the table or the stack; every instruction starts
inside the program with at most 2044 cells in use and a table of unchanged
size, executes without such an access, and moves the stack pointer by at most
one, so the stack pointer never wraps below zero. -/
theorem C21_tick_safety {F D : Type} (oc : Opcodes) (fl : FloatOps F D)
    (vm : VirtualMachine F) (stack : Nat → F) (inLeft inRight outLeft outRight : F)
    (hload : Loaded fl vm) (hlen : vm.m_vars.length ≤ 2 ^ 31)
    (hwf : ∀ vars1, bindInputs fl vm inLeft inRight = some vars1 →
      ∀ t ∈ loopStates oc fl vm.m_program vm.m_program.length
          { pc := 0, sp := 0, stack := stack, vars := vars1 },
        WellFormedAt oc vm.m_program vm.m_vars.length t) :
    (∃ how vm1 l r, executeProgram oc fl vm stack inLeft inRight outLeft outRight =
      TickResult.returned how vm1 l r) ∧
    ∃ vars1, bindInputs fl vm inLeft inRight = some vars1 ∧
      ∀ t ∈ loopStates oc fl vm.m_program vm.m_program.length
          { pc := 0, sp := 0, stack := stack, vars := vars1 },
        t.pc < vm.m_program.length ∧ t.sp ≤ 2044 ∧ t.vars.length = vm.m_vars.length ∧
        ∃ t1, step oc fl vm.m_program t = some t1 ∧ t1.vars.length = vm.m_vars.length ∧
          t1.sp ≤ t.sp + 1 ∧ t.sp ≤ t1.sp + 1 := by
  obtain ⟨vars1, hb, hn, -⟩ := bindInputs_spec fl vm inLeft inRight hload hlen
  have hsz : vars1.length = vm.m_vars.length := by
    simpa using congrArg List.length hn
  obtain ⟨a1, a2⟩ := runLoop_safe oc fl vm.m_program vm.m_vars.length vm.m_program.length
    { pc := 0, sp := 0, stack := stack, vars := vars1 } hsz (by simp) (hwf vars1 hb)
  refine ⟨?_, vars1, hb, a2⟩
  unfold executeProgram
  dsimp only
  split
  · exact ⟨_, _, _, _, rfl⟩
  · simp only [hb]
    have hfuel := runLoop_ne_outOfFuel oc fl vm.m_program vm.m_program.length
      { pc := 0, sp := 0, stack := stack, vars := vars1 } (by simp)
    cases hloop : runLoop oc fl vm.m_program vm.m_program.length
        { pc := 0, sp := 0, stack := stack, vars := vars1 } with
    | fault => exact absurd hloop a1
    | outOfFuel => exact absurd hloop hfuel
    | overflow s => exact ⟨_, _, _, _, rfl⟩
    | finished s =>
      have hs : s.vars.length = vm.m_vars.length := by
        have := runLoop_names oc fl _ _ _ s (Or.inr hloop)
        rw [← hsz]
        simpa using congrArg List.length this
      obtain ⟨l, r, hlr⟩ := readOutputs_of_loaded fl vm s.vars hload hlen hs
      exact ⟨Exit.finished, { vm with m_vars := s.vars }, l, r, by simp [afterLoop, hlr]⟩

/-- A tick of the patch `outl = -inl` with 3 on the left input: its three
instructions are well formed, and the tick returns. -/
theorem C21_tick_safety_witness :
    (∃ how vm1 l r, executeProgram exampleOpcodes ratOps negMachine (fun _ => 0) 3 0 9 9 =
      TickResult.returned how vm1 l r) ∧
    ∃ vars1, bindInputs ratOps negMachine 3 0 = some vars1 ∧
      ∀ t ∈ loopStates exampleOpcodes ratOps negMachine.m_program negMachine.m_program.length
          { pc := 0, sp := 0, stack := fun _ => 0, vars := vars1 },
        t.pc < negMachine.m_program.length ∧ t.sp ≤ 2044 ∧
        t.vars.length = negMachine.m_vars.length ∧
        ∃ t1, step exampleOpcodes ratOps negMachine.m_program t = some t1 ∧
          t1.vars.length = negMachine.m_vars.length ∧
          t1.sp ≤ t.sp + 1 ∧ t.sp ≤ t1.sp + 1 :=
  C21_tick_safety exampleOpcodes ratOps negMachine (fun _ => 0) 3 0 9 9
    (Loaded_loadProgram ratOps freshMachine _ _) (by decide)
    (fun vars1 hb => by
      have e : bindInputs ratOps negMachine 3 0 = some [⟨"inl", 3⟩, ⟨"outl", 0⟩] := by decide
      rw [e] at hb
      cases hb
      decide)

end BasicDSP
